import Mathlib

/-!
# urlmon protocol transfer reader (`dlls/urlmon/protocol.c`)

A shallow embedding of the transfer state machine of `protocol.c`:
`report_result`, `report_data`, `all_data_read`, `protocol_read` and the
connection lifecycle functions.

* The `Protocol` record carries the fields of the C structure that the
  functions touch.  `DWORD`/`ULONG` fields are natural numbers; arithmetic on
  them is reduced modulo `2 ^ 32` where the C code can wrap.
* The WinINet transport is a parameter: a state type `τ` with the two calls
  `InternetReadFile` and `InternetQueryDataAvailable`.
* Every call to the transport and every notification pushed to the sink is
  recorded, in order, in a list of `Event`s.
* The `while` loop of `protocol_read` is iterated with a fuel argument; the
  loop body is the function `protocol_read_body`.
* A call of the sink or of the transport does not call back into the transfer
  reader: apart from the value `InternetQueryDataAvailable` stores in
  `available_bytes`, the transfer changes only through the code of `protocol.c`.
-/

namespace Urlmon

/-! ## Constants -/

/-- Flag bit `FLAG_REQUEST_COMPLETE` (protocol.c line 49). -/
def FLAG_REQUEST_COMPLETE : Nat := 0x0001

/-- Flag bit `FLAG_FIRST_CONTINUE_COMPLETE` (protocol.c line 50). -/
def FLAG_FIRST_CONTINUE_COMPLETE : Nat := 0x0002

/-- Flag bit `FLAG_FIRST_DATA_REPORTED` (protocol.c line 51). -/
def FLAG_FIRST_DATA_REPORTED : Nat := 0x0004

/-- Flag bit `FLAG_ALL_DATA_READ` (protocol.c line 52). -/
def FLAG_ALL_DATA_READ : Nat := 0x0008

/-- Flag bit `FLAG_LAST_DATA_REPORTED` (protocol.c line 53). -/
def FLAG_LAST_DATA_REPORTED : Nat := 0x0010

/-- Flag bit `FLAG_RESULT_REPORTED` (protocol.c line 54). -/
def FLAG_RESULT_REPORTED : Nat := 0x0020

/-- Modelled from the spec: the header defining the `HRESULT` codes is not part
of the sources at hand.  `S_OK` is the status Success; the value is the one of
`winerror.h`. -/
def S_OK : Int := 0

/-- Modelled from the spec: status NoMoreData / EndOfStream (`S_FALSE` of
`winerror.h`), a success code different from `S_OK`. -/
def S_FALSE : Int := 1

/-- Modelled from the spec: status Pending (`E_PENDING`, `0x8000000A` read as a
signed 32-bit value), a failure code. -/
def E_PENDING : Int := 0x8000000A - 0x100000000

/-- Modelled from the spec: status TransportFailure
(`INET_E_DOWNLOAD_FAILURE`, `0x800C0008` read as a signed 32-bit value). -/
def INET_E_DOWNLOAD_FAILURE : Int := 0x800C0008 - 0x100000000

/-- Modelled from the spec: status DataUnavailable
(`INET_E_DATA_NOT_AVAILABLE`, `0x800C0007` read as a signed 32-bit value). -/
def INET_E_DATA_NOT_AVAILABLE : Int := 0x800C0007 - 0x100000000

/-- Modelled from the spec: the `FAILED` test of `winerror.h`, which is missing
from the sources at hand: an `HRESULT` is a failure when it is negative. -/
def FAILED (hres : Int) : Bool := decide (hres < 0)

/-- Modelled from the spec: marker FirstChunk (`BSCF_FIRSTDATANOTIFICATION` of
`urlmon.h`). -/
def BSCF_FIRSTDATANOTIFICATION : Nat := 0x01

/-- Modelled from the spec: marker Intermediate
(`BSCF_INTERMEDIATEDATANOTIFICATION` of `urlmon.h`). -/
def BSCF_INTERMEDIATEDATANOTIFICATION : Nat := 0x02

/-- Modelled from the spec: marker LastChunk (`BSCF_LASTDATANOTIFICATION` of
`urlmon.h`). -/
def BSCF_LASTDATANOTIFICATION : Nat := 0x04

/-- Number of values of a `ULONG` / `DWORD`. -/
def ULONG_RANGE : Nat := 4294967296

/-- Addition of two `ULONG` values, as C computes it. -/
def add32 (a b : Nat) : Nat := (a + b) % ULONG_RANGE

/-- Subtraction of two `ULONG` values, as C computes it. -/
def sub32 (a b : Nat) : Nat := (a % ULONG_RANGE + ULONG_RANGE - b % ULONG_RANGE) % ULONG_RANGE

/-! ## Data model -/

/-- The fields of the C structure `Protocol` used by `protocol.c`.  Pointers and
handles are natural numbers, `0` being `NULL`. -/
structure Protocol where
  /-- Field `flags`, a `DWORD` bit set of the `FLAG_*` values. -/
  flags : Nat
  /-- Field `protocol_sink`, the sink interface pointer (`0` when absent). -/
  protocol_sink : Nat
  /-- Field `current_position`, a `ULONG`. -/
  current_position : Nat
  /-- Field `content_length`, a `ULONG`. -/
  content_length : Nat
  /-- Field `available_bytes`, a `ULONG`. -/
  available_bytes : Nat
  /-- Field `request`, the request handle. -/
  request : Nat
  /-- Field `internet`, the connection handle. -/
  internet : Nat
  /-- Field `lock`, the lock handle. -/
  lock : Nat
  deriving DecidableEq, Repr

/-- What `InternetReadFile` hands back: its `BOOL` result and the byte count
stored through the last argument. -/
structure ReadFileReply where
  /-- The `BOOL` return value. -/
  res : Bool
  /-- The byte count written to `len`. -/
  len : Nat
  deriving DecidableEq, Repr

/-- What `InternetQueryDataAvailable` hands back: its `BOOL` result, the value
found in `available_bytes` after the call (the field is `0` when the call is
made), and whether `GetLastError()` is `ERROR_IO_PENDING`. -/
structure QueryReply where
  /-- The `BOOL` return value. -/
  res : Bool
  /-- The value of `protocol->available_bytes` after the call. -/
  available_bytes : Nat
  /-- Whether `GetLastError() == ERROR_IO_PENDING` after a failed call. -/
  io_pending : Bool
  deriving DecidableEq, Repr

/-- The transport collaborator (WinINet): a state type with the two calls that
`protocol_read` makes. -/
structure Transport (τ : Type) where
  /-- Call `InternetReadFile(request, buf, max, &len)`. -/
  InternetReadFile : τ → Nat → ReadFileReply × τ
  /-- Call `InternetQueryDataAvailable(request, &available_bytes, 0, 0)`. -/
  InternetQueryDataAvailable : τ → QueryReply × τ

/-- Calls that leave the transfer reader, in the order they are made. -/
inductive Event where
  /-- Call `IInternetProtocolSink_ReportResult(sink, hres, 0, NULL)`. -/
  | ReportResult (hres : Int)
  /-- Call `IInternetProtocolSink_ReportData(sink, bscf, progress, progress_max)`. -/
  | ReportData (bscf progress progress_max : Nat)
  /-- Call `InternetReadFile` with the given maximum, and what it returned. -/
  | InternetReadFile (max : Nat) (res : Bool) (len : Nat)
  /-- Call `InternetQueryDataAvailable`, and what it returned. -/
  | InternetQueryDataAvailable (res : Bool) (available_bytes : Nat) (io_pending : Bool)
  /-- Call `InternetLockRequestFile(request, &lock)`. -/
  | InternetLockRequestFile (request : Nat)
  /-- Call `InternetUnlockRequestFile(lock)`. -/
  | InternetUnlockRequestFile (lock : Nat)
  /-- Call `vtbl->close_connection(protocol)`. -/
  | close_connection
  /-- Call `InternetCloseHandle(handle)`. -/
  | InternetCloseHandle (handle : Nat)
  deriving DecidableEq, Repr

/-! ## Reporting rules -/

/-- Function `report_result` (protocol.c lines 56-64): the returned `HRESULT`,
the transfer afterwards and the calls made. -/
def report_result (protocol : Protocol) (hres : Int) : Int × Protocol × List Event :=
  if protocol.flags &&& FLAG_RESULT_REPORTED = 0 ∧ protocol.protocol_sink ≠ 0 then
    (hres, { protocol with flags := protocol.flags ||| FLAG_RESULT_REPORTED },
      [Event.ReportResult hres])
  else
    (hres, protocol, [])

/-- Function `report_data` (protocol.c lines 66-88): the transfer afterwards and
the calls made. -/
def report_data (protocol : Protocol) : Protocol × List Event :=
  if protocol.flags &&& FLAG_LAST_DATA_REPORTED ≠ 0 ∨ protocol.protocol_sink = 0 then
    (protocol, [])
  else
    let bscf₁ :=
      if protocol.flags &&& FLAG_FIRST_DATA_REPORTED ≠ 0 then BSCF_INTERMEDIATEDATANOTIFICATION
      else BSCF_FIRSTDATANOTIFICATION
    let flags₁ :=
      if protocol.flags &&& FLAG_FIRST_DATA_REPORTED ≠ 0 then protocol.flags
      else protocol.flags ||| FLAG_FIRST_DATA_REPORTED
    let last := flags₁ &&& FLAG_ALL_DATA_READ ≠ 0 ∧ flags₁ &&& FLAG_LAST_DATA_REPORTED = 0
    let flags₂ := if last then flags₁ ||| FLAG_LAST_DATA_REPORTED else flags₁
    let bscf₂ := if last then bscf₁ ||| BSCF_LASTDATANOTIFICATION else bscf₁
    ({ protocol with flags := flags₂ },
      [Event.ReportData bscf₂ (add32 protocol.current_position protocol.available_bytes)
        protocol.content_length])

/-- Function `all_data_read` (protocol.c lines 90-96). -/
def all_data_read (protocol : Protocol) : Protocol × List Event :=
  let p₁ := { protocol with flags := protocol.flags ||| FLAG_ALL_DATA_READ }
  let d := report_data p₁
  let r := report_result d.1 S_OK
  (r.2.1, d.2 ++ r.2.2)

/-! ## The read operation -/

/-- The variables of the `while` loop of `protocol_read`: the transfer, the
transport, the locals `read` and `hres`, and the calls made so far. -/
structure ReadLoop (τ : Type) where
  /-- The transfer. -/
  protocol : Protocol
  /-- The transport state. -/
  transport : τ
  /-- Local `read`. -/
  read : Nat
  /-- Local `hres`. -/
  hres : Int
  /-- Calls made so far during this `protocol_read`. -/
  events : List Event

/-- One execution of the body of the `while` loop of `protocol_read`
(protocol.c lines 115-156).  The Boolean tells whether the body left the loop
through `break`. -/
def protocol_read_body {τ : Type} (T : Transport τ) (size : Nat) (s : ReadLoop τ) :
    Bool × ReadLoop τ :=
  if s.protocol.available_bytes ≠ 0 then
    let max :=
      if s.protocol.available_bytes > size - s.read then size - s.read
      else s.protocol.available_bytes
    let reply := T.InternetReadFile s.transport max
    let len := reply.1.len % ULONG_RANGE
    let events := s.events ++ [Event.InternetReadFile max reply.1.res len]
    if reply.1.res = false then
      let r := report_result s.protocol INET_E_DOWNLOAD_FAILURE
      (true, { protocol := r.2.1, transport := reply.2, read := s.read,
               hres := INET_E_DOWNLOAD_FAILURE, events := events ++ r.2.2 })
    else if len = 0 then
      let a := all_data_read s.protocol
      (true, { protocol := a.1, transport := reply.2, read := s.read,
               hres := s.hres, events := events ++ a.2 })
    else
      (false, { protocol :=
                  { s.protocol with
                    current_position := add32 s.protocol.current_position len
                    available_bytes := sub32 s.protocol.available_bytes len },
                transport := reply.2, read := add32 s.read len,
                hres := s.hres, events := events })
  else
    let p₀ := { s.protocol with
                flags := s.protocol.flags &&& (0xFFFFFFFF ^^^ FLAG_REQUEST_COMPLETE) }
    let reply := T.InternetQueryDataAvailable s.transport
    let avail := reply.1.available_bytes % ULONG_RANGE
    let p₁ := { p₀ with available_bytes := avail }
    let events :=
      s.events ++ [Event.InternetQueryDataAvailable reply.1.res avail reply.1.io_pending]
    if reply.1.res = false then
      if reply.1.io_pending then
        (true, { protocol := p₁, transport := reply.2, read := s.read,
                 hres := E_PENDING, events := events })
      else
        let r := report_result p₁ INET_E_DATA_NOT_AVAILABLE
        (true, { protocol := r.2.1, transport := reply.2, read := s.read,
                 hres := INET_E_DATA_NOT_AVAILABLE, events := events ++ r.2.2 })
    else if avail = 0 then
      let a := all_data_read p₁
      (true, { protocol := a.1, transport := reply.2, read := s.read,
               hres := s.hres, events := events ++ a.2 })
    else
      (false, { protocol := p₁, transport := reply.2, read := s.read,
                hres := s.hres, events := events })

/-- The loop `while(read < size) { ... }` of `protocol_read` (protocol.c lines
114-157), run for at most `fuel` executions of its body; `none` when the fuel
does not suffice. -/
def protocol_read_loop {τ : Type} (T : Transport τ) (size : Nat) :
    Nat → ReadLoop τ → Option (ReadLoop τ)
  | fuel, s =>
    if s.read < size then
      match fuel with
      | 0 => none
      | fuel + 1 =>
        let b := protocol_read_body T size s
        if b.1 then some b.2 else protocol_read_loop T size fuel b.2
    else
      some s

/-- What a call of `protocol_read` produces: the returned `HRESULT`, the value
stored in `*read_ret`, the transfer and the transport afterwards, and the calls
made. -/
structure ReadResult (τ : Type) where
  /-- The returned `HRESULT`. -/
  hres : Int
  /-- The value stored in `*read_ret`. -/
  read_ret : Nat
  /-- The transfer afterwards. -/
  protocol : Protocol
  /-- The transport afterwards. -/
  transport : τ
  /-- Calls made, in order. -/
  events : List Event

/-- Function `protocol_read` (protocol.c lines 98-167). -/
def protocol_read {τ : Type} (T : Transport τ) (fuel size : Nat) (protocol : Protocol)
    (transport : τ) : Option (ReadResult τ) :=
  if protocol.flags &&& FLAG_REQUEST_COMPLETE = 0 then
    some { hres := E_PENDING, read_ret := 0, protocol := protocol, transport := transport,
           events := [] }
  else if protocol.flags &&& FLAG_ALL_DATA_READ ≠ 0 then
    some { hres := S_FALSE, read_ret := 0, protocol := protocol, transport := transport,
           events := [] }
  else
    match protocol_read_loop T size fuel
        { protocol := protocol, transport := transport, read := 0, hres := S_FALSE,
          events := [] } with
    | none => none
    | some s =>
      let p :=
        if s.hres ≠ E_PENDING then
          { s.protocol with flags := s.protocol.flags ||| FLAG_REQUEST_COMPLETE }
        else s.protocol
      let hres :=
        if FAILED s.hres then s.hres
        else if s.read ≠ 0 then S_OK else S_FALSE
      some { hres := hres, read_ret := s.read, protocol := p, transport := s.transport,
             events := s.events }

/-! ## Sequences of calls -/

/-- A sequence of `protocol_read` calls with the given sizes, each on the state
its predecessor left; the results are listed in call order. -/
def protocol_read_calls {τ : Type} (T : Transport τ) (fuel : Nat) :
    List Nat → Protocol → τ → Option (List (ReadResult τ))
  | [], _, _ => some []
  | size :: rest, protocol, transport =>
    match protocol_read T fuel size protocol transport with
    | none => none
    | some r =>
      match protocol_read_calls T fuel rest r.protocol r.transport with
      | none => none
      | some rs => some (r :: rs)

/-- An operation issued on one transfer. -/
inductive Op where
  /-- A `protocol_read` call with the given size. -/
  | read (size : Nat)
  /-- A `report_data` call. -/
  | report_data
  /-- A `report_result` call with the given status. -/
  | report_result (hres : Int)
  deriving DecidableEq, Repr

/-- A state of one transfer together with its transport and the calls made so
far. -/
structure Run (τ : Type) where
  /-- The transfer. -/
  protocol : Protocol
  /-- The transport state. -/
  transport : τ
  /-- Calls made so far. -/
  events : List Event

/-- Runs one operation. -/
def run_op {τ : Type} (T : Transport τ) (fuel : Nat) (s : Run τ) : Op → Option (Run τ)
  | Op.read size =>
    match protocol_read T fuel size s.protocol s.transport with
    | none => none
    | some r => some { protocol := r.protocol, transport := r.transport,
                       events := s.events ++ r.events }
  | Op.report_data =>
    let d := report_data s.protocol
    some { protocol := d.1, transport := s.transport, events := s.events ++ d.2 }
  | Op.report_result hres =>
    let r := report_result s.protocol hres
    some { protocol := r.2.1, transport := s.transport, events := s.events ++ r.2.2 }

/-- Runs a sequence of operations, in order. -/
def run_ops {τ : Type} (T : Transport τ) (fuel : Nat) : List Op → Run τ → Option (Run τ)
  | [], s => some s
  | op :: ops, s =>
    match run_op T fuel s op with
    | none => none
    | some s' => run_ops T fuel ops s'

/-! ## Observations on the calls made -/

/-- An `InternetReadFile` call that returned `FALSE`. -/
def Event.isFailedRead : Event → Bool
  | Event.InternetReadFile _ false _ => true
  | _ => false

/-- An `InternetQueryDataAvailable` call that returned `FALSE` with a last error
other than `ERROR_IO_PENDING`. -/
def Event.isFailedQuery : Event → Bool
  | Event.InternetQueryDataAvailable false _ false => true
  | _ => false

/-- An `InternetQueryDataAvailable` call that returned `FALSE` with last error
`ERROR_IO_PENDING`. -/
def Event.isPendingQuery : Event → Bool
  | Event.InternetQueryDataAvailable false _ true => true
  | _ => false

/-- A call to the transport. -/
def Event.isTransport : Event → Bool
  | Event.InternetReadFile _ _ _ => true
  | Event.InternetQueryDataAvailable _ _ _ => true
  | _ => false

/-- An `InternetReadFile` call. -/
def Event.isRead : Event → Bool
  | Event.InternetReadFile _ _ _ => true
  | _ => false

/-- An `InternetQueryDataAvailable` call. -/
def Event.isQuery : Event → Bool
  | Event.InternetQueryDataAvailable _ _ _ => true
  | _ => false

/-- A result notification to the sink. -/
def Event.isReportResult : Event → Bool
  | Event.ReportResult _ => true
  | _ => false

/-- A data notification to the sink. -/
def Event.isReportData : Event → Bool
  | Event.ReportData _ _ _ => true
  | _ => false

/-- A data notification to the sink that carries the LastChunk marker. -/
def Event.isLastData : Event → Bool
  | Event.ReportData bscf _ _ => bscf &&& BSCF_LASTDATANOTIFICATION != 0
  | _ => false

/-- The bytes delivered by the successful `InternetReadFile` calls of a list of
calls. -/
def bytes_delivered : List Event → Nat
  | [] => 0
  | Event.InternetReadFile _ true len :: es => len + bytes_delivered es
  | _ :: es => bytes_delivered es

/-! ## Transports -/

/-- A transport whose `InternetReadFile` never stores more bytes than the
maximum it is given. -/
def Transport.Bounded {τ : Type} (T : Transport τ) : Prop :=
  ∀ t max, (T.InternetReadFile t max).1.len ≤ max

/-- A transport whose `InternetReadFile` always succeeds and delivers exactly the
number of bytes asked for. -/
def Transport.DeliversAll {τ : Type} (T : Transport τ) : Prop :=
  ∀ t max, (T.InternetReadFile t max).1 = { res := true, len := max }

/-- A mock transport serving a list of chunks: each availability query succeeds
with the next chunk size, and with `0` once the list is used up; a read
delivers exactly the number of bytes asked for. -/
def chunk_transport : Transport (List Nat) where
  InternetReadFile := fun t max => ({ res := true, len := max }, t)
  InternetQueryDataAvailable := fun t =>
    match t with
    | [] => ({ res := true, available_bytes := 0, io_pending := false }, [])
    | c :: cs => ({ res := true, available_bytes := c, io_pending := false }, cs)

/-- A reply of a scripted transport. -/
inductive Reply where
  /-- `InternetReadFile` succeeds with the given byte count; a query succeeds
  with the given availability. -/
  | ok (n : Nat)
  /-- The call returns `FALSE` with last error `ERROR_IO_PENDING`. -/
  | pending
  /-- The call returns `FALSE` with another last error. -/
  | fail
  deriving DecidableEq, Repr

/-- A scripted transport: every call consumes the next reply of the script; a
used-up script answers as `Reply.fail`. -/
def script_transport : Transport (List Reply) where
  InternetReadFile := fun t _ =>
    match t with
    | Reply.ok n :: rest => ({ res := true, len := n }, rest)
    | _ :: rest => ({ res := false, len := 0 }, rest)
    | [] => ({ res := false, len := 0 }, [])
  InternetQueryDataAvailable := fun t =>
    match t with
    | Reply.ok n :: rest => ({ res := true, available_bytes := n, io_pending := false }, rest)
    | Reply.pending :: rest => ({ res := false, available_bytes := 0, io_pending := true }, rest)
    | Reply.fail :: rest => ({ res := false, available_bytes := 0, io_pending := false }, rest)
    | [] => ({ res := false, available_bytes := 0, io_pending := false }, [])

/-- A fresh transfer: only `FLAG_REQUEST_COMPLETE` set, nothing read, nothing
announced. -/
def fresh (sink content_length : Nat) : Protocol :=
  { flags := FLAG_REQUEST_COMPLETE, protocol_sink := sink, current_position := 0,
    content_length := content_length, available_bytes := 0, request := 1, internet := 1,
    lock := 0 }

/-- What the mock transport `chunk_transport` still has to hand to the caller:
nothing once `FLAG_ALL_DATA_READ` is set, else the announced bytes plus the
chunks not yet announced. -/
def remaining (protocol : Protocol) (chunks : List Nat) : Nat :=
  if protocol.flags &&& FLAG_ALL_DATA_READ ≠ 0 then 0
  else protocol.available_bytes + chunks.sum

/-- The fields of a transfer other than `flags` agree. -/
def SameFields (p q : Protocol) : Prop :=
  q.protocol_sink = p.protocol_sink ∧ q.current_position = p.current_position ∧
  q.content_length = p.content_length ∧ q.available_bytes = p.available_bytes ∧
  q.request = p.request ∧ q.internet = p.internet ∧ q.lock = p.lock

/-- An `InternetReadFile` call is within bounds for a read of `size` bytes when
its maximum is positive and at most `size` and the count it stored is at most
that maximum; other calls are not constrained. -/
def Event.readWithin (size : Nat) : Event → Bool
  | Event.InternetReadFile max _ len => decide (0 < max ∧ max ≤ size ∧ len ≤ max)
  | _ => true

/-! ## Connection lifecycle -/

/-- Function `protocol_lock_request` (protocol.c lines 169-175).  The argument
`lock_file` stands for `InternetLockRequestFile`: from the request handle it
gives the `BOOL` result and the value left in `protocol->lock`. -/
def protocol_lock_request (lock_file : Nat → Bool × Nat) (protocol : Protocol) :
    Int × Protocol × List Event :=
  let r := lock_file protocol.request
  (S_OK, { protocol with lock := r.2 }, [Event.InternetLockRequestFile protocol.request])

/-- Function `protocol_unlock_request` (protocol.c lines 177-187). -/
def protocol_unlock_request (protocol : Protocol) : Int × Protocol × List Event :=
  if protocol.lock = 0 then
    (S_OK, protocol, [])
  else
    (S_OK, { protocol with lock := 0 }, [Event.InternetUnlockRequestFile protocol.lock])

/-- Function `protocol_close_connection` (protocol.c lines 189-201).  The
argument `hook` stands for `vtbl->close_connection`, which belongs to the
concrete protocol (http, ftp, gopher) and is given the transfer. -/
def protocol_close_connection (hook : Protocol → Protocol) (protocol : Protocol) :
    Protocol × List Event :=
  let p₁ := hook protocol
  let e₁ := if p₁.request ≠ 0 then [Event.InternetCloseHandle p₁.request] else []
  let e₂ := if p₁.internet ≠ 0 then [Event.InternetCloseHandle p₁.internet] else []
  let p₂ := if p₁.internet ≠ 0 then { p₁ with internet := 0 } else p₁
  ({ p₂ with flags := 0 }, [Event.close_connection] ++ e₁ ++ e₂)

/-! ## Bit tests on the flags -/

theorem and_two_pow_eq_zero_iff (f k : Nat) : f &&& 2 ^ k = 0 ↔ f.testBit k = false := by
  rw [Nat.and_two_pow]
  cases h : f.testBit k <;> simp

theorem and_two_pow_ne_zero_iff (f k : Nat) : f &&& 2 ^ k ≠ 0 ↔ f.testBit k = true := by
  rw [Ne, and_two_pow_eq_zero_iff]
  cases f.testBit k <;> simp

theorem flag_request_complete_clear (f : Nat) :
    f &&& FLAG_REQUEST_COMPLETE = 0 ↔ f.testBit 0 = false :=
  and_two_pow_eq_zero_iff f 0

theorem flag_first_continue_clear (f : Nat) :
    f &&& FLAG_FIRST_CONTINUE_COMPLETE = 0 ↔ f.testBit 1 = false :=
  and_two_pow_eq_zero_iff f 1

theorem flag_first_data_clear (f : Nat) :
    f &&& FLAG_FIRST_DATA_REPORTED = 0 ↔ f.testBit 2 = false :=
  and_two_pow_eq_zero_iff f 2

theorem flag_all_data_read_clear (f : Nat) :
    f &&& FLAG_ALL_DATA_READ = 0 ↔ f.testBit 3 = false :=
  and_two_pow_eq_zero_iff f 3

theorem flag_last_data_clear (f : Nat) :
    f &&& FLAG_LAST_DATA_REPORTED = 0 ↔ f.testBit 4 = false :=
  and_two_pow_eq_zero_iff f 4

theorem flag_result_reported_clear (f : Nat) :
    f &&& FLAG_RESULT_REPORTED = 0 ↔ f.testBit 5 = false :=
  and_two_pow_eq_zero_iff f 5

theorem testBit_flag_request_complete (i : Nat) :
    FLAG_REQUEST_COMPLETE.testBit i = decide (i = 0) := by
  rw [show FLAG_REQUEST_COMPLETE = 2 ^ 0 from rfl, Nat.testBit_two_pow]
  simp [eq_comm]

theorem testBit_flag_first_data (i : Nat) :
    FLAG_FIRST_DATA_REPORTED.testBit i = decide (i = 2) := by
  rw [show FLAG_FIRST_DATA_REPORTED = 2 ^ 2 from rfl, Nat.testBit_two_pow]
  simp [eq_comm]

theorem testBit_flag_all_data_read (i : Nat) :
    FLAG_ALL_DATA_READ.testBit i = decide (i = 3) := by
  rw [show FLAG_ALL_DATA_READ = 2 ^ 3 from rfl, Nat.testBit_two_pow]
  simp [eq_comm]

theorem testBit_flag_last_data (i : Nat) :
    FLAG_LAST_DATA_REPORTED.testBit i = decide (i = 4) := by
  rw [show FLAG_LAST_DATA_REPORTED = 2 ^ 4 from rfl, Nat.testBit_two_pow]
  simp [eq_comm]

theorem testBit_flag_result_reported (i : Nat) :
    FLAG_RESULT_REPORTED.testBit i = decide (i = 5) := by
  rw [show FLAG_RESULT_REPORTED = 2 ^ 5 from rfl, Nat.testBit_two_pow]
  simp [eq_comm]

theorem testBit_or_request_complete (f i : Nat) :
    (f ||| FLAG_REQUEST_COMPLETE).testBit i = (f.testBit i || decide (i = 0)) := by
  rw [Nat.testBit_or, show FLAG_REQUEST_COMPLETE = 2 ^ 0 from rfl, Nat.testBit_two_pow]
  simp [eq_comm]

theorem testBit_or_first_data (f i : Nat) :
    (f ||| FLAG_FIRST_DATA_REPORTED).testBit i = (f.testBit i || decide (i = 2)) := by
  rw [Nat.testBit_or, show FLAG_FIRST_DATA_REPORTED = 2 ^ 2 from rfl, Nat.testBit_two_pow]
  simp [eq_comm]

theorem testBit_or_all_data_read (f i : Nat) :
    (f ||| FLAG_ALL_DATA_READ).testBit i = (f.testBit i || decide (i = 3)) := by
  rw [Nat.testBit_or, show FLAG_ALL_DATA_READ = 2 ^ 3 from rfl, Nat.testBit_two_pow]
  simp [eq_comm]

theorem testBit_or_last_data (f i : Nat) :
    (f ||| FLAG_LAST_DATA_REPORTED).testBit i = (f.testBit i || decide (i = 4)) := by
  rw [Nat.testBit_or, show FLAG_LAST_DATA_REPORTED = 2 ^ 4 from rfl, Nat.testBit_two_pow]
  simp [eq_comm]

theorem testBit_or_result_reported (f i : Nat) :
    (f ||| FLAG_RESULT_REPORTED).testBit i = (f.testBit i || decide (i = 5)) := by
  rw [Nat.testBit_or, show FLAG_RESULT_REPORTED = 2 ^ 5 from rfl, Nat.testBit_two_pow]
  simp [eq_comm]

theorem testBit_clear_request_complete (f i : Nat) (hi : i < 32) :
    (f &&& (0xFFFFFFFF ^^^ FLAG_REQUEST_COMPLETE)).testBit i
      = (f.testBit i && !decide (i = 0)) := by
  rw [Nat.testBit_and]
  have h : (0xFFFFFFFF ^^^ FLAG_REQUEST_COMPLETE).testBit i = !decide (i = 0) := by
    interval_cases i <;> decide
  rw [h]

/-! ## The loop of `protocol_read` -/

/-- Invariant rule for the loop of `protocol_read`: a property kept by every
execution of the body that stays in the loop, and turned into `Post` on leaving
the loop, gives `Post` for every run of the loop that ends. -/
theorem protocol_read_loop_rule {τ : Type} (T : Transport τ) (size : Nat)
    (Inv Post : ReadLoop τ → Prop)
    (hcont : ∀ s, Inv s → s.read < size → (protocol_read_body T size s).1 = false →
      Inv (protocol_read_body T size s).2)
    (hbreak : ∀ s, Inv s → s.read < size → (protocol_read_body T size s).1 = true →
      Post (protocol_read_body T size s).2)
    (hexit : ∀ s, Inv s → ¬ s.read < size → Post s) :
    ∀ fuel s s', Inv s → protocol_read_loop T size fuel s = some s' → Post s' := by
  intro fuel
  induction fuel with
  | zero =>
    intro s s' hinv h
    unfold protocol_read_loop at h
    by_cases hlt : s.read < size
    · simp [hlt] at h
    · simp only [hlt, if_false, Option.some.injEq] at h
      subst h
      exact hexit s hinv hlt
  | succ n ih =>
    intro s s' hinv h
    unfold protocol_read_loop at h
    by_cases hlt : s.read < size
    · simp only [hlt, if_true] at h
      by_cases hb : (protocol_read_body T size s).1 = true
      · simp only [hb, if_true, Option.some.injEq] at h
        subst h
        exact hbreak s hinv hlt hb
      · simp only [hb] at h
        exact ih _ _ (hcont s hinv hlt (by simpa using hb)) h
    · simp only [hlt, if_false, Option.some.injEq] at h
      subst h
      exact hexit s hinv hlt

/-- The outcomes of one execution of the loop body, one per path through it. -/
theorem protocol_read_body_cases {τ : Type} (T : Transport τ) (size : Nat) (s : ReadLoop τ)
    (P : Bool × ReadLoop τ → Prop)
    (hreadfail : s.protocol.available_bytes ≠ 0 →
      (T.InternetReadFile s.transport
        (if s.protocol.available_bytes > size - s.read then size - s.read
          else s.protocol.available_bytes)).1.res = false →
      P (true,
        { protocol := (report_result s.protocol INET_E_DOWNLOAD_FAILURE).2.1,
          transport := (T.InternetReadFile s.transport
            (if s.protocol.available_bytes > size - s.read then size - s.read
              else s.protocol.available_bytes)).2,
          read := s.read, hres := INET_E_DOWNLOAD_FAILURE,
          events := (s.events ++ [Event.InternetReadFile
            (if s.protocol.available_bytes > size - s.read then size - s.read
              else s.protocol.available_bytes) false
            ((T.InternetReadFile s.transport
              (if s.protocol.available_bytes > size - s.read then size - s.read
                else s.protocol.available_bytes)).1.len % ULONG_RANGE)])
            ++ (report_result s.protocol INET_E_DOWNLOAD_FAILURE).2.2 }))
    (hreadzero : s.protocol.available_bytes ≠ 0 →
      (T.InternetReadFile s.transport
        (if s.protocol.available_bytes > size - s.read then size - s.read
          else s.protocol.available_bytes)).1.res = true →
      (T.InternetReadFile s.transport
        (if s.protocol.available_bytes > size - s.read then size - s.read
          else s.protocol.available_bytes)).1.len % ULONG_RANGE = 0 →
      P (true,
        { protocol := (all_data_read s.protocol).1,
          transport := (T.InternetReadFile s.transport
            (if s.protocol.available_bytes > size - s.read then size - s.read
              else s.protocol.available_bytes)).2,
          read := s.read, hres := s.hres,
          events := (s.events ++ [Event.InternetReadFile
            (if s.protocol.available_bytes > size - s.read then size - s.read
              else s.protocol.available_bytes) true 0])
            ++ (all_data_read s.protocol).2 }))
    (hreadsome : s.protocol.available_bytes ≠ 0 →
      (T.InternetReadFile s.transport
        (if s.protocol.available_bytes > size - s.read then size - s.read
          else s.protocol.available_bytes)).1.res = true →
      (T.InternetReadFile s.transport
        (if s.protocol.available_bytes > size - s.read then size - s.read
          else s.protocol.available_bytes)).1.len % ULONG_RANGE ≠ 0 →
      P (false,
        { protocol :=
            { s.protocol with
              current_position := add32 s.protocol.current_position
                ((T.InternetReadFile s.transport
                  (if s.protocol.available_bytes > size - s.read then size - s.read
                    else s.protocol.available_bytes)).1.len % ULONG_RANGE)
              available_bytes := sub32 s.protocol.available_bytes
                ((T.InternetReadFile s.transport
                  (if s.protocol.available_bytes > size - s.read then size - s.read
                    else s.protocol.available_bytes)).1.len % ULONG_RANGE) },
          transport := (T.InternetReadFile s.transport
            (if s.protocol.available_bytes > size - s.read then size - s.read
              else s.protocol.available_bytes)).2,
          read := add32 s.read
            ((T.InternetReadFile s.transport
              (if s.protocol.available_bytes > size - s.read then size - s.read
                else s.protocol.available_bytes)).1.len % ULONG_RANGE),
          hres := s.hres,
          events := s.events ++ [Event.InternetReadFile
            (if s.protocol.available_bytes > size - s.read then size - s.read
              else s.protocol.available_bytes) true
            ((T.InternetReadFile s.transport
              (if s.protocol.available_bytes > size - s.read then size - s.read
                else s.protocol.available_bytes)).1.len % ULONG_RANGE)] }))
    (hquerypending : s.protocol.available_bytes = 0 →
      (T.InternetQueryDataAvailable s.transport).1.res = false →
      (T.InternetQueryDataAvailable s.transport).1.io_pending = true →
      P (true,
        { protocol :=
            { s.protocol with
              flags := s.protocol.flags &&& (0xFFFFFFFF ^^^ FLAG_REQUEST_COMPLETE)
              available_bytes :=
                (T.InternetQueryDataAvailable s.transport).1.available_bytes % ULONG_RANGE },
          transport := (T.InternetQueryDataAvailable s.transport).2,
          read := s.read, hres := E_PENDING,
          events := s.events ++ [Event.InternetQueryDataAvailable false
            ((T.InternetQueryDataAvailable s.transport).1.available_bytes % ULONG_RANGE)
            true] }))
    (hqueryfail : s.protocol.available_bytes = 0 →
      (T.InternetQueryDataAvailable s.transport).1.res = false →
      (T.InternetQueryDataAvailable s.transport).1.io_pending = false →
      P (true,
        { protocol := (report_result
            { s.protocol with
              flags := s.protocol.flags &&& (0xFFFFFFFF ^^^ FLAG_REQUEST_COMPLETE)
              available_bytes :=
                (T.InternetQueryDataAvailable s.transport).1.available_bytes % ULONG_RANGE }
            INET_E_DATA_NOT_AVAILABLE).2.1,
          transport := (T.InternetQueryDataAvailable s.transport).2,
          read := s.read, hres := INET_E_DATA_NOT_AVAILABLE,
          events := (s.events ++ [Event.InternetQueryDataAvailable false
            ((T.InternetQueryDataAvailable s.transport).1.available_bytes % ULONG_RANGE)
            false]) ++ (report_result
            { s.protocol with
              flags := s.protocol.flags &&& (0xFFFFFFFF ^^^ FLAG_REQUEST_COMPLETE)
              available_bytes :=
                (T.InternetQueryDataAvailable s.transport).1.available_bytes % ULONG_RANGE }
            INET_E_DATA_NOT_AVAILABLE).2.2 }))
    (hqueryzero : s.protocol.available_bytes = 0 →
      (T.InternetQueryDataAvailable s.transport).1.res = true →
      (T.InternetQueryDataAvailable s.transport).1.available_bytes % ULONG_RANGE = 0 →
      P (true,
        { protocol := (all_data_read
            { s.protocol with
              flags := s.protocol.flags &&& (0xFFFFFFFF ^^^ FLAG_REQUEST_COMPLETE)
              available_bytes := 0 }).1,
          transport := (T.InternetQueryDataAvailable s.transport).2,
          read := s.read, hres := s.hres,
          events := (s.events ++ [Event.InternetQueryDataAvailable true 0
            (T.InternetQueryDataAvailable s.transport).1.io_pending]) ++ (all_data_read
            { s.protocol with
              flags := s.protocol.flags &&& (0xFFFFFFFF ^^^ FLAG_REQUEST_COMPLETE)
              available_bytes := 0 }).2 }))
    (hquerysome : s.protocol.available_bytes = 0 →
      (T.InternetQueryDataAvailable s.transport).1.res = true →
      (T.InternetQueryDataAvailable s.transport).1.available_bytes % ULONG_RANGE ≠ 0 →
      P (false,
        { protocol :=
            { s.protocol with
              flags := s.protocol.flags &&& (0xFFFFFFFF ^^^ FLAG_REQUEST_COMPLETE)
              available_bytes :=
                (T.InternetQueryDataAvailable s.transport).1.available_bytes % ULONG_RANGE },
          transport := (T.InternetQueryDataAvailable s.transport).2,
          read := s.read, hres := s.hres,
          events := s.events ++ [Event.InternetQueryDataAvailable true
            ((T.InternetQueryDataAvailable s.transport).1.available_bytes % ULONG_RANGE)
            (T.InternetQueryDataAvailable s.transport).1.io_pending] })) :
    P (protocol_read_body T size s) := by
  unfold protocol_read_body
  by_cases ha : s.protocol.available_bytes = 0
  · simp only [ha, ne_eq, not_true_eq_false, if_false]
    by_cases hr : (T.InternetQueryDataAvailable s.transport).1.res = false
    · by_cases hp : (T.InternetQueryDataAvailable s.transport).1.io_pending = true
      · simp only [hr, hp, if_true]
        have := hquerypending ha hr hp
        simpa [ha] using this
      · have hp' : (T.InternetQueryDataAvailable s.transport).1.io_pending = false := by
          simpa using hp
        simp only [hr, hp', if_true]
        have := hqueryfail ha hr hp'
        simpa [ha] using this
    · have hr' : (T.InternetQueryDataAvailable s.transport).1.res = true := by simpa using hr
      by_cases hz : (T.InternetQueryDataAvailable s.transport).1.available_bytes % ULONG_RANGE = 0
      · have := hqueryzero ha hr' hz
        simpa [ha, hr', hz] using this
      · have := hquerysome ha hr' hz
        simpa [ha, hr', hz] using this
  · simp only [ne_eq, ha, not_false_eq_true, if_true]
    by_cases hr : (T.InternetReadFile s.transport
        (if s.protocol.available_bytes > size - s.read then size - s.read
          else s.protocol.available_bytes)).1.res = false
    · have := hreadfail ha hr
      simpa [hr] using this
    · have hr' : (T.InternetReadFile s.transport
        (if s.protocol.available_bytes > size - s.read then size - s.read
          else s.protocol.available_bytes)).1.res = true := by simpa using hr
      by_cases hz : (T.InternetReadFile s.transport
        (if s.protocol.available_bytes > size - s.read then size - s.read
          else s.protocol.available_bytes)).1.len % ULONG_RANGE = 0
      · have := hreadzero ha hr' hz
        simpa [hr', hz] using this
      · have := hreadsome ha hr' hz
        simpa [hr', hz] using this

/-! ## Calls made by the reporting rules -/

theorem report_result_fst (p : Protocol) (hres : Int) : (report_result p hres).1 = hres := by
  unfold report_result
  split <;> rfl

theorem report_result_events_any (q : Event → Bool) (hq : ∀ h, q (Event.ReportResult h) = false)
    (p : Protocol) (hres : Int) : (report_result p hres).2.2.any q = false := by
  unfold report_result
  split <;> simp [hq]

theorem report_data_events_any (q : Event → Bool)
    (hq : ∀ a b c, q (Event.ReportData a b c) = false) (p : Protocol) :
    (report_data p).2.any q = false := by
  unfold report_data
  split <;> simp [hq]

theorem all_data_read_events_any (q : Event → Bool) (hq₁ : ∀ h, q (Event.ReportResult h) = false)
    (hq₂ : ∀ a b c, q (Event.ReportData a b c) = false) (p : Protocol) :
    (all_data_read p).2.any q = false := by
  unfold all_data_read
  simp [report_result_events_any q hq₁, report_data_events_any q hq₂]

/-! ## Flags and fields through the reporting rules -/

theorem report_result_testBit (p : Protocol) (hres : Int) (i : Nat) :
    (report_result p hres).2.1.flags.testBit i =
      (p.flags.testBit i || (decide (i = 5) && decide (p.protocol_sink ≠ 0))) := by
  unfold report_result
  by_cases h₁ : p.flags &&& FLAG_RESULT_REPORTED = 0
  · by_cases h₂ : p.protocol_sink = 0
    · simp [h₁, h₂]
    · simp [h₁, h₂, testBit_flag_result_reported]
  · have h₃ : p.flags.testBit 5 = true := by
      rw [flag_result_reported_clear] at h₁
      simpa using h₁
    by_cases h₄ : i = 5
    · subst h₄
      simp [h₁, h₃]
    · simp [h₁, h₄]

theorem report_data_testBit (p : Protocol) (i : Nat) :
    (report_data p).1.flags.testBit i =
      (p.flags.testBit i || (decide (p.protocol_sink ≠ 0) && !p.flags.testBit 4 &&
        (decide (i = 2) || (decide (i = 4) && p.flags.testBit 3)))) := by
  unfold report_data
  by_cases h₁ : p.flags &&& FLAG_LAST_DATA_REPORTED = 0
  · have h₁' : p.flags.testBit 4 = false := (flag_last_data_clear _).1 h₁
    by_cases h₂ : p.protocol_sink = 0
    · simp [h₁, h₂]
    · by_cases h₃ : p.flags &&& FLAG_FIRST_DATA_REPORTED = 0
      · have h₃' : p.flags.testBit 2 = false := (flag_first_data_clear _).1 h₃
        by_cases h₄ : p.flags.testBit 3 = true
        · have e₁ : (p.flags ||| FLAG_FIRST_DATA_REPORTED) &&& FLAG_ALL_DATA_READ ≠ 0 := by
            rw [Ne, flag_all_data_read_clear, testBit_or_first_data]; simp [h₄]
          have e₂ : (p.flags ||| FLAG_FIRST_DATA_REPORTED) &&& FLAG_LAST_DATA_REPORTED = 0 := by
            rw [flag_last_data_clear, testBit_or_first_data]; simp [h₁']
          simp [h₁, h₂, h₃, e₁, e₂, h₁', h₄, testBit_flag_first_data, testBit_flag_last_data,
            Bool.or_assoc]
        · have h₄' : p.flags.testBit 3 = false := by simpa using h₄
          have e₁ : (p.flags ||| FLAG_FIRST_DATA_REPORTED) &&& FLAG_ALL_DATA_READ = 0 := by
            rw [flag_all_data_read_clear, testBit_or_first_data]; simp [h₄']
          simp [h₁, h₂, h₃, e₁, h₁', h₄', testBit_flag_first_data]
      · have h₃' : p.flags.testBit 2 = true := by
          rw [flag_first_data_clear] at h₃
          simpa using h₃
        by_cases h₄ : p.flags.testBit 3 = true
        · have e₁ : p.flags &&& FLAG_ALL_DATA_READ ≠ 0 := by
            rw [Ne, flag_all_data_read_clear]; simp [h₄]
          by_cases h₅ : i = 2
          · subst h₅
            simp [h₁, h₂, h₃, e₁, h₁', h₄, h₃', testBit_flag_last_data]
          · simp [h₁, h₂, h₃, e₁, h₁', h₄, h₅, testBit_flag_last_data]
        · have h₄' : p.flags.testBit 3 = false := by simpa using h₄
          have e₁ : p.flags &&& FLAG_ALL_DATA_READ = 0 := by
            rw [flag_all_data_read_clear]; exact h₄'
          by_cases h₅ : i = 2
          · subst h₅
            simp [h₁, h₂, h₃, e₁, h₁', h₄', h₃']
          · simp [h₁, h₂, h₃, e₁, h₁', h₄', h₅]
  · have h₁' : p.flags.testBit 4 = true := by
      rw [flag_last_data_clear] at h₁
      simpa using h₁
    simp [h₁, h₁']

theorem all_data_read_testBit (p : Protocol) (i : Nat) :
    (all_data_read p).1.flags.testBit i =
      (p.flags.testBit i || decide (i = 3) ||
        (decide (p.protocol_sink ≠ 0) &&
          (decide (i = 5) || (!p.flags.testBit 4 && (decide (i = 2) || decide (i = 4)))))) := by
  unfold all_data_read
  simp only [report_result_testBit, report_data_testBit, testBit_or_all_data_read]
  have hs : (report_data { p with flags := p.flags ||| FLAG_ALL_DATA_READ }).1.protocol_sink
      = p.protocol_sink := by
    unfold report_data
    split <;> rfl
  rw [hs]
  by_cases h₂ : p.protocol_sink = 0 <;> cases h₄ : p.flags.testBit 4 <;>
    by_cases h₅ : i = 5 <;> by_cases h₃ : i = 3 <;> by_cases h₆ : i = 2 <;>
    by_cases h₇ : i = 4 <;> simp_all

theorem report_result_same_fields (p : Protocol) (hres : Int) :
    SameFields p (report_result p hres).2.1 := by
  unfold report_result SameFields
  split <;> simp

theorem report_data_same_fields (p : Protocol) : SameFields p (report_data p).1 := by
  unfold report_data SameFields
  split <;> simp

theorem all_data_read_same_fields (p : Protocol) : SameFields p (all_data_read p).1 := by
  have h₁ := report_data_same_fields { p with flags := p.flags ||| FLAG_ALL_DATA_READ }
  have h₂ := report_result_same_fields
    (report_data { p with flags := p.flags ||| FLAG_ALL_DATA_READ }).1 S_OK
  unfold all_data_read
  unfold SameFields at *
  simp only at h₁ h₂ ⊢
  refine ⟨?_, ?_, ?_, ?_, ?_, ?_, ?_⟩
  · rw [h₂.1, h₁.1]
  · rw [h₂.2.1, h₁.2.1]
  · rw [h₂.2.2.1, h₁.2.2.1]
  · rw [h₂.2.2.2.1, h₁.2.2.2.1]
  · rw [h₂.2.2.2.2.1, h₁.2.2.2.2.1]
  · rw [h₂.2.2.2.2.2.1, h₁.2.2.2.2.2.1]
  · rw [h₂.2.2.2.2.2.2, h₁.2.2.2.2.2.2]

theorem all_data_read_sets_flag (p : Protocol) :
    (all_data_read p).1.flags &&& FLAG_ALL_DATA_READ ≠ 0 := by
  rw [Ne, flag_all_data_read_clear, all_data_read_testBit]
  simp

theorem clear_request_complete_all_data_read (f : Nat) :
    (f &&& (0xFFFFFFFF ^^^ FLAG_REQUEST_COMPLETE)) &&& FLAG_ALL_DATA_READ
      = f &&& FLAG_ALL_DATA_READ := by
  rw [Nat.land_assoc]
  rfl

theorem or_request_complete_set (f : Nat) :
    (f ||| FLAG_REQUEST_COMPLETE) &&& FLAG_REQUEST_COMPLETE ≠ 0 := by
  rw [Ne, flag_request_complete_clear, testBit_or_request_complete]
  simp

theorem or_request_complete_all_data_read (f : Nat) :
    (f ||| FLAG_REQUEST_COMPLETE) &&& FLAG_ALL_DATA_READ = 0 ↔ f &&& FLAG_ALL_DATA_READ = 0 := by
  rw [flag_all_data_read_clear, flag_all_data_read_clear, testBit_or_request_complete]
  simp

/-! ## Entry checks of `protocol_read` -/

theorem protocol_read_request_incomplete_aux {τ : Type} (T : Transport τ) (fuel size : Nat)
    (p : Protocol) (t : τ) (hrc : p.flags &&& FLAG_REQUEST_COMPLETE = 0) :
    protocol_read T fuel size p t =
      some { hres := E_PENDING, read_ret := 0, protocol := p, transport := t, events := [] } := by
  unfold protocol_read
  rw [if_pos hrc]

/-- Past the two entry checks, `protocol_read` is the loop followed by the
epilogue of lines 159-166. -/
theorem protocol_read_past_checks {τ : Type} (T : Transport τ) (fuel size : Nat) (p : Protocol)
    (t : τ) (hrc : p.flags &&& FLAG_REQUEST_COMPLETE ≠ 0)
    (hadr : p.flags &&& FLAG_ALL_DATA_READ = 0) (r : ReadResult τ) :
    protocol_read T fuel size p t = some r ↔
      ∃ s, protocol_read_loop T size fuel
          { protocol := p, transport := t, read := 0, hres := S_FALSE, events := [] } = some s ∧
        r = { hres := if FAILED s.hres then s.hres else if s.read ≠ 0 then S_OK else S_FALSE,
              read_ret := s.read,
              protocol :=
                if s.hres ≠ E_PENDING then
                  { s.protocol with flags := s.protocol.flags ||| FLAG_REQUEST_COMPLETE }
                else s.protocol,
              transport := s.transport, events := s.events } := by
  unfold protocol_read
  simp only [hrc, hadr, if_false, ne_eq, not_true_eq_false]
  cases h : protocol_read_loop T size fuel
      { protocol := p, transport := t, read := 0, hres := S_FALSE, events := [] } with
  | none => simp
  | some s =>
    simp only [Option.some.injEq, exists_eq_left']
    exact eq_comm

/-! ## Termination of the loop -/

/-- Against a transport that never delivers more than it is asked for, the loop
ends within `2 * (size - read)` executions of its body (one less when bytes
are already announced). -/
theorem protocol_read_loop_terminates {τ : Type} (T : Transport τ) (hT : T.Bounded)
    (size : Nat) (hsize : size < ULONG_RANGE) :
    ∀ fuel (s : ReadLoop τ), s.read ≤ size →
      2 * (size - s.read) ≤ fuel + (if s.protocol.available_bytes ≠ 0 then 1 else 0) →
      ∃ s', protocol_read_loop T size fuel s = some s' := by
  intro fuel
  induction fuel with
  | zero =>
    intro s _ hfuel
    unfold protocol_read_loop
    by_cases hlt : s.read < size
    · exfalso
      split at hfuel <;> omega
    · exact ⟨s, by simp [hlt]⟩
  | succ n ih =>
    intro s hle hfuel
    unfold protocol_read_loop
    by_cases hlt : s.read < size
    · simp only [hlt, if_true]
      have key : (protocol_read_body T size s).1 = true ∨
          ((protocol_read_body T size s).2.read ≤ size ∧
            2 * (size - (protocol_read_body T size s).2.read) ≤
              n + (if (protocol_read_body T size s).2.protocol.available_bytes ≠ 0 then 1
                else 0)) := by
        refine protocol_read_body_cases T size s
          (fun b => b.1 = true ∨ (b.2.read ≤ size ∧
            2 * (size - b.2.read) ≤ n + (if b.2.protocol.available_bytes ≠ 0 then 1 else 0)))
          ?_ ?_ ?_ ?_ ?_ ?_ ?_
        · intro _ _; exact Or.inl rfl
        · intro _ _ _; exact Or.inl rfl
        · intro ha _ hlen
          right
          have hb := hT s.transport
            (if s.protocol.available_bytes > size - s.read then size - s.read
              else s.protocol.available_bytes)
          have hmax : (if s.protocol.available_bytes > size - s.read then size - s.read
              else s.protocol.available_bytes) ≤ size - s.read := by
            split <;> omega
          have hmod := Nat.mod_le (T.InternetReadFile s.transport
            (if s.protocol.available_bytes > size - s.read then size - s.read
              else s.protocol.available_bytes)).1.len ULONG_RANGE
          simp only [ha, ne_eq, not_false_eq_true, if_true] at hfuel
          simp only [add32]
          generalize (T.InternetReadFile s.transport
            (if s.protocol.available_bytes > size - s.read then size - s.read
              else s.protocol.available_bytes)).1.len % ULONG_RANGE = len at *
          have hlt' : s.read + len < ULONG_RANGE := by omega
          rw [Nat.mod_eq_of_lt hlt']
          constructor
          · omega
          · split <;> omega
        · intro _ _ _; exact Or.inl rfl
        · intro _ _ _; exact Or.inl rfl
        · intro _ _ _; exact Or.inl rfl
        · intro ha _ hne
          right
          simp only [ha, ne_eq, not_true_eq_false, if_false] at hfuel
          simp only [ne_eq, hne, not_false_eq_true, if_true]
          constructor
          · exact hle
          · omega
      rcases key with hb | ⟨h₁, h₂⟩
      · exact ⟨(protocol_read_body T size s).2, by simp [hb]⟩
      · by_cases hb : (protocol_read_body T size s).1 = true
        · exact ⟨(protocol_read_body T size s).2, by simp [hb]⟩
        · obtain ⟨s', hs'⟩ := ih _ h₁ h₂
          exact ⟨s', by simp [hb, hs']⟩
    · exact ⟨s, by simp [hlt]⟩

/-- Against a transport that never delivers more than it is asked for, a
`protocol_read` call of size `size` returns when given fuel `2 * size`. -/
theorem protocol_read_terminates {τ : Type} (T : Transport τ) (hT : T.Bounded)
    (fuel size : Nat) (hsize : size < ULONG_RANGE) (hfuel : 2 * size ≤ fuel) (p : Protocol)
    (t : τ) : ∃ r, protocol_read T fuel size p t = some r := by
  unfold protocol_read
  by_cases hrc : p.flags &&& FLAG_REQUEST_COMPLETE = 0
  · rw [if_pos hrc]
    exact ⟨_, rfl⟩
  · by_cases hadr : p.flags &&& FLAG_ALL_DATA_READ ≠ 0
    · rw [if_neg hrc, if_pos hadr]
      exact ⟨_, rfl⟩
    · obtain ⟨s', hs'⟩ := protocol_read_loop_terminates T hT size hsize fuel
        { protocol := p, transport := t, read := 0, hres := S_FALSE, events := [] }
        (Nat.zero_le _) (by simp only [Nat.sub_zero]; omega)
      rw [if_neg hrc, if_neg hadr, hs']
      exact ⟨_, rfl⟩

/-! ## The mock transports -/

theorem chunk_transport_bounded : chunk_transport.Bounded := by
  intro t max
  exact Nat.le_refl max

theorem chunk_transport_delivers_all : chunk_transport.DeliversAll := by
  intro t max
  rfl

theorem delivers_all_bounded {τ : Type} (T : Transport τ) (h : T.DeliversAll) : T.Bounded := by
  intro t max
  rw [h t max]

/-! ## Status of a read -/

/-- What the loop leaves in `hres`, read off the transport calls it made. -/
theorem protocol_read_loop_hres {τ : Type} (T : Transport τ) (size fuel : Nat)
    (s s' : ReadLoop τ) (hh : s.hres = S_FALSE)
    (h₁ : s.events.any Event.isFailedRead = false)
    (h₂ : s.events.any Event.isFailedQuery = false)
    (h₃ : s.events.any Event.isPendingQuery = false)
    (hrun : protocol_read_loop T size fuel s = some s') :
    (s'.events.any Event.isFailedRead = true → s'.hres = INET_E_DOWNLOAD_FAILURE) ∧
    (s'.events.any Event.isFailedQuery = true → s'.hres = INET_E_DATA_NOT_AVAILABLE) ∧
    (s'.events.any Event.isPendingQuery = true → s'.hres = E_PENDING) ∧
    (s'.events.any Event.isFailedRead = false → s'.events.any Event.isFailedQuery = false →
      s'.events.any Event.isPendingQuery = false → s'.hres = S_FALSE) := by
  refine protocol_read_loop_rule T size
    (fun s => s.hres = S_FALSE ∧ s.events.any Event.isFailedRead = false ∧
      s.events.any Event.isFailedQuery = false ∧ s.events.any Event.isPendingQuery = false)
    (fun s' =>
      (s'.events.any Event.isFailedRead = true → s'.hres = INET_E_DOWNLOAD_FAILURE) ∧
      (s'.events.any Event.isFailedQuery = true → s'.hres = INET_E_DATA_NOT_AVAILABLE) ∧
      (s'.events.any Event.isPendingQuery = true → s'.hres = E_PENDING) ∧
      (s'.events.any Event.isFailedRead = false → s'.events.any Event.isFailedQuery = false →
        s'.events.any Event.isPendingQuery = false → s'.hres = S_FALSE))
    ?_ ?_ ?_ fuel s s' ⟨hh, h₁, h₂, h₃⟩ hrun
  · intro s ⟨hh, h₁, h₂, h₃⟩ _
    refine protocol_read_body_cases T size s
      (fun b => b.1 = false → (b.2.hres = S_FALSE ∧ b.2.events.any Event.isFailedRead = false ∧
        b.2.events.any Event.isFailedQuery = false ∧
        b.2.events.any Event.isPendingQuery = false)) ?_ ?_ ?_ ?_ ?_ ?_ ?_
    · intro _ _ h; simp at h
    · intro _ _ _ h; simp at h
    · intro _ _ _ _
      simp [hh, h₁, h₂, h₃, List.any_append, Event.isFailedRead, Event.isFailedQuery,
        Event.isPendingQuery]
    · intro _ _ _ h; simp at h
    · intro _ _ _ h; simp at h
    · intro _ _ _ h; simp at h
    · intro _ _ _ _
      simp [hh, h₁, h₂, h₃, List.any_append, Event.isFailedRead, Event.isFailedQuery,
        Event.isPendingQuery]
  · intro s ⟨hh, h₁, h₂, h₃⟩ _
    refine protocol_read_body_cases T size s
      (fun b => b.1 = true →
        ((b.2.events.any Event.isFailedRead = true → b.2.hres = INET_E_DOWNLOAD_FAILURE) ∧
        (b.2.events.any Event.isFailedQuery = true → b.2.hres = INET_E_DATA_NOT_AVAILABLE) ∧
        (b.2.events.any Event.isPendingQuery = true → b.2.hres = E_PENDING) ∧
        (b.2.events.any Event.isFailedRead = false →
          b.2.events.any Event.isFailedQuery = false →
          b.2.events.any Event.isPendingQuery = false → b.2.hres = S_FALSE))) ?_ ?_ ?_ ?_ ?_ ?_ ?_
    · intro _ _ _
      simp [h₁, h₂, h₃, List.any_append, Event.isFailedRead, Event.isFailedQuery,
        Event.isPendingQuery,
        report_result_events_any Event.isFailedQuery (fun _ => rfl),
        report_result_events_any Event.isPendingQuery (fun _ => rfl)]
    · intro _ _ _ _
      simp [hh, h₁, h₂, h₃, List.any_append, Event.isFailedRead, Event.isFailedQuery,
        Event.isPendingQuery,
        all_data_read_events_any Event.isFailedRead (fun _ => rfl) (fun _ _ _ => rfl),
        all_data_read_events_any Event.isFailedQuery (fun _ => rfl) (fun _ _ _ => rfl),
        all_data_read_events_any Event.isPendingQuery (fun _ => rfl) (fun _ _ _ => rfl)]
    · intro _ _ _ h; simp at h
    · intro _ _ _ _
      simp [h₁, h₂, h₃, List.any_append, Event.isFailedRead, Event.isFailedQuery,
        Event.isPendingQuery]
    · intro _ _ _ _
      simp [h₁, h₂, h₃, List.any_append, Event.isFailedRead, Event.isFailedQuery,
        Event.isPendingQuery,
        report_result_events_any Event.isFailedRead (fun _ => rfl),
        report_result_events_any Event.isPendingQuery (fun _ => rfl)]
    · intro _ _ _ _
      simp [hh, h₁, h₂, h₃, List.any_append, Event.isFailedRead, Event.isFailedQuery,
        Event.isPendingQuery,
        all_data_read_events_any Event.isFailedRead (fun _ => rfl) (fun _ _ _ => rfl),
        all_data_read_events_any Event.isFailedQuery (fun _ => rfl) (fun _ _ _ => rfl),
        all_data_read_events_any Event.isPendingQuery (fun _ => rfl) (fun _ _ _ => rfl)]
    · intro _ _ _ h; simp at h
  · intro s ⟨hh, h₁, h₂, h₃⟩ _
    simp [hh, h₁, h₂, h₃]

/-! ## Claims C1 - C3: entry checks and status mapping -/

/-- C1: when `FLAG_REQUEST_COMPLETE` is clear, `protocol_read` returns
`E_PENDING` with `*read_ret = 0` for every requested size, calls neither the
transport nor the sink, and leaves the transfer and the transport as they
were. -/
theorem protocol_read_request_incomplete {τ : Type} (T : Transport τ) (fuel size : Nat)
    (p : Protocol) (t : τ) (hrc : p.flags &&& FLAG_REQUEST_COMPLETE = 0) :
    protocol_read T fuel size p t =
      some { hres := E_PENDING, read_ret := 0, protocol := p, transport := t, events := [] } := by
  unfold protocol_read
  rw [if_pos hrc]

/-- Witness for C1: a transfer with `flags = 0` asked for 10 bytes. -/
theorem protocol_read_request_incomplete_witness :
    (0 : Nat) &&& FLAG_REQUEST_COMPLETE = 0 ∧
    protocol_read chunk_transport 0 10
        { flags := 0, protocol_sink := 1, current_position := 0, content_length := 0,
          available_bytes := 0, request := 1, internet := 1, lock := 0 } [5] =
      some { hres := E_PENDING, read_ret := 0,
             protocol :=
               { flags := 0, protocol_sink := 1, current_position := 0, content_length := 0,
                 available_bytes := 0, request := 1, internet := 1, lock := 0 },
             transport := [5], events := [] } :=
  ⟨by decide, protocol_read_request_incomplete chunk_transport 0 10 _ [5] (by decide)⟩

/-- C2: when `FLAG_REQUEST_COMPLETE` and `FLAG_ALL_DATA_READ` are both set,
`protocol_read` returns `S_FALSE` with `*read_ret = 0` for every requested
size, calls neither the transport nor the sink and leaves the transfer and the
transport as they were; so every call of any sequence of reads made in that
state returns this same result and state. -/
theorem protocol_read_all_data_read {τ : Type} (T : Transport τ) (fuel size : Nat)
    (sizes : List Nat) (p : Protocol) (t : τ)
    (hrc : p.flags &&& FLAG_REQUEST_COMPLETE ≠ 0) (hadr : p.flags &&& FLAG_ALL_DATA_READ ≠ 0) :
    protocol_read T fuel size p t =
        some { hres := S_FALSE, read_ret := 0, protocol := p, transport := t, events := [] } ∧
      protocol_read_calls T fuel sizes p t =
        some (sizes.map fun _ =>
          { hres := S_FALSE, read_ret := 0, protocol := p, transport := t, events := [] }) := by
  have one : ∀ n, protocol_read T fuel n p t =
      some { hres := S_FALSE, read_ret := 0, protocol := p, transport := t, events := [] } := by
    intro n
    unfold protocol_read
    rw [if_neg hrc, if_pos hadr]
  refine ⟨one size, ?_⟩
  induction sizes with
  | nil => rfl
  | cons n rest ih =>
    unfold protocol_read_calls
    simp only [one n, ih, List.map_cons]

/-- Witness for C2: three reads on a transfer whose flags are
`FLAG_REQUEST_COMPLETE | FLAG_ALL_DATA_READ | FLAG_RESULT_REPORTED`. -/
theorem protocol_read_all_data_read_witness :
    (0x29 : Nat) &&& FLAG_REQUEST_COMPLETE ≠ 0 ∧ (0x29 : Nat) &&& FLAG_ALL_DATA_READ ≠ 0 ∧
    protocol_read chunk_transport 0 10
        { flags := 0x29, protocol_sink := 1, current_position := 7, content_length := 7,
          available_bytes := 0, request := 1, internet := 1, lock := 0 } [] =
        some { hres := S_FALSE, read_ret := 0,
               protocol :=
                 { flags := 0x29, protocol_sink := 1, current_position := 7,
                   content_length := 7, available_bytes := 0, request := 1, internet := 1,
                   lock := 0 },
               transport := [], events := [] } ∧
      protocol_read_calls chunk_transport 0 [10, 0, 3]
        { flags := 0x29, protocol_sink := 1, current_position := 7, content_length := 7,
          available_bytes := 0, request := 1, internet := 1, lock := 0 } [] =
        some ([10, 0, 3].map fun _ =>
          { hres := S_FALSE, read_ret := 0,
            protocol :=
              { flags := 0x29, protocol_sink := 1, current_position := 7,
                content_length := 7, available_bytes := 0, request := 1, internet := 1,
                lock := 0 },
            transport := [], events := [] }) :=
  ⟨by decide, by decide,
    protocol_read_all_data_read chunk_transport 0 10 [10, 0, 3] _ [] (by decide) (by decide)⟩

/-- C3: past the two entry checks, the status returned by `protocol_read` is
`INET_E_DOWNLOAD_FAILURE` if an `InternetReadFile` call failed,
`INET_E_DATA_NOT_AVAILABLE` if `InternetQueryDataAvailable` failed with an error
other than pending, `E_PENDING` if it reported pending; when none of these
happened it is `S_OK` exactly when `*read_ret > 0` and `S_FALSE` exactly when
`*read_ret = 0`.  Against a transport that never delivers more than it is asked
for, fuel `2 * size` makes the call return. -/
theorem protocol_read_status {τ : Type} (T : Transport τ) (fuel size : Nat) (p : Protocol)
    (t : τ) (hrc : p.flags &&& FLAG_REQUEST_COMPLETE ≠ 0)
    (hadr : p.flags &&& FLAG_ALL_DATA_READ = 0) :
    (∀ r, protocol_read T fuel size p t = some r →
      (r.events.any Event.isFailedRead = true → r.hres = INET_E_DOWNLOAD_FAILURE) ∧
      (r.events.any Event.isFailedQuery = true → r.hres = INET_E_DATA_NOT_AVAILABLE) ∧
      (r.events.any Event.isPendingQuery = true → r.hres = E_PENDING) ∧
      (r.events.any Event.isFailedRead = false → r.events.any Event.isFailedQuery = false →
        r.events.any Event.isPendingQuery = false →
        (r.hres = S_OK ∨ r.hres = S_FALSE) ∧ (r.hres = S_OK ↔ 0 < r.read_ret) ∧
          (r.hres = S_FALSE ↔ r.read_ret = 0))) ∧
    (T.Bounded → size < ULONG_RANGE → 2 * size ≤ fuel →
      ∃ r, protocol_read T fuel size p t = some r) := by
  refine ⟨?_, fun hT hsize hfuel => protocol_read_terminates T hT fuel size hsize hfuel p t⟩
  intro r hr
  obtain ⟨s, hs, rfl⟩ := (protocol_read_past_checks T fuel size p t hrc hadr r).1 hr
  obtain ⟨k₁, k₂, k₃, k₄⟩ := protocol_read_loop_hres T size fuel
    { protocol := p, transport := t, read := 0, hres := S_FALSE, events := [] } s
    rfl rfl rfl rfl hs
  refine ⟨?_, ?_, ?_, ?_⟩
  · intro h
    show (if FAILED s.hres then s.hres else if s.read ≠ 0 then S_OK else S_FALSE) = _
    rw [k₁ h, if_pos (by decide)]
  · intro h
    show (if FAILED s.hres then s.hres else if s.read ≠ 0 then S_OK else S_FALSE) = _
    rw [k₂ h, if_pos (by decide)]
  · intro h
    show (if FAILED s.hres then s.hres else if s.read ≠ 0 then S_OK else S_FALSE) = _
    rw [k₃ h, if_pos (by decide)]
  · intro h₁ h₂ h₃
    have hf : FAILED s.hres = false := by rw [k₄ h₁ h₂ h₃]; decide
    simp only [hf]
    by_cases h0 : s.read = 0
    · simp [h0, S_OK, S_FALSE]
    · simp [h0, S_OK, S_FALSE, Nat.pos_of_ne_zero h0]

/-- Witness for C3: a fresh transfer reads 40 of 100 announced bytes. -/
theorem protocol_read_status_witness :
    (fresh 1 100).flags &&& FLAG_REQUEST_COMPLETE ≠ 0 ∧
    (fresh 1 100).flags &&& FLAG_ALL_DATA_READ = 0 ∧
    (∀ r, protocol_read chunk_transport 80 40 (fresh 1 100) [100] = some r →
      (r.events.any Event.isFailedRead = true → r.hres = INET_E_DOWNLOAD_FAILURE) ∧
      (r.events.any Event.isFailedQuery = true → r.hres = INET_E_DATA_NOT_AVAILABLE) ∧
      (r.events.any Event.isPendingQuery = true → r.hres = E_PENDING) ∧
      (r.events.any Event.isFailedRead = false → r.events.any Event.isFailedQuery = false →
        r.events.any Event.isPendingQuery = false →
        (r.hres = S_OK ∨ r.hres = S_FALSE) ∧ (r.hres = S_OK ↔ 0 < r.read_ret) ∧
          (r.hres = S_FALSE ↔ r.read_ret = 0))) ∧
    (∃ r, protocol_read chunk_transport 80 40 (fresh 1 100) [100] = some r) :=
  ⟨by decide, by decide,
    (protocol_read_status chunk_transport 80 40 (fresh 1 100) [100] (by decide) (by decide)).1,
    (protocol_read_status chunk_transport 80 40 (fresh 1 100) [100] (by decide) (by decide)).2
      chunk_transport_bounded (by decide) (by decide)⟩

/-! ## Reads against the chunk transport -/

theorem chunk_query_nil :
    chunk_transport.InternetQueryDataAvailable [] =
      ({ res := true, available_bytes := 0, io_pending := false }, []) := rfl

theorem chunk_query_cons (c : Nat) (cs : List Nat) :
    chunk_transport.InternetQueryDataAvailable (c :: cs) =
      ({ res := true, available_bytes := c, io_pending := false }, cs) := rfl

theorem chunk_read_file (t : List Nat) (max : Nat) :
    chunk_transport.InternetReadFile t max = ({ res := true, len := max }, t) := rfl

/-- The loop of `protocol_read` against the chunk transport: it either fills
the request and leaves the rest with the transport, or delivers all that
remains and sets `FLAG_ALL_DATA_READ`. -/
theorem chunk_loop (size : Nat) (hsize : size < ULONG_RANGE) :
    ∀ fuel (s : ReadLoop (List Nat)), s.read ≤ size →
      2 * (size - s.read) ≤ fuel + (if s.protocol.available_bytes ≠ 0 then 1 else 0) →
      s.protocol.available_bytes < ULONG_RANGE →
      (∀ c ∈ s.transport, 0 < c ∧ c < ULONG_RANGE) →
      s.protocol.flags &&& FLAG_ALL_DATA_READ = 0 →
      ∃ s', protocol_read_loop chunk_transport size fuel s = some s' ∧ s'.hres = s.hres ∧
        ((size ≤ s.read + (s.protocol.available_bytes + s.transport.sum) ∧ s'.read = size ∧
            s'.protocol.available_bytes + s'.transport.sum + size =
              s.read + (s.protocol.available_bytes + s.transport.sum) ∧
            s'.protocol.flags &&& FLAG_ALL_DATA_READ = 0 ∧
            s'.protocol.available_bytes < ULONG_RANGE ∧
            (∀ c ∈ s'.transport, 0 < c ∧ c < ULONG_RANGE)) ∨
          (s.read + (s.protocol.available_bytes + s.transport.sum) < size ∧
            s'.read = s.read + (s.protocol.available_bytes + s.transport.sum) ∧
            s'.protocol.flags &&& FLAG_ALL_DATA_READ ≠ 0)) := by
  intro fuel
  induction fuel with
  | zero =>
    intro s hle hfuel hav hch hadr
    have hge : ¬ s.read < size := by
      intro hlt
      split at hfuel <;> omega
    refine ⟨s, ?_, rfl, Or.inl ⟨?_, ?_, ?_, hadr, hav, hch⟩⟩
    · unfold protocol_read_loop
      simp [hge]
    · omega
    · omega
    · omega
  | succ n ih =>
    intro s hle hfuel hav hch hadr
    by_cases hlt : s.read < size
    · unfold protocol_read_loop
      simp only [hlt, if_true]
      by_cases ha : s.protocol.available_bytes = 0
      · -- an availability query
        cases ht : s.transport with
        | nil =>
          have hb : protocol_read_body chunk_transport size s =
              (true,
                { protocol := (all_data_read
                    { s.protocol with
                      flags := s.protocol.flags &&& (0xFFFFFFFF ^^^ FLAG_REQUEST_COMPLETE),
                      available_bytes := 0 }).1,
                  transport := [], read := s.read, hres := s.hres,
                  events := (s.events ++ [Event.InternetQueryDataAvailable true 0 false]) ++
                    (all_data_read
                      { s.protocol with
                        flags := s.protocol.flags &&& (0xFFFFFFFF ^^^ FLAG_REQUEST_COMPLETE),
                        available_bytes := 0 }).2 }) := by
            unfold protocol_read_body
            simp [ha, ht, chunk_query_nil, ULONG_RANGE]
          rw [hb]
          refine ⟨_, rfl, rfl, Or.inr ⟨?_, ?_, all_data_read_sets_flag _⟩⟩
          · simp [ha]; omega
          · simp [ha]
        | cons c cs =>
          have hc : 0 < c ∧ c < ULONG_RANGE := hch c (by simp [ht])
          have hcm : c % ULONG_RANGE = c := Nat.mod_eq_of_lt hc.2
          have hb : protocol_read_body chunk_transport size s =
              (false,
                { protocol :=
                    { s.protocol with
                      flags := s.protocol.flags &&& (0xFFFFFFFF ^^^ FLAG_REQUEST_COMPLETE),
                      available_bytes := c },
                  transport := cs, read := s.read, hres := s.hres,
                  events := s.events ++ [Event.InternetQueryDataAvailable true c false] }) := by
            unfold protocol_read_body
            have hc0 : c ≠ 0 := by omega
            simp [ha, ht, chunk_query_cons, hcm, hc0]
          rw [hb]
          simp only [Bool.false_eq_true, if_false]
          obtain ⟨s', hs', hh, hres⟩ := ih
            { protocol :=
                { s.protocol with
                  flags := s.protocol.flags &&& (0xFFFFFFFF ^^^ FLAG_REQUEST_COMPLETE),
                  available_bytes := c },
              transport := cs, read := s.read, hres := s.hres,
              events := s.events ++ [Event.InternetQueryDataAvailable true c false] }
            hle
            (by
              simp only [ha, ne_eq, not_true_eq_false, if_false] at hfuel
              have hc0 : c ≠ 0 := by omega
              simp only [ne_eq, hc0, not_false_eq_true, if_true]
              omega)
            hc.2
            (fun d hd => hch d (by simp [ht, hd]))
            (by rw [clear_request_complete_all_data_read]; exact hadr)
          refine ⟨s', hs', hh, ?_⟩
          simp only [ha, List.sum_cons, Nat.zero_add] at hres ⊢
          exact hres
      · -- a read of announced bytes
        have hmax : (if s.protocol.available_bytes > size - s.read then size - s.read
            else s.protocol.available_bytes) ≠ 0 ∧
            (if s.protocol.available_bytes > size - s.read then size - s.read
            else s.protocol.available_bytes) ≤ size - s.read ∧
            (if s.protocol.available_bytes > size - s.read then size - s.read
            else s.protocol.available_bytes) ≤ s.protocol.available_bytes := by
          split <;> omega
        generalize hm : (if s.protocol.available_bytes > size - s.read then size - s.read
            else s.protocol.available_bytes) = m at hmax
        have hmm : m % ULONG_RANGE = m := Nat.mod_eq_of_lt (by omega)
        have hb : protocol_read_body chunk_transport size s =
            (false,
              { protocol :=
                  { s.protocol with
                    current_position := add32 s.protocol.current_position m,
                    available_bytes := s.protocol.available_bytes - m },
                transport := s.transport, read := s.read + m, hres := s.hres,
                events := s.events ++ [Event.InternetReadFile m true m] }) := by
          unfold protocol_read_body
          have e₁ : sub32 s.protocol.available_bytes m = s.protocol.available_bytes - m := by
            unfold sub32
            rw [Nat.mod_eq_of_lt hav, hmm]
            unfold ULONG_RANGE at *
            omega
          have e₂ : add32 s.read m = s.read + m := by
            unfold add32
            exact Nat.mod_eq_of_lt (by omega)
          simp [ha, hm, chunk_read_file, hmm, hmax.1, e₁, e₂]
        rw [hb]
        simp only [Bool.false_eq_true, if_false]
        obtain ⟨s', hs', hh, hres⟩ := ih
          { protocol :=
              { s.protocol with
                current_position := add32 s.protocol.current_position m,
                available_bytes := s.protocol.available_bytes - m },
            transport := s.transport, read := s.read + m, hres := s.hres,
            events := s.events ++ [Event.InternetReadFile m true m] }
          (by simp only; omega)
          (by
            simp only [ha, ne_eq, not_false_eq_true, if_true] at hfuel
            simp only
            split <;> omega)
          (by simp only; omega)
          hch hadr
        refine ⟨s', hs', hh, ?_⟩
        simp only at hres
        rcases hres with ⟨h₁, h₂, h₃, h₄⟩ | ⟨h₁, h₂, h₃⟩
        · exact Or.inl ⟨by omega, h₂, by omega, h₄⟩
        · exact Or.inr ⟨by omega, by omega, h₃⟩
    · refine ⟨s, ?_, rfl, Or.inl ⟨?_, ?_, ?_, hadr, hav, hch⟩⟩
      · unfold protocol_read_loop
        simp [hlt]
      · omega
      · omega
      · omega

theorem or_request_complete_all_data_read_set (f : Nat) (h : f &&& FLAG_ALL_DATA_READ ≠ 0) :
    (f ||| FLAG_REQUEST_COMPLETE) &&& FLAG_ALL_DATA_READ ≠ 0 := by
  intro h'
  exact h ((or_request_complete_all_data_read f).1 h')

/-- One `protocol_read` call against the chunk transport, in a state that is
either exhausted or has well-formed counts. -/
theorem chunk_read (fuel size : Nat) (hpos : 0 < size) (hsize : size < ULONG_RANGE)
    (hfuel : 2 * size ≤ fuel) (p : Protocol) (t : List Nat)
    (hrc : p.flags &&& FLAG_REQUEST_COMPLETE ≠ 0)
    (hgood : p.flags &&& FLAG_ALL_DATA_READ ≠ 0 ∨
      (p.available_bytes < ULONG_RANGE ∧ ∀ c ∈ t, 0 < c ∧ c < ULONG_RANGE)) :
    ∃ r, protocol_read chunk_transport fuel size p t = some r ∧
      r.protocol.flags &&& FLAG_REQUEST_COMPLETE ≠ 0 ∧
      (r.protocol.flags &&& FLAG_ALL_DATA_READ ≠ 0 ∨
        (r.protocol.available_bytes < ULONG_RANGE ∧
          ∀ c ∈ r.transport, 0 < c ∧ c < ULONG_RANGE)) ∧
      r.read_ret + remaining r.protocol r.transport = remaining p t ∧
      (r.hres = S_FALSE → remaining r.protocol r.transport = 0) ∧
      (remaining p t = 0 → r.hres = S_FALSE ∧ r.read_ret = 0) := by
  by_cases hadr : p.flags &&& FLAG_ALL_DATA_READ = 0
  · have hvalid := hgood.resolve_left (by simpa using hadr)
    obtain ⟨s', hs', hh, hres⟩ := chunk_loop size hsize fuel
      { protocol := p, transport := t, read := 0, hres := S_FALSE, events := [] }
      (Nat.zero_le _) (by simp only [Nat.sub_zero]; omega) hvalid.1 hvalid.2 hadr
    simp only [Nat.zero_add] at hres hh
    have hne : s'.hres ≠ E_PENDING := by rw [hh]; decide
    have hnf : FAILED s'.hres = false := by rw [hh]; decide
    refine ⟨_, (protocol_read_past_checks chunk_transport fuel size p t
      (by simpa using hrc) hadr _).2 ⟨s', hs', rfl⟩, ?_⟩
    simp only [hne, hnf, ne_eq, not_false_eq_true, if_true, Bool.false_eq_true, if_false]
    have hrem : remaining p t = p.available_bytes + t.sum := by
      unfold remaining
      simp [hadr]
    rw [hrem]
    refine ⟨or_request_complete_set _, ?_⟩
    rcases hres with ⟨h₁, h₂, h₃, h₄, h₅, h₆⟩ | ⟨h₁, h₂, h₃⟩
    · have hrem' : remaining { s'.protocol with
          flags := s'.protocol.flags ||| FLAG_REQUEST_COMPLETE } s'.transport
          = s'.protocol.available_bytes + s'.transport.sum := by
        unfold remaining
        simp [(or_request_complete_all_data_read _).2 h₄]
      rw [hrem']
      have hr0 : s'.read ≠ 0 := by omega
      refine ⟨Or.inr ⟨h₅, h₆⟩, by omega, ?_, ?_⟩
      · simp [hr0, S_OK, S_FALSE]
      · intro h0
        omega
    · have hrem' : remaining { s'.protocol with
          flags := s'.protocol.flags ||| FLAG_REQUEST_COMPLETE } s'.transport = 0 := by
        unfold remaining
        simp [or_request_complete_all_data_read_set _ h₃]
      rw [hrem']
      refine ⟨Or.inl (or_request_complete_all_data_read_set _ h₃), by omega, fun _ => rfl, ?_⟩
      intro h0
      have hr0 : s'.read = 0 := by omega
      simp [hr0]
  · have hrem : remaining p t = 0 := by
      unfold remaining
      simp [hadr]
    refine ⟨{ hres := S_FALSE, read_ret := 0, protocol := p, transport := t, events := [] },
      ?_, hrc, Or.inl hadr, ?_, fun _ => hrem, fun _ => ⟨rfl, rfl⟩⟩
    · unfold protocol_read
      rw [if_neg hrc, if_pos hadr]
    · simp

/-- A sequence of reads against the chunk transport: it returns; whenever a call
returns `S_FALSE`, the bytes read up to and including it add up to what was
left at the start; and once that much has been read, a call returns `S_FALSE`
with no bytes. -/
theorem chunk_calls (fuel : Nat) :
    ∀ (sizes : List Nat) (p : Protocol) (t : List Nat),
      (∀ n ∈ sizes, 0 < n ∧ n < ULONG_RANGE ∧ 2 * n ≤ fuel) →
      p.flags &&& FLAG_REQUEST_COMPLETE ≠ 0 →
      (p.flags &&& FLAG_ALL_DATA_READ ≠ 0 ∨
        (p.available_bytes < ULONG_RANGE ∧ ∀ c ∈ t, 0 < c ∧ c < ULONG_RANGE)) →
      ∃ rs, protocol_read_calls chunk_transport fuel sizes p t = some rs ∧
        rs.length = sizes.length ∧
        (∀ i r, rs[i]? = some r → r.hres = S_FALSE →
          ((rs.take (i + 1)).map fun x => x.read_ret).sum = remaining p t) ∧
        (∀ j r, rs[j]? = some r →
          ((rs.take j).map fun x => x.read_ret).sum = remaining p t →
          r.hres = S_FALSE ∧ r.read_ret = 0) := by
  intro sizes
  induction sizes with
  | nil =>
    intro p t _ _ _
    exact ⟨[], rfl, rfl, by simp, by simp⟩
  | cons n rest ih =>
    intro p t hs hrc hgood
    have hn := hs n (by simp)
    obtain ⟨r, hr, hrc', hgood', hsum, hfalse, hzero⟩ :=
      chunk_read fuel n hn.1 hn.2.1 hn.2.2 p t hrc hgood
    obtain ⟨rs, hrs, hlen, hA, hB⟩ := ih r.protocol r.transport
      (fun m hm => hs m (by simp [hm])) hrc' hgood'
    refine ⟨r :: rs, ?_, by simp [hlen], ?_, ?_⟩
    · unfold protocol_read_calls
      simp only [hr, hrs]
    · intro i x hx hxf
      cases i with
      | zero =>
        simp only [List.getElem?_cons_zero, Option.some.injEq] at hx
        subst hx
        have := hfalse hxf
        simp
        omega
      | succ k =>
        simp only [List.getElem?_cons_succ] at hx
        have := hA k x hx hxf
        simp only [List.take_succ_cons, List.map_cons, List.sum_cons]
        omega
    · intro j x hx hsumj
      cases j with
      | zero =>
        simp only [List.getElem?_cons_zero, Option.some.injEq] at hx
        subst hx
        simp only [List.take_zero, List.map_nil, List.sum_nil] at hsumj
        exact hzero hsumj.symm
      | succ k =>
        simp only [List.getElem?_cons_succ] at hx
        simp only [List.take_succ_cons, List.map_cons, List.sum_cons] at hsumj
        exact hB k x hx (by omega)

/-- What one `protocol_read` call against the chunk transport delivers: as many
bytes as are asked for, or all that is left when that is less; the status is
`S_OK` unless nothing was left. -/
theorem chunk_read_amount (fuel size : Nat) (hpos : 0 < size) (hsize : size < ULONG_RANGE)
    (hfuel : 2 * size ≤ fuel) (p : Protocol) (t : List Nat)
    (hrc : p.flags &&& FLAG_REQUEST_COMPLETE ≠ 0)
    (hgood : p.flags &&& FLAG_ALL_DATA_READ ≠ 0 ∨
      (p.available_bytes < ULONG_RANGE ∧ ∀ c ∈ t, 0 < c ∧ c < ULONG_RANGE))
    (r : ReadResult (List Nat)) (hr : protocol_read chunk_transport fuel size p t = some r) :
    r.read_ret = min size (remaining p t) ∧
    (remaining p t ≠ 0 → r.hres = S_OK) ∧
    (remaining p t = 0 → r.hres = S_FALSE) ∧
    remaining r.protocol r.transport + r.read_ret = remaining p t ∧
    r.protocol.flags &&& FLAG_REQUEST_COMPLETE ≠ 0 ∧
    (r.protocol.flags &&& FLAG_ALL_DATA_READ ≠ 0 ∨
      (r.protocol.available_bytes < ULONG_RANGE ∧
        ∀ c ∈ r.transport, 0 < c ∧ c < ULONG_RANGE)) := by
  by_cases hadr : p.flags &&& FLAG_ALL_DATA_READ = 0
  · have hvalid := hgood.resolve_left (by simpa using hadr)
    obtain ⟨s', hs', hh, hres⟩ := chunk_loop size hsize fuel
      { protocol := p, transport := t, read := 0, hres := S_FALSE, events := [] }
      (Nat.zero_le _) (by simp only [Nat.sub_zero]; omega) hvalid.1 hvalid.2 hadr
    obtain ⟨s, hs, rfl⟩ := (protocol_read_past_checks chunk_transport fuel size p t
      hrc hadr r).1 hr
    have hss : s = s' := Option.some.inj (hs.symm.trans hs')
    subst hss
    simp only [Nat.zero_add] at hres hh
    have hne : s.hres ≠ E_PENDING := by rw [hh]; decide
    have hnf : FAILED s.hres = false := by rw [hh]; decide
    simp only [hne, hnf, ne_eq, not_false_eq_true, if_true, Bool.false_eq_true, if_false]
    have hrem : remaining p t = p.available_bytes + t.sum := by
      unfold remaining
      simp [hadr]
    rw [hrem]
    rcases hres with ⟨h₁, h₂, h₃, h₄, h₅, h₆⟩ | ⟨h₁, h₂, h₃⟩
    · have hrem' : remaining { s.protocol with
          flags := s.protocol.flags ||| FLAG_REQUEST_COMPLETE } s.transport
          = s.protocol.available_bytes + s.transport.sum := by
        unfold remaining
        simp [(or_request_complete_all_data_read _).2 h₄]
      rw [hrem']
      have hr0 : s.read ≠ 0 := by omega
      refine ⟨by omega, fun _ => by simp [hr0], fun h0 => by omega, by omega,
        or_request_complete_set _, Or.inr ⟨h₅, h₆⟩⟩
    · have hrem' : remaining { s.protocol with
          flags := s.protocol.flags ||| FLAG_REQUEST_COMPLETE } s.transport = 0 := by
        unfold remaining
        simp [or_request_complete_all_data_read_set _ h₃]
      rw [hrem']
      refine ⟨by omega, fun hne0 => ?_, fun h0 => ?_, by omega, or_request_complete_set _,
        Or.inl (or_request_complete_all_data_read_set _ h₃)⟩
      · have hr0 : s.read ≠ 0 := by omega
        simp [hr0]
      · have hr0 : s.read = 0 := by omega
        simp [hr0]
  · have hrem : remaining p t = 0 := by
      unfold remaining
      simp [hadr]
    unfold protocol_read at hr
    rw [if_neg hrc, if_pos hadr] at hr
    simp only [Option.some.injEq] at hr
    subst hr
    rw [hrem]
    exact ⟨by simp, fun h => absurd rfl h, fun _ => rfl, by simp, hrc, Or.inl hadr⟩

/-- A sequence of reads against the chunk transport delivers, up to each call,
the bytes asked for so far or all there is when that is less; a call returns
`S_FALSE` exactly when the sizes of the calls before it cover all there is, and
`S_OK` otherwise. -/
theorem chunk_calls_amount (fuel : Nat) :
    ∀ (sizes : List Nat) (p : Protocol) (t : List Nat) (rs : List (ReadResult (List Nat))),
      protocol_read_calls chunk_transport fuel sizes p t = some rs →
      (∀ n ∈ sizes, 0 < n ∧ n < ULONG_RANGE ∧ 2 * n ≤ fuel) →
      p.flags &&& FLAG_REQUEST_COMPLETE ≠ 0 →
      (p.flags &&& FLAG_ALL_DATA_READ ≠ 0 ∨
        (p.available_bytes < ULONG_RANGE ∧ ∀ c ∈ t, 0 < c ∧ c < ULONG_RANGE)) →
      (∀ k, ((rs.take k).map fun x => x.read_ret).sum =
        min (sizes.take k).sum (remaining p t)) ∧
      (∀ i r, rs[i]? = some r →
        (r.hres = S_FALSE ↔ remaining p t ≤ (sizes.take i).sum) ∧
        (r.hres = S_OK ↔ (sizes.take i).sum < remaining p t)) := by
  intro sizes
  induction sizes with
  | nil =>
    intro p t rs h _ _ _
    unfold protocol_read_calls at h
    simp only [Option.some.injEq] at h
    subst h
    exact ⟨fun k => by simp, fun i r hr => by simp at hr⟩
  | cons n rest ih =>
    intro p t rs h hs hrc hgood
    have hn := hs n (by simp)
    unfold protocol_read_calls at h
    cases h₁ : protocol_read chunk_transport fuel n p t with
    | none => simp [h₁] at h
    | some r₁ =>
      simp only [h₁] at h
      cases h₂ : protocol_read_calls chunk_transport fuel rest r₁.protocol r₁.transport with
      | none => simp [h₂] at h
      | some rs₁ =>
        simp only [h₂, Option.some.injEq] at h
        subst h
        obtain ⟨a₁, a₂, a₃, a₄, a₅, a₆⟩ :=
          chunk_read_amount fuel n hn.1 hn.2.1 hn.2.2 p t hrc hgood r₁ h₁
        obtain ⟨b₁, b₂⟩ := ih r₁.protocol r₁.transport rs₁ h₂
          (fun m hm => hs m (by simp [hm])) a₅ a₆
        have hne : S_OK ≠ S_FALSE := by decide
        constructor
        · intro k
          cases k with
          | zero => simp
          | succ j =>
            simp only [List.take_succ_cons, List.map_cons, List.sum_cons]
            rw [b₁ j, a₁]
            omega
        · intro i r hr
          cases i with
          | zero =>
            simp only [List.getElem?_cons_zero, Option.some.injEq] at hr
            subst hr
            simp only [List.take_zero, List.sum_nil, Nat.le_zero_eq]
            by_cases h0 : remaining p t = 0
            · have e := a₃ h0
              rw [e]
              exact ⟨⟨fun _ => h0, fun _ => rfl⟩,
                ⟨fun h => absurd h.symm hne, fun h => absurd h0 (by omega)⟩⟩
            · have e := a₂ h0
              rw [e]
              exact ⟨⟨fun h => absurd h hne, fun h => absurd h h0⟩,
                ⟨fun _ => by omega, fun _ => rfl⟩⟩
          | succ j =>
            simp only [List.getElem?_cons_succ] at hr
            obtain ⟨c₁, c₂⟩ := b₂ j r hr
            simp only [List.take_succ_cons, List.sum_cons]
            rw [c₁, c₂]
            constructor <;> constructor <;> intro h <;> omega

/-- The sum of a longer prefix of a list of naturals is at least that of a shorter one. -/
theorem take_sum_mono : ∀ (l : List Nat) (i j : Nat), i ≤ j →
    (l.take i).sum ≤ (l.take j).sum
  | [], _, _, _ => by simp
  | _ :: _, 0, _, _ => by simp
  | _ :: _, _ + 1, 0, h => absurd h (by omega)
  | _ :: l, i + 1, j + 1, h => by
    simp only [List.take_succ_cons, List.sum_cons]
    have := take_sum_mono l i j (by omega)
    omega

/-! ## Claim C4: reads against a transport serving fixed chunks -/

/-- C4: against the mock transport serving positive chunks `c1..ck`, every
sequence of `protocol_read` calls with positive sizes `n1..nm` started from
`flags = FLAG_REQUEST_COMPLETE` and `available_bytes = 0` (with
`current_position = 0` or any other value) returns one result per call, and:
the values of `*read_ret` of the first `k` calls add up to
`min (n1 + ... + nk) (c1 + ... + ck)`, for every `k`, so every call delivers all
it is asked for until the chunks run out; call `i` returns `S_FALSE` exactly when
the sizes of the calls before it cover `c1 + ... + ck`, and `S_OK` otherwise;
as soon as the sizes of the calls before some call cover the total there is a
first call returning `S_FALSE`, every call before it returns `S_OK`, and the
values of `*read_ret` up to and including it add up to `c1 + ... + ck`;
whenever a call returns `S_FALSE` the values of `*read_ret` up to and including
that call add up to `c1 + ... + ck`; and every call made once that many bytes
have been read returns `S_FALSE` with `*read_ret = 0`. -/
theorem chunk_transport_reads_sum (chunks sizes : List Nat) (fuel : Nat) (p : Protocol)
    (hflags : p.flags = FLAG_REQUEST_COMPLETE) (hav : p.available_bytes = 0)
    (hchunks : ∀ c ∈ chunks, 0 < c ∧ c < ULONG_RANGE)
    (hsizes : ∀ n ∈ sizes, 0 < n ∧ n < ULONG_RANGE ∧ 2 * n ≤ fuel) :
    ∃ rs, protocol_read_calls chunk_transport fuel sizes p chunks = some rs ∧
      rs.length = sizes.length ∧
      (∀ i r, rs[i]? = some r → r.hres = S_FALSE →
        ((rs.take (i + 1)).map fun x => x.read_ret).sum = chunks.sum) ∧
      (∀ j r, rs[j]? = some r → ((rs.take j).map fun x => x.read_ret).sum = chunks.sum →
        r.hres = S_FALSE ∧ r.read_ret = 0) ∧
      (∀ k, ((rs.take k).map fun x => x.read_ret).sum =
        min (sizes.take k).sum chunks.sum) ∧
      (∀ i r, rs[i]? = some r →
        (r.hres = S_FALSE ↔ chunks.sum ≤ (sizes.take i).sum) ∧
        (r.hres = S_OK ↔ (sizes.take i).sum < chunks.sum)) ∧
      (∀ i, i < sizes.length → chunks.sum ≤ (sizes.take i).sum →
        ∃ m r, m ≤ i ∧ rs[m]? = some r ∧ r.hres = S_FALSE ∧
          (∀ j r', j < m → rs[j]? = some r' → r'.hres = S_OK) ∧
          ((rs.take (m + 1)).map fun x => x.read_ret).sum = chunks.sum) := by
  have hadr : p.flags &&& FLAG_ALL_DATA_READ = 0 := by rw [hflags]; decide
  have hrc : p.flags &&& FLAG_REQUEST_COMPLETE ≠ 0 := by rw [hflags]; decide
  have hrem : remaining p chunks = chunks.sum := by
    unfold remaining
    simp [hadr, hav]
  have hgood : p.flags &&& FLAG_ALL_DATA_READ ≠ 0 ∨
      (p.available_bytes < ULONG_RANGE ∧ ∀ c ∈ chunks, 0 < c ∧ c < ULONG_RANGE) :=
    Or.inr ⟨by rw [hav]; decide, hchunks⟩
  obtain ⟨rs, hrs, hlen, h₁, h₂⟩ := chunk_calls fuel sizes p chunks hsizes hrc hgood
  obtain ⟨hsum, hstat⟩ := chunk_calls_amount fuel sizes p chunks rs hrs hsizes hrc hgood
  rw [hrem] at h₁ h₂ hsum hstat
  refine ⟨rs, hrs, hlen, h₁, h₂, hsum, hstat, ?_⟩
  intro i hi hcov
  have hex : ∃ m, chunks.sum ≤ (sizes.take m).sum := ⟨i, hcov⟩
  have hm := Nat.find_spec hex
  have hmi : Nat.find hex ≤ i := Nat.find_min' hex hcov
  have hmlen : Nat.find hex < rs.length := by omega
  have hget : rs[Nat.find hex]? = some (rs.get ⟨Nat.find hex, hmlen⟩) :=
    List.getElem?_eq_getElem hmlen
  refine ⟨Nat.find hex, rs.get ⟨Nat.find hex, hmlen⟩, hmi, hget,
    (hstat _ _ hget).1.2 hm, ?_, ?_⟩
  · intro j r' hj hr'
    have hnot := Nat.find_min hex hj
    exact (hstat j r' hr').2.2 (by omega)
  · rw [hsum]
    have := take_sum_mono sizes (Nat.find hex) (Nat.find hex + 1) (Nat.le_succ _)
    omega

/-- Witness for C4: chunks of 3 and 4 bytes read by three calls of size 5; the
calls return `(S_OK, 5)`, `(S_OK, 2)` and `(S_FALSE, 0)`, seven bytes in all,
leaving `current_position` at 5, 7 and 7. -/
theorem chunk_transport_reads_sum_witness :
    (fresh 1 7).flags = FLAG_REQUEST_COMPLETE ∧ (fresh 1 7).available_bytes = 0 ∧
    (∀ c ∈ [3, 4], 0 < c ∧ c < ULONG_RANGE) ∧
    (∀ n ∈ [5, 5, 5], 0 < n ∧ n < ULONG_RANGE ∧ 2 * n ≤ 10) ∧
    (protocol_read_calls chunk_transport 10 [5, 5, 5] (fresh 1 7) [3, 4]).map
      (fun rs => rs.map fun r => (r.hres, r.read_ret, r.protocol.current_position)) =
      some [(S_OK, 5, 5), (S_OK, 2, 7), (S_FALSE, 0, 7)] ∧
    ∃ rs, protocol_read_calls chunk_transport 10 [5, 5, 5] (fresh 1 7) [3, 4] = some rs ∧
      rs.length = [5, 5, 5].length ∧
      (∀ i r, rs[i]? = some r → r.hres = S_FALSE →
        ((rs.take (i + 1)).map fun x => x.read_ret).sum = [3, 4].sum) ∧
      (∀ j r, rs[j]? = some r → ((rs.take j).map fun x => x.read_ret).sum = [3, 4].sum →
        r.hres = S_FALSE ∧ r.read_ret = 0) ∧
      (∀ k, ((rs.take k).map fun x => x.read_ret).sum =
        min ([5, 5, 5].take k).sum [3, 4].sum) ∧
      (∀ i r, rs[i]? = some r →
        (r.hres = S_FALSE ↔ [3, 4].sum ≤ ([5, 5, 5].take i).sum) ∧
        (r.hres = S_OK ↔ ([5, 5, 5].take i).sum < [3, 4].sum)) ∧
      (∀ i, i < [5, 5, 5].length → [3, 4].sum ≤ ([5, 5, 5].take i).sum →
        ∃ m r, m ≤ i ∧ rs[m]? = some r ∧ r.hres = S_FALSE ∧
          (∀ j r', j < m → rs[j]? = some r' → r'.hres = S_OK) ∧
          ((rs.take (m + 1)).map fun x => x.read_ret).sum = [3, 4].sum) :=
  ⟨rfl, rfl, by decide, by decide, by decide,
    chunk_transport_reads_sum [3, 4] [5, 5, 5] 10 (fresh 1 7) rfl rfl (by decide)
      (by decide)⟩

/-! ## Claim C5: a pending availability query -/

theorem bytes_delivered_append (a b : List Event) :
    bytes_delivered (a ++ b) = bytes_delivered a + bytes_delivered b := by
  induction a with
  | nil => simp [bytes_delivered]
  | cons e es ih =>
    cases e with
    | InternetReadFile max res len =>
      cases res <;> simp [bytes_delivered, ih, Nat.add_assoc]
    | _ => simp [bytes_delivered, ih]

theorem report_result_bytes_delivered (p : Protocol) (hres : Int) :
    bytes_delivered (report_result p hres).2.2 = 0 := by
  unfold report_result
  split <;> simp [bytes_delivered]

theorem report_data_bytes_delivered (p : Protocol) : bytes_delivered (report_data p).2 = 0 := by
  unfold report_data
  split <;> simp [bytes_delivered]

theorem all_data_read_bytes_delivered (p : Protocol) :
    bytes_delivered (all_data_read p).2 = 0 := by
  unfold all_data_read
  simp [bytes_delivered_append, report_result_bytes_delivered, report_data_bytes_delivered]

theorem clear_request_complete_clear (f : Nat) :
    (f &&& (0xFFFFFFFF ^^^ FLAG_REQUEST_COMPLETE)) &&& FLAG_REQUEST_COMPLETE = 0 := by
  rw [Nat.land_assoc]
  have : (0xFFFFFFFF ^^^ FLAG_REQUEST_COMPLETE) &&& FLAG_REQUEST_COMPLETE = 0 := by decide
  rw [this]
  exact Nat.and_zero f

/-- The local `read` counts, modulo `2 ^ 32`, the bytes delivered by the
transport reads of this call. -/
theorem protocol_read_loop_read {τ : Type} (T : Transport τ) (size fuel : Nat)
    (s s' : ReadLoop τ) (h : s.read = bytes_delivered s.events % ULONG_RANGE)
    (hrun : protocol_read_loop T size fuel s = some s') :
    s'.read = bytes_delivered s'.events % ULONG_RANGE := by
  refine protocol_read_loop_rule T size
    (fun s => s.read = bytes_delivered s.events % ULONG_RANGE)
    (fun s => s.read = bytes_delivered s.events % ULONG_RANGE) ?_ ?_ ?_ fuel s s' h hrun
  · intro s h _
    refine protocol_read_body_cases T size s
      (fun b => b.1 = false → b.2.read = bytes_delivered b.2.events % ULONG_RANGE)
      ?_ ?_ ?_ ?_ ?_ ?_ ?_
    · intro _ _ h'; simp at h'
    · intro _ _ _ h'; simp at h'
    · intro _ _ _ _
      simp only [bytes_delivered_append, bytes_delivered, add32, h, Nat.add_zero]
      unfold ULONG_RANGE
      omega
    · intro _ _ _ h'; simp at h'
    · intro _ _ _ h'; simp at h'
    · intro _ _ _ h'; simp at h'
    · intro _ _ _ _
      simp only [bytes_delivered_append, bytes_delivered, h, Nat.add_zero]
  · intro s h _
    refine protocol_read_body_cases T size s
      (fun b => b.1 = true → b.2.read = bytes_delivered b.2.events % ULONG_RANGE)
      ?_ ?_ ?_ ?_ ?_ ?_ ?_
    · intro _ _ _
      simp only [bytes_delivered_append, bytes_delivered, report_result_bytes_delivered, h,
        Nat.add_zero]
    · intro _ _ _ _
      simp only [bytes_delivered_append, bytes_delivered, all_data_read_bytes_delivered, h,
        Nat.add_zero]
    · intro _ _ _ h'; simp at h'
    · intro _ _ _ _
      simp only [bytes_delivered_append, bytes_delivered, h, Nat.add_zero]
    · intro _ _ _ _
      simp only [bytes_delivered_append, bytes_delivered, report_result_bytes_delivered, h,
        Nat.add_zero]
    · intro _ _ _ _
      simp only [bytes_delivered_append, bytes_delivered, all_data_read_bytes_delivered, h,
        Nat.add_zero]
    · intro _ _ _ h'; simp at h'
  · intro s h _
    exact h

/-- A pending query ends the loop with `FLAG_REQUEST_COMPLETE` clear. -/
theorem protocol_read_loop_pending {τ : Type} (T : Transport τ) (size fuel : Nat)
    (s s' : ReadLoop τ) (h : s.events.any Event.isPendingQuery = false)
    (hrun : protocol_read_loop T size fuel s = some s') :
    s'.events.any Event.isPendingQuery = true →
      s'.protocol.flags &&& FLAG_REQUEST_COMPLETE = 0 := by
  refine protocol_read_loop_rule T size
    (fun s => s.events.any Event.isPendingQuery = false)
    (fun s => s.events.any Event.isPendingQuery = true →
      s.protocol.flags &&& FLAG_REQUEST_COMPLETE = 0) ?_ ?_ ?_ fuel s s' h hrun
  · intro s h _
    refine protocol_read_body_cases T size s
      (fun b => b.1 = false → b.2.events.any Event.isPendingQuery = false)
      ?_ ?_ ?_ ?_ ?_ ?_ ?_
    · intro _ _ h'; simp at h'
    · intro _ _ _ h'; simp at h'
    · intro _ _ _ _
      simp [h, List.any_append, Event.isPendingQuery]
    · intro _ _ _ h'; simp at h'
    · intro _ _ _ h'; simp at h'
    · intro _ _ _ h'; simp at h'
    · intro _ _ _ _
      simp [h, List.any_append, Event.isPendingQuery]
  · intro s h _
    refine protocol_read_body_cases T size s
      (fun b => b.1 = true → b.2.events.any Event.isPendingQuery = true →
        b.2.protocol.flags &&& FLAG_REQUEST_COMPLETE = 0)
      ?_ ?_ ?_ ?_ ?_ ?_ ?_
    · intro _ _ _
      simp [h, List.any_append, Event.isPendingQuery,
        report_result_events_any Event.isPendingQuery (fun _ => rfl)]
    · intro _ _ _ _
      simp [h, List.any_append, Event.isPendingQuery,
        all_data_read_events_any Event.isPendingQuery (fun _ => rfl) (fun _ _ _ => rfl)]
    · intro _ _ _ h'; simp at h'
    · intro _ _ _ _ _
      exact clear_request_complete_clear _
    · intro _ _ _ _
      simp [h, List.any_append, Event.isPendingQuery,
        report_result_events_any Event.isPendingQuery (fun _ => rfl)]
    · intro _ _ _ _
      simp [h, List.any_append, Event.isPendingQuery,
        all_data_read_events_any Event.isPendingQuery (fun _ => rfl) (fun _ _ _ => rfl)]
    · intro _ _ _ h'; simp at h'
  · intro s h _ h'
    rw [h] at h'
    exact absurd h' (by decide)

/-- C5, as stated, fails: a transfer with 60 announced bytes is asked for 100;
the 60 bytes are read, the following availability query reports pending, and
`protocol_read` returns `E_PENDING` with `*read_ret = 60`, not `0`. -/
theorem protocol_read_pending_after_bytes :
    ∃ r, protocol_read script_transport 4 100
        { flags := FLAG_REQUEST_COMPLETE, protocol_sink := 1, current_position := 40,
          content_length := 100, available_bytes := 60, request := 1, internet := 1,
          lock := 0 }
        [Reply.ok 60, Reply.pending] = some r ∧
      r.events = [Event.InternetReadFile 60 true 60,
        Event.InternetQueryDataAvailable false 0 true] ∧
      r.events.any Event.isPendingQuery = true ∧
      r.hres = E_PENDING ∧ r.read_ret = 60 ∧ r.read_ret ≠ 0 ∧
      r.protocol.flags &&& FLAG_REQUEST_COMPLETE = 0 :=
  ⟨_, rfl, by decide, by decide, by decide, by decide, by decide, by decide⟩

/-- C5, amended: when the availability query of a `protocol_read` call (with
`FLAG_REQUEST_COMPLETE` set and `FLAG_ALL_DATA_READ` clear on entry) reports
pending, the call returns `E_PENDING`, `FLAG_REQUEST_COMPLETE` is clear
afterwards, and `*read_ret` is the number of bytes (modulo `2 ^ 32`) that the
transport reads of this call delivered before the query; in particular, with
`available_bytes = 0` on entry, a positive size and a first query that reports
pending, the call returns `E_PENDING` with `*read_ret = 0` after that single
query.  Against a transport that never delivers more than it is asked for,
fuel `2 * size` makes the call return. -/
theorem protocol_read_pending {τ : Type} (T : Transport τ) (fuel size : Nat) (p : Protocol)
    (t : τ) (hrc : p.flags &&& FLAG_REQUEST_COMPLETE ≠ 0)
    (hadr : p.flags &&& FLAG_ALL_DATA_READ = 0) :
    (∀ r, protocol_read T fuel size p t = some r →
      r.events.any Event.isPendingQuery = true →
      r.hres = E_PENDING ∧ r.protocol.flags &&& FLAG_REQUEST_COMPLETE = 0 ∧
        r.read_ret = bytes_delivered r.events % ULONG_RANGE) ∧
    (0 < size → p.available_bytes = 0 →
      (T.InternetQueryDataAvailable t).1.res = false →
      (T.InternetQueryDataAvailable t).1.io_pending = true →
      protocol_read T (fuel + 1) size p t =
        some { hres := E_PENDING, read_ret := 0,
               protocol :=
                 { p with
                   flags := p.flags &&& (0xFFFFFFFF ^^^ FLAG_REQUEST_COMPLETE),
                   available_bytes :=
                     (T.InternetQueryDataAvailable t).1.available_bytes % ULONG_RANGE },
               transport := (T.InternetQueryDataAvailable t).2,
               events := [Event.InternetQueryDataAvailable false
                 ((T.InternetQueryDataAvailable t).1.available_bytes % ULONG_RANGE) true] }) ∧
    (T.Bounded → size < ULONG_RANGE → 2 * size ≤ fuel →
      ∃ r, protocol_read T fuel size p t = some r) := by
  refine ⟨?_, ?_, fun hT hsize hfuel => protocol_read_terminates T hT fuel size hsize hfuel p t⟩
  · intro r hr hpend
    obtain ⟨s, hs, rfl⟩ := (protocol_read_past_checks T fuel size p t hrc hadr r).1 hr
    have k := protocol_read_loop_hres T size fuel
      { protocol := p, transport := t, read := 0, hres := S_FALSE, events := [] } s
      rfl rfl rfl rfl hs
    have hh : s.hres = E_PENDING := k.2.2.1 hpend
    have hclear := protocol_read_loop_pending T size fuel
      { protocol := p, transport := t, read := 0, hres := S_FALSE, events := [] } s rfl hs hpend
    have hread := protocol_read_loop_read T size fuel
      { protocol := p, transport := t, read := 0, hres := S_FALSE, events := [] } s rfl hs
    refine ⟨?_, ?_, hread⟩
    · show (if FAILED s.hres then s.hres else if s.read ≠ 0 then S_OK else S_FALSE) = _
      rw [hh, if_pos (by decide)]
    · show (if s.hres ≠ E_PENDING then
          { s.protocol with flags := s.protocol.flags ||| FLAG_REQUEST_COMPLETE }
        else s.protocol).flags &&& FLAG_REQUEST_COMPLETE = 0
      rw [if_neg (by simp [hh])]
      exact hclear
  · intro hpos hav hres hio
    unfold protocol_read
    rw [if_neg hrc, if_neg (by simpa using hadr)]
    unfold protocol_read_loop
    simp [hpos, protocol_read_body, hav, hres, hio, E_PENDING, FAILED]

/-- Witness for C5 (amended): a fresh transfer asked for 8 bytes; 5 bytes are
announced and read, then the next query reports pending. -/
theorem protocol_read_pending_witness :
    (fresh 1 0).flags &&& FLAG_REQUEST_COMPLETE ≠ 0 ∧
    (fresh 1 0).flags &&& FLAG_ALL_DATA_READ = 0 ∧
    (∀ r, protocol_read script_transport 3 8 (fresh 1 0) [Reply.ok 5, Reply.ok 5, Reply.pending]
        = some r →
      r.events.any Event.isPendingQuery = true →
      r.hres = E_PENDING ∧ r.protocol.flags &&& FLAG_REQUEST_COMPLETE = 0 ∧
        r.read_ret = bytes_delivered r.events % ULONG_RANGE) ∧
    ∃ r, protocol_read script_transport 3 8 (fresh 1 0) [Reply.ok 5, Reply.ok 5, Reply.pending]
        = some r ∧ r.events.any Event.isPendingQuery = true :=
  ⟨by decide, by decide,
    (protocol_read_pending script_transport 3 8 (fresh 1 0)
      [Reply.ok 5, Reply.ok 5, Reply.pending] (by decide) (by decide)).1,
    _, rfl, by decide⟩

/-! ## Claim C6: the result is reported at most once -/

theorem report_result_count (p : Protocol) (hres : Int) :
    (report_result p hres).2.2.countP Event.isReportResult +
        (if (report_result p hres).2.1.flags.testBit 5 = true then 0 else 1) ≤
      (if p.flags.testBit 5 = true then 0 else 1) := by
  by_cases h₁ : p.flags &&& FLAG_RESULT_REPORTED = 0
  · have h₁' : p.flags.testBit 5 = false := (flag_result_reported_clear _).1 h₁
    by_cases h₂ : p.protocol_sink = 0
    · simp [report_result, h₁, h₂, h₁']
    · simp [report_result, h₁, h₂, h₁', Event.isReportResult, testBit_flag_result_reported]
  · have h₁' : p.flags.testBit 5 = true := by
      rw [flag_result_reported_clear] at h₁
      simpa using h₁
    simp [report_result, h₁, h₁']

theorem report_data_count (p : Protocol) :
    (report_data p).2.countP Event.isReportResult = 0 := by
  unfold report_data
  split <;> simp [Event.isReportResult]

theorem all_data_read_count (p : Protocol) :
    (all_data_read p).2.countP Event.isReportResult +
        (if (all_data_read p).1.flags.testBit 5 = true then 0 else 1) ≤
      (if p.flags.testBit 5 = true then 0 else 1) := by
  have h₁ := report_result_count
    (report_data { p with flags := p.flags ||| FLAG_ALL_DATA_READ }).1 S_OK
  have h₂ : (report_data { p with flags := p.flags ||| FLAG_ALL_DATA_READ }).1.flags.testBit 5
      = p.flags.testBit 5 := by
    rw [report_data_testBit]
    simp [testBit_flag_all_data_read]
  rw [h₂] at h₁
  unfold all_data_read
  simp only [List.countP_append, report_data_count, Nat.zero_add]
  exact h₁

theorem clear_request_complete_testBit_five (f : Nat) :
    (f &&& (0xFFFFFFFF ^^^ FLAG_REQUEST_COMPLETE)).testBit 5 = f.testBit 5 := by
  rw [testBit_clear_request_complete f 5 (by decide)]
  simp

/-- The result notifications of the loop are paid for by `FLAG_RESULT_REPORTED`:
each one needs the flag clear and sets it. -/
theorem protocol_read_loop_count {τ : Type} (T : Transport τ) (size fuel bound : Nat)
    (s s' : ReadLoop τ)
    (h : s.events.countP Event.isReportResult +
      (if s.protocol.flags.testBit 5 = true then 0 else 1) ≤ bound)
    (hrun : protocol_read_loop T size fuel s = some s') :
    s'.events.countP Event.isReportResult +
      (if s'.protocol.flags.testBit 5 = true then 0 else 1) ≤ bound := by
  refine protocol_read_loop_rule T size
    (fun s => s.events.countP Event.isReportResult +
      (if s.protocol.flags.testBit 5 = true then 0 else 1) ≤ bound)
    (fun s => s.events.countP Event.isReportResult +
      (if s.protocol.flags.testBit 5 = true then 0 else 1) ≤ bound) ?_ ?_ ?_ fuel s s' h hrun
  · intro s h _
    refine protocol_read_body_cases T size s
      (fun b => b.1 = false → b.2.events.countP Event.isReportResult +
        (if b.2.protocol.flags.testBit 5 = true then 0 else 1) ≤ bound)
      ?_ ?_ ?_ ?_ ?_ ?_ ?_
    · intro _ _ h'; simp at h'
    · intro _ _ _ h'; simp at h'
    · intro _ _ _ _
      simpa [List.countP_append, Event.isReportResult] using h
    · intro _ _ _ h'; simp at h'
    · intro _ _ _ h'; simp at h'
    · intro _ _ _ h'; simp at h'
    · intro _ _ _ _
      simp only [clear_request_complete_testBit_five, List.countP_append, List.countP_cons,
        List.countP_nil, Event.isReportResult]
      simpa using h
  · intro s h _
    refine protocol_read_body_cases T size s
      (fun b => b.1 = true → b.2.events.countP Event.isReportResult +
        (if b.2.protocol.flags.testBit 5 = true then 0 else 1) ≤ bound)
      ?_ ?_ ?_ ?_ ?_ ?_ ?_
    · intro _ _ _
      have k := report_result_count s.protocol INET_E_DOWNLOAD_FAILURE
      simp only [List.countP_append, List.countP_cons, List.countP_nil, Event.isReportResult]
      simp only [Bool.false_eq_true, if_false, Nat.add_zero, Nat.zero_add]
      omega
    · intro _ _ _ _
      have k := all_data_read_count s.protocol
      simp only [List.countP_append, List.countP_cons, List.countP_nil, Event.isReportResult]
      simp only [Bool.false_eq_true, if_false, Nat.add_zero, Nat.zero_add]
      omega
    · intro _ _ _ h'; simp at h'
    · intro _ _ _ _
      simp only [clear_request_complete_testBit_five, List.countP_append, List.countP_cons,
        List.countP_nil, Event.isReportResult]
      simpa using h
    · intro _ _ _ _
      have k := report_result_count
        { s.protocol with
          flags := s.protocol.flags &&& (0xFFFFFFFF ^^^ FLAG_REQUEST_COMPLETE),
          available_bytes :=
            (T.InternetQueryDataAvailable s.transport).1.available_bytes % ULONG_RANGE }
        INET_E_DATA_NOT_AVAILABLE
      simp only [clear_request_complete_testBit_five] at k
      simp only [List.countP_append, List.countP_cons, List.countP_nil, Event.isReportResult]
      simp only [Bool.false_eq_true, if_false, Nat.add_zero, Nat.zero_add]
      omega
    · intro _ _ _ _
      have k := all_data_read_count
        { s.protocol with
          flags := s.protocol.flags &&& (0xFFFFFFFF ^^^ FLAG_REQUEST_COMPLETE),
          available_bytes := 0 }
      simp only [clear_request_complete_testBit_five] at k
      simp only [List.countP_append, List.countP_cons, List.countP_nil, Event.isReportResult]
      simp only [Bool.false_eq_true, if_false, Nat.add_zero, Nat.zero_add]
      omega
    · intro _ _ _ h'; simp at h'
  · intro s h _
    exact h

/-- A returning `protocol_read` call either stopped at an entry check, touching
nothing, or ran the loop and the epilogue. -/
theorem protocol_read_some {τ : Type} (T : Transport τ) (fuel size : Nat) (p : Protocol) (t : τ)
    (r : ReadResult τ) (h : protocol_read T fuel size p t = some r) :
    (r.protocol = p ∧ r.transport = t ∧ r.events = [] ∧ r.read_ret = 0 ∧
        (r.hres = E_PENDING ∨ r.hres = S_FALSE)) ∨
      (p.flags &&& FLAG_REQUEST_COMPLETE ≠ 0 ∧ p.flags &&& FLAG_ALL_DATA_READ = 0 ∧
        ∃ s, protocol_read_loop T size fuel
            { protocol := p, transport := t, read := 0, hres := S_FALSE, events := [] } = some s ∧
          r = { hres := if FAILED s.hres then s.hres else if s.read ≠ 0 then S_OK else S_FALSE,
                read_ret := s.read,
                protocol :=
                  if s.hres ≠ E_PENDING then
                    { s.protocol with flags := s.protocol.flags ||| FLAG_REQUEST_COMPLETE }
                  else s.protocol,
                transport := s.transport, events := s.events }) := by
  by_cases hrc : p.flags &&& FLAG_REQUEST_COMPLETE = 0
  · rw [protocol_read_request_incomplete_aux T fuel size p t hrc] at h
    simp only [Option.some.injEq] at h
    subst h
    exact Or.inl ⟨rfl, rfl, rfl, rfl, Or.inl rfl⟩
  · by_cases hadr : p.flags &&& FLAG_ALL_DATA_READ = 0
    · exact Or.inr ⟨hrc, hadr, (protocol_read_past_checks T fuel size p t hrc hadr r).1 h⟩
    · unfold protocol_read at h
      rw [if_neg hrc, if_pos hadr] at h
      simp only [Option.some.injEq] at h
      subst h
      exact Or.inl ⟨rfl, rfl, rfl, rfl, Or.inr rfl⟩

theorem or_request_complete_testBit_five (f : Nat) :
    (f ||| FLAG_REQUEST_COMPLETE).testBit 5 = f.testBit 5 := by
  rw [testBit_or_request_complete]
  simp

theorem protocol_read_count {τ : Type} (T : Transport τ) (fuel size : Nat) (p : Protocol) (t : τ)
    (r : ReadResult τ) (h : protocol_read T fuel size p t = some r) :
    r.events.countP Event.isReportResult +
        (if r.protocol.flags.testBit 5 = true then 0 else 1) ≤
      (if p.flags.testBit 5 = true then 0 else 1) := by
  rcases protocol_read_some T fuel size p t r h with ⟨h₁, _, h₃, _⟩ | ⟨_, _, s, hs, rfl⟩
  · rw [h₁, h₃]
    simp
  · have k := protocol_read_loop_count T size fuel (if p.flags.testBit 5 = true then 0 else 1)
      { protocol := p, transport := t, read := 0, hres := S_FALSE, events := [] } s
      (by simp) hs
    by_cases he : s.hres = E_PENDING
    · simpa [he] using k
    · simp only [ne_eq, he, not_false_eq_true, if_true, or_request_complete_testBit_five]
      exact k

theorem run_op_count {τ : Type} (T : Transport τ) (fuel : Nat) (op : Op) (s s' : Run τ)
    (h : run_op T fuel s op = some s') :
    s'.events.countP Event.isReportResult +
        (if s'.protocol.flags.testBit 5 = true then 0 else 1) ≤
      s.events.countP Event.isReportResult +
        (if s.protocol.flags.testBit 5 = true then 0 else 1) := by
  cases op with
  | read size =>
    unfold run_op at h
    cases hr : protocol_read T fuel size s.protocol s.transport with
    | none => simp [hr] at h
    | some r =>
      simp only [hr, Option.some.injEq] at h
      subst h
      have k := protocol_read_count T fuel size s.protocol s.transport r hr
      simp only [List.countP_append]
      omega
  | report_data =>
    unfold run_op at h
    simp only [Option.some.injEq] at h
    subst h
    have k : (report_data s.protocol).1.flags.testBit 5 = s.protocol.flags.testBit 5 := by
      rw [report_data_testBit]
      simp
    simp only [List.countP_append, report_data_count, k]
    omega
  | report_result hres =>
    unfold run_op at h
    simp only [Option.some.injEq] at h
    subst h
    have k := report_result_count s.protocol hres
    simp only [List.countP_append]
    omega

theorem run_ops_count {τ : Type} (T : Transport τ) (fuel : Nat) :
    ∀ (ops : List Op) (s s' : Run τ), run_ops T fuel ops s = some s' →
      s'.events.countP Event.isReportResult +
          (if s'.protocol.flags.testBit 5 = true then 0 else 1) ≤
        s.events.countP Event.isReportResult +
          (if s.protocol.flags.testBit 5 = true then 0 else 1) := by
  intro ops
  induction ops with
  | nil =>
    intro s s' h
    unfold run_ops at h
    simp only [Option.some.injEq] at h
    subst h
    exact Nat.le_refl _
  | cons op rest ih =>
    intro s s' h
    unfold run_ops at h
    cases h₁ : run_op T fuel s op with
    | none => simp [h₁] at h
    | some s₁ =>
      simp only [h₁] at h
      exact Nat.le_trans (ih s₁ s' h) (run_op_count T fuel op s s₁ h₁)

/-- A sequence of operations returns when its reads do. -/
theorem run_ops_terminates {τ : Type} (T : Transport τ) (hT : T.Bounded) (fuel : Nat) :
    ∀ (ops : List Op) (s : Run τ),
      (∀ n, Op.read n ∈ ops → n < ULONG_RANGE ∧ 2 * n ≤ fuel) →
      ∃ s', run_ops T fuel ops s = some s' := by
  intro ops
  induction ops with
  | nil =>
    intro s _
    exact ⟨s, rfl⟩
  | cons op rest ih =>
    intro s hops
    have hstep : ∃ s₁, run_op T fuel s op = some s₁ := by
      cases op with
      | read size =>
        have hn := hops size (by simp)
        obtain ⟨r, hr⟩ := protocol_read_terminates T hT fuel size hn.1 hn.2 s.protocol
          s.transport
        refine ⟨{ protocol := r.protocol, transport := r.transport,
                  events := s.events ++ r.events }, ?_⟩
        simp only [run_op, hr]
      | report_data => exact ⟨_, rfl⟩
      | report_result hres => exact ⟨_, rfl⟩
    obtain ⟨s₁, hs₁⟩ := hstep
    obtain ⟨s', hs'⟩ := ih s₁ (fun n hn => hops n (by simp [hn]))
    refine ⟨s', ?_⟩
    unfold run_ops
    rw [hs₁]
    exact hs'

/-- C6: `report_result` returns the status it was given; it notifies the sink
exactly when `FLAG_RESULT_REPORTED` is clear and a sink is attached, and then
sets the flag; called with the flag set it changes nothing; and over any
sequence of `report_result` calls with any statuses, interleaved with reads and
`report_data` calls, the sink receives at most one result notification.  Such a
sequence returns when it holds no read, and when its reads are bounded by the
fuel against a transport that never delivers more than it is asked for. -/
theorem report_result_once {τ : Type} (T : Transport τ) (fuel : Nat) (p : Protocol) (t : τ)
    (hres : Int) (ops : List Op) :
    (report_result p hres).1 = hres ∧
    (report_result p hres).2.2 =
      (if p.flags &&& FLAG_RESULT_REPORTED = 0 ∧ p.protocol_sink ≠ 0
        then [Event.ReportResult hres] else []) ∧
    (p.flags &&& FLAG_RESULT_REPORTED = 0 → p.protocol_sink ≠ 0 →
      (report_result p hres).2.1 = { p with flags := p.flags ||| FLAG_RESULT_REPORTED } ∧
        (report_result p hres).2.1.flags &&& FLAG_RESULT_REPORTED ≠ 0) ∧
    (p.flags &&& FLAG_RESULT_REPORTED ≠ 0 → report_result p hres = (hres, p, [])) ∧
    (∀ s', run_ops T fuel ops { protocol := p, transport := t, events := [] } = some s' →
      s'.events.countP Event.isReportResult ≤ 1) ∧
    ((∀ n, Op.read n ∉ ops) →
      ∃ s', run_ops T fuel ops { protocol := p, transport := t, events := [] } = some s') ∧
    (T.Bounded → (∀ n, Op.read n ∈ ops → n < ULONG_RANGE ∧ 2 * n ≤ fuel) →
      ∃ s', run_ops T fuel ops { protocol := p, transport := t, events := [] } = some s') := by
  refine ⟨report_result_fst p hres, ?_, ?_, ?_, ?_, ?_, ?_⟩
  · unfold report_result
    split <;> rfl
  · intro h₁ h₂
    have e : (report_result p hres).2.1 = { p with flags := p.flags ||| FLAG_RESULT_REPORTED } := by
      unfold report_result
      rw [if_pos ⟨h₁, h₂⟩]
    refine ⟨e, ?_⟩
    rw [e, Ne, flag_result_reported_clear, testBit_or_result_reported]
    simp
  · intro h
    unfold report_result
    rw [if_neg (fun hc => h hc.1)]
  · intro s' hs'
    have k := run_ops_count T fuel ops _ s' hs'
    simp only [List.countP_nil, Nat.zero_add] at k
    have : (if p.flags.testBit 5 = true then 0 else 1) ≤ 1 := by split <;> omega
    omega
  · intro hno
    have step : ∀ (l : List Op) (s : Run τ), (∀ n, Op.read n ∉ l) →
        ∃ s', run_ops T fuel l s = some s' := by
      intro l
      induction l with
      | nil => intro s _; exact ⟨s, rfl⟩
      | cons op rest ih =>
        intro s hl
        have hrest : ∀ n, Op.read n ∉ rest := fun n hn => hl n (by simp [hn])
        cases op with
        | read size => exact absurd (List.mem_cons_self _ _) (hl size)
        | report_data =>
          obtain ⟨s', hs'⟩ := ih
            { protocol := (report_data s.protocol).1, transport := s.transport,
              events := s.events ++ (report_data s.protocol).2 } hrest
          exact ⟨s', by simp only [run_ops, run_op, hs']⟩
        | report_result h =>
          obtain ⟨s', hs'⟩ := ih
            { protocol := (report_result s.protocol h).2.1, transport := s.transport,
              events := s.events ++ (report_result s.protocol h).2.2 } hrest
          exact ⟨s', by simp only [run_ops, run_op, hs']⟩
    exact step ops _ hno
  · intro hT hops
    exact run_ops_terminates T hT fuel ops _ hops

/-- Witness for C6: three `report_result` calls around a failing read notify the
sink once. -/
theorem report_result_once_witness :
    ∃ s', run_ops script_transport 2
        [Op.report_result S_OK, Op.read 4, Op.report_result E_PENDING, Op.report_result S_OK]
        { protocol := fresh 1 0, transport := [Reply.fail], events := [] } = some s' ∧
      s'.events = [Event.ReportResult S_OK,
        Event.InternetQueryDataAvailable false 0 false] ∧
      s'.events.countP Event.isReportResult ≤ 1 :=
  ⟨_, rfl, by decide,
    (report_result_once script_transport 2 (fresh 1 0) [Reply.fail] S_OK
      [Op.report_result S_OK, Op.read 4, Op.report_result E_PENDING,
        Op.report_result S_OK]).2.2.2.2.1 _ rfl⟩

/-! ## Claims C7 and C8: data notifications -/

theorem report_data_noop (p : Protocol)
    (h : p.flags &&& FLAG_LAST_DATA_REPORTED ≠ 0 ∨ p.protocol_sink = 0) :
    report_data p = (p, []) := by
  unfold report_data
  rw [if_pos h]

/-- The single notification of `report_data`, and the flags it leaves, when a
sink is attached and `FLAG_LAST_DATA_REPORTED` is clear. -/
theorem report_data_emits (p : Protocol) (hs : p.protocol_sink ≠ 0)
    (hl : p.flags &&& FLAG_LAST_DATA_REPORTED = 0) :
    report_data p =
      ({ p with
         flags :=
           if p.flags &&& FLAG_ALL_DATA_READ ≠ 0 then
             (if p.flags &&& FLAG_FIRST_DATA_REPORTED ≠ 0 then p.flags
               else p.flags ||| FLAG_FIRST_DATA_REPORTED) ||| FLAG_LAST_DATA_REPORTED
           else
             (if p.flags &&& FLAG_FIRST_DATA_REPORTED ≠ 0 then p.flags
               else p.flags ||| FLAG_FIRST_DATA_REPORTED) },
        [Event.ReportData
          (if p.flags &&& FLAG_ALL_DATA_READ ≠ 0 then
            (if p.flags &&& FLAG_FIRST_DATA_REPORTED ≠ 0 then BSCF_INTERMEDIATEDATANOTIFICATION
              else BSCF_FIRSTDATANOTIFICATION) ||| BSCF_LASTDATANOTIFICATION
           else
            (if p.flags &&& FLAG_FIRST_DATA_REPORTED ≠ 0 then BSCF_INTERMEDIATEDATANOTIFICATION
              else BSCF_FIRSTDATANOTIFICATION))
          (add32 p.current_position p.available_bytes) p.content_length]) := by
  have hl' : p.flags.testBit 4 = false := (flag_last_data_clear _).1 hl
  have e₁ : (p.flags ||| FLAG_FIRST_DATA_REPORTED) &&& FLAG_LAST_DATA_REPORTED = 0 := by
    rw [flag_last_data_clear, testBit_or_first_data]
    simp [hl']
  have e₂ : (p.flags ||| FLAG_FIRST_DATA_REPORTED) &&& FLAG_ALL_DATA_READ = 0 ↔
      p.flags &&& FLAG_ALL_DATA_READ = 0 := by
    rw [flag_all_data_read_clear, flag_all_data_read_clear, testBit_or_first_data]
    simp
  unfold report_data
  rw [if_neg (by simp [hl, hs])]
  by_cases hf : p.flags &&& FLAG_FIRST_DATA_REPORTED = 0
  · by_cases ha : p.flags &&& FLAG_ALL_DATA_READ = 0
    · simp [hf, ha, e₂.2 ha]
    · simp [hf, ha, e₁, e₂]
  · by_cases ha : p.flags &&& FLAG_ALL_DATA_READ = 0
    · simp [hf, ha]
    · simp [hf, ha, hl]

theorem report_data_last (p : Protocol) (h : (report_data p).2.any Event.isLastData = true) :
    p.flags &&& FLAG_ALL_DATA_READ ≠ 0 ∧ (report_data p).1.flags.testBit 4 = true := by
  by_cases hn : p.flags &&& FLAG_LAST_DATA_REPORTED ≠ 0 ∨ p.protocol_sink = 0
  · rw [report_data_noop p hn] at h
    simp at h
  · have hs : p.protocol_sink ≠ 0 := fun hc => hn (Or.inr hc)
    have hl : p.flags &&& FLAG_LAST_DATA_REPORTED = 0 := by
      by_contra hc
      exact hn (Or.inl hc)
    have hl' : p.flags.testBit 4 = false := (flag_last_data_clear _).1 hl
    have ha : p.flags &&& FLAG_ALL_DATA_READ ≠ 0 := by
      intro ha
      rw [report_data_emits p hs hl] at h
      by_cases hf : p.flags &&& FLAG_FIRST_DATA_REPORTED = 0
      · simp [ha, hf, Event.isLastData] at h
        revert h
        decide
      · simp [ha, hf, Event.isLastData] at h
        revert h
        decide
    refine ⟨ha, ?_⟩
    rw [report_data_testBit]
    have h3 : p.flags.testBit 3 = true := by
      rw [Ne, flag_all_data_read_clear] at ha
      simpa using ha
    simp [hs, hl', h3]

theorem all_data_read_last (p : Protocol) :
    (p.flags.testBit 4 = true → (all_data_read p).1.flags.testBit 4 = true) ∧
    ((all_data_read p).2.any Event.isLastData = true →
      (all_data_read p).1.flags.testBit 4 = true) := by
  constructor
  · intro h
    rw [all_data_read_testBit]
    simp [h]
  · intro h
    rw [all_data_read_testBit]
    by_cases hs : p.protocol_sink = 0
    · exfalso
      have e₁ : report_data { p with flags := p.flags ||| FLAG_ALL_DATA_READ } =
          ({ p with flags := p.flags ||| FLAG_ALL_DATA_READ }, []) :=
        report_data_noop _ (Or.inr hs)
      unfold all_data_read at h
      simp only [e₁, List.nil_append] at h
      rw [report_result_events_any Event.isLastData (fun _ => rfl)] at h
      exact absurd h (by decide)
    · cases h4 : p.flags.testBit 4 <;> simp [hs, h4]

theorem clear_request_complete_testBit_four (f : Nat) :
    (f &&& (0xFFFFFFFF ^^^ FLAG_REQUEST_COMPLETE)).testBit 4 = f.testBit 4 := by
  rw [testBit_clear_request_complete f 4 (by decide)]
  simp

theorem or_request_complete_testBit_four (f : Nat) :
    (f ||| FLAG_REQUEST_COMPLETE).testBit 4 = f.testBit 4 := by
  rw [testBit_or_request_complete]
  simp

theorem report_result_testBit_four (p : Protocol) (hres : Int) :
    (report_result p hres).2.1.flags.testBit 4 = p.flags.testBit 4 := by
  rw [report_result_testBit]
  simp

/-- Through the loop, `FLAG_LAST_DATA_REPORTED` stays set, and it is set once a
notification carrying the LastChunk marker has been sent. -/
theorem protocol_read_loop_last {τ : Type} (T : Transport τ) (size fuel : Nat) (c : Prop)
    (s s' : ReadLoop τ)
    (h : c ∨ s.events.any Event.isLastData = true → s.protocol.flags.testBit 4 = true)
    (hrun : protocol_read_loop T size fuel s = some s') :
    c ∨ s'.events.any Event.isLastData = true → s'.protocol.flags.testBit 4 = true := by
  refine protocol_read_loop_rule T size
    (fun s => c ∨ s.events.any Event.isLastData = true → s.protocol.flags.testBit 4 = true)
    (fun s => c ∨ s.events.any Event.isLastData = true → s.protocol.flags.testBit 4 = true)
    ?_ ?_ ?_ fuel s s' h hrun
  · intro s h _
    refine protocol_read_body_cases T size s
      (fun b => b.1 = false → (c ∨ b.2.events.any Event.isLastData = true →
        b.2.protocol.flags.testBit 4 = true))
      ?_ ?_ ?_ ?_ ?_ ?_ ?_
    · intro _ _ h'; simp at h'
    · intro _ _ _ h'; simp at h'
    · intro _ _ _ _ hc
      apply h
      simpa [List.any_append, Event.isLastData] using hc
    · intro _ _ _ h'; simp at h'
    · intro _ _ _ h'; simp at h'
    · intro _ _ _ h'; simp at h'
    · intro _ _ _ _ hc
      simp only [clear_request_complete_testBit_four]
      apply h
      simpa [List.any_append, Event.isLastData] using hc
  · intro s h _
    refine protocol_read_body_cases T size s
      (fun b => b.1 = true → (c ∨ b.2.events.any Event.isLastData = true →
        b.2.protocol.flags.testBit 4 = true))
      ?_ ?_ ?_ ?_ ?_ ?_ ?_
    · intro _ _ _ hc
      simp only [report_result_testBit_four]
      apply h
      simpa [List.any_append, Event.isLastData,
        report_result_events_any Event.isLastData (fun _ => rfl)] using hc
    · intro _ _ _ _ hc
      simp only [List.any_append, List.any_cons, List.any_nil, Event.isLastData,
        Bool.or_false, Bool.or_eq_true] at hc
      rcases hc with hc | hc | hc
      · exact (all_data_read_last s.protocol).1 (h (Or.inl hc))
      · exact (all_data_read_last s.protocol).1 (h (Or.inr hc))
      · exact (all_data_read_last s.protocol).2 hc
    · intro _ _ _ h'; simp at h'
    · intro _ _ _ _ hc
      simp only [clear_request_complete_testBit_four]
      apply h
      simpa [List.any_append, Event.isLastData] using hc
    · intro _ _ _ _ hc
      simp only [report_result_testBit_four, clear_request_complete_testBit_four]
      apply h
      simpa [List.any_append, Event.isLastData,
        report_result_events_any Event.isLastData (fun _ => rfl)] using hc
    · intro _ _ _ _ hc
      simp only [List.any_append, List.any_cons, List.any_nil, Event.isLastData,
        Bool.or_false, Bool.or_eq_true] at hc
      have k := all_data_read_last
        { s.protocol with
          flags := s.protocol.flags &&& (0xFFFFFFFF ^^^ FLAG_REQUEST_COMPLETE),
          available_bytes := 0 }
      simp only [clear_request_complete_testBit_four] at k
      rcases hc with hc | hc | hc
      · exact k.1 (h (Or.inl hc))
      · exact k.1 (h (Or.inr hc))
      · exact k.2 hc
    · intro _ _ _ h'; simp at h'
  · intro s h _
    exact h

theorem protocol_read_last {τ : Type} (T : Transport τ) (fuel size : Nat) (p : Protocol) (t : τ)
    (r : ReadResult τ) (h : protocol_read T fuel size p t = some r) :
    p.flags.testBit 4 = true ∨ r.events.any Event.isLastData = true →
      r.protocol.flags.testBit 4 = true := by
  rcases protocol_read_some T fuel size p t r h with ⟨h₁, _, h₃, _⟩ | ⟨_, _, s, hs, rfl⟩
  · rw [h₁, h₃]
    simp
  · have k := protocol_read_loop_last T size fuel (p.flags.testBit 4 = true)
      { protocol := p, transport := t, read := 0, hres := S_FALSE, events := [] } s
      (by simp) hs
    intro hc
    by_cases he : s.hres = E_PENDING
    · simpa [he] using k hc
    · simp only [ne_eq, he, not_false_eq_true, if_true, or_request_complete_testBit_four]
      exact k hc

theorem run_op_last {τ : Type} (T : Transport τ) (fuel : Nat) (op : Op) (s s' : Run τ)
    (hinv : s.events.any Event.isLastData = true → s.protocol.flags.testBit 4 = true)
    (h : run_op T fuel s op = some s') :
    (s.protocol.flags.testBit 4 = true → s'.protocol.flags.testBit 4 = true) ∧
    (s'.events.any Event.isLastData = true → s'.protocol.flags.testBit 4 = true) := by
  cases op with
  | read size =>
    unfold run_op at h
    cases hr : protocol_read T fuel size s.protocol s.transport with
    | none => simp [hr] at h
    | some r =>
      simp only [hr, Option.some.injEq] at h
      subst h
      have k := protocol_read_last T fuel size s.protocol s.transport r hr
      refine ⟨fun h4 => k (Or.inl h4), ?_⟩
      intro hc
      simp only [List.any_append, Bool.or_eq_true] at hc
      rcases hc with hc | hc
      · exact k (Or.inl (hinv hc))
      · exact k (Or.inr hc)
  | report_data =>
    unfold run_op at h
    simp only [Option.some.injEq] at h
    subst h
    have mono : s.protocol.flags.testBit 4 = true →
        (report_data s.protocol).1.flags.testBit 4 = true := by
      intro h4
      rw [report_data_testBit]
      simp [h4]
    refine ⟨mono, ?_⟩
    intro hc
    simp only [List.any_append, Bool.or_eq_true] at hc
    rcases hc with hc | hc
    · exact mono (hinv hc)
    · exact (report_data_last s.protocol hc).2
  | report_result hres =>
    unfold run_op at h
    simp only [Option.some.injEq] at h
    subst h
    simp only [report_result_testBit_four, List.any_append,
      report_result_events_any Event.isLastData (fun _ => rfl), Bool.or_false]
    exact ⟨id, hinv⟩

theorem run_ops_last {τ : Type} (T : Transport τ) (fuel : Nat) :
    ∀ (ops : List Op) (s s' : Run τ),
      (s.events.any Event.isLastData = true → s.protocol.flags.testBit 4 = true) →
      run_ops T fuel ops s = some s' →
      (s.protocol.flags.testBit 4 = true → s'.protocol.flags.testBit 4 = true) ∧
      (s'.events.any Event.isLastData = true → s'.protocol.flags.testBit 4 = true) := by
  intro ops
  induction ops with
  | nil =>
    intro s s' hinv h
    unfold run_ops at h
    simp only [Option.some.injEq] at h
    subst h
    exact ⟨id, hinv⟩
  | cons op rest ih =>
    intro s s' hinv h
    unfold run_ops at h
    cases h₁ : run_op T fuel s op with
    | none => simp [h₁] at h
    | some s₁ =>
      simp only [h₁] at h
      have k₁ := run_op_last T fuel op s s₁ hinv h₁
      have k₂ := ih s₁ s' k₁.2 h
      exact ⟨fun h4 => k₂.1 (k₁.1 h4), k₂.2⟩

/-- C7: `report_data` sends a notification carrying the LastChunk marker only if
`FLAG_ALL_DATA_READ` is set at that call, and that call sets
`FLAG_LAST_DATA_REPORTED`; and in every state reached by reads, `report_data`
and `report_result` calls after such a notification has been sent (or from a
state with `FLAG_LAST_DATA_REPORTED` set), `report_data` sends nothing and
changes nothing.  The sequence of calls returns when its reads are bounded by
the fuel against a transport that never delivers more than it is asked for. -/
theorem report_data_last_chunk {τ : Type} (T : Transport τ) (fuel : Nat) (p : Protocol) (t : τ)
    (ops : List Op) :
    ((report_data p).2.any Event.isLastData = true → p.flags &&& FLAG_ALL_DATA_READ ≠ 0) ∧
    ((report_data p).2.any Event.isLastData = true →
      (report_data p).1.flags &&& FLAG_LAST_DATA_REPORTED ≠ 0) ∧
    (∀ s', run_ops T fuel ops { protocol := p, transport := t, events := [] } = some s' →
      p.flags &&& FLAG_LAST_DATA_REPORTED ≠ 0 ∨ s'.events.any Event.isLastData = true →
      report_data s'.protocol = (s'.protocol, [])) ∧
    (T.Bounded → (∀ n, Op.read n ∈ ops → n < ULONG_RANGE ∧ 2 * n ≤ fuel) →
      ∃ s', run_ops T fuel ops { protocol := p, transport := t, events := [] } = some s') := by
  refine ⟨fun h => (report_data_last p h).1, ?_, ?_, ?_⟩
  · intro h
    rw [Ne, flag_last_data_clear]
    simp [(report_data_last p h).2]
  · intro s' hs' hc
    have k := run_ops_last T fuel ops { protocol := p, transport := t, events := [] } s'
      (by simp) hs'
    have h4 : s'.protocol.flags.testBit 4 = true := by
      rcases hc with hc | hc
      · apply k.1
        rw [Ne, flag_last_data_clear] at hc
        simpa using hc
      · exact k.2 hc
    apply report_data_noop
    left
    rw [Ne, flag_last_data_clear]
    simp [h4]
  · intro hT hops
    exact run_ops_terminates T hT fuel ops _ hops

/-- Witness for C7: a read that finds the transport empty sends FirstChunk with
LastChunk; further calls, `report_data` among them, send no data
notification. -/
theorem report_data_last_chunk_witness :
    ∃ s', run_ops chunk_transport 10 [Op.read 5, Op.report_data, Op.read 5, Op.report_data]
        { protocol := fresh 1 0, transport := [], events := [] } = some s' ∧
      s'.events = [Event.InternetQueryDataAvailable true 0 false,
        Event.ReportData 5 0 0, Event.ReportResult S_OK] ∧
      report_data s'.protocol = (s'.protocol, []) :=
  ⟨_, rfl, by decide,
    (report_data_last_chunk chunk_transport 10 (fresh 1 0) []
      [Op.read 5, Op.report_data, Op.read 5, Op.report_data]).2.2.1 _ rfl
      (Or.inr (by decide))⟩

/-- C8: with a sink attached and `FLAG_LAST_DATA_REPORTED` clear, `report_data`
sends exactly one data notification; its markers are FirstChunk if
`FLAG_FIRST_DATA_REPORTED` was clear and Intermediate otherwise, together with
LastChunk exactly when `FLAG_ALL_DATA_READ` is set; its byte count is the
`ULONG` sum `current_position + available_bytes` (the exact sum while that is
below `2 ^ 32`) and its total size is `content_length`.  Afterwards
`FLAG_FIRST_DATA_REPORTED` is set, `FLAG_LAST_DATA_REPORTED` is set exactly when
`FLAG_ALL_DATA_READ` is set, and the other fields are unchanged. -/
theorem report_data_notification (p : Protocol) (hs : p.protocol_sink ≠ 0)
    (hl : p.flags &&& FLAG_LAST_DATA_REPORTED = 0) :
    (report_data p).2 =
      [Event.ReportData
        ((if p.flags &&& FLAG_FIRST_DATA_REPORTED = 0 then BSCF_FIRSTDATANOTIFICATION
            else BSCF_INTERMEDIATEDATANOTIFICATION) |||
          (if p.flags &&& FLAG_ALL_DATA_READ ≠ 0 then BSCF_LASTDATANOTIFICATION else 0))
        (add32 p.current_position p.available_bytes) p.content_length] ∧
    (p.current_position + p.available_bytes < ULONG_RANGE →
      add32 p.current_position p.available_bytes = p.current_position + p.available_bytes) ∧
    (report_data p).1.flags &&& FLAG_FIRST_DATA_REPORTED ≠ 0 ∧
    ((report_data p).1.flags &&& FLAG_LAST_DATA_REPORTED ≠ 0 ↔
      p.flags &&& FLAG_ALL_DATA_READ ≠ 0) ∧
    ((report_data p).1.flags &&& FLAG_ALL_DATA_READ ≠ 0 ↔
      p.flags &&& FLAG_ALL_DATA_READ ≠ 0) ∧
    SameFields p (report_data p).1 := by
  have hl' : p.flags.testBit 4 = false := (flag_last_data_clear _).1 hl
  refine ⟨?_, ?_, ?_, ?_, ?_, report_data_same_fields p⟩
  · rw [report_data_emits p hs hl]
    by_cases hf : p.flags &&& FLAG_FIRST_DATA_REPORTED = 0 <;>
      by_cases ha : p.flags &&& FLAG_ALL_DATA_READ = 0 <;> simp [hf, ha]
  · intro h
    unfold add32
    exact Nat.mod_eq_of_lt h
  · rw [Ne, flag_first_data_clear, report_data_testBit]
    simp [hs, hl']
  · rw [Ne, Ne, flag_last_data_clear, flag_all_data_read_clear, report_data_testBit]
    simp [hs, hl']
  · rw [Ne, Ne, flag_all_data_read_clear, flag_all_data_read_clear, report_data_testBit]
    simp

/-- Witness for C8: all data read and nothing reported yet gives
FirstChunk with LastChunk. -/
theorem report_data_notification_witness :
    (1 : Nat) ≠ 0 ∧ (0x09 : Nat) &&& FLAG_LAST_DATA_REPORTED = 0 ∧
    (report_data
        { flags := 0x09, protocol_sink := 1, current_position := 40, content_length := 100,
          available_bytes := 60, request := 1, internet := 1, lock := 0 }).2 =
      [Event.ReportData (BSCF_FIRSTDATANOTIFICATION ||| BSCF_LASTDATANOTIFICATION) 100 100] :=
  ⟨by decide, by decide,
    (report_data_notification
      { flags := 0x09, protocol_sink := 1, current_position := 40, content_length := 100,
        available_bytes := 60, request := 1, internet := 1, lock := 0 }
      (by decide) (by decide)).1⟩

/-! ## Claim C9: an empty transfer -/

/-- C9: on a fresh transfer (`flags = FLAG_REQUEST_COMPLETE`,
`current_position = 0`, `available_bytes = 0`) with a sink attached, when the
first availability query succeeds with count `0`, a `protocol_read` of any
positive size returns `S_FALSE` with `*read_ret = 0`; the calls made are that
query, one data notification with FirstChunk and LastChunk, and one result
notification with `S_OK`, in this order, and no `InternetReadFile`;
`FLAG_ALL_DATA_READ` is set afterwards. -/
theorem protocol_read_empty_transfer {τ : Type} (T : Transport τ) (fuel size : Nat)
    (p : Protocol) (t : τ) (hflags : p.flags = FLAG_REQUEST_COMPLETE)
    (hpos : p.current_position = 0) (hav : p.available_bytes = 0)
    (hsink : p.protocol_sink ≠ 0) (hsize : 0 < size)
    (hres : (T.InternetQueryDataAvailable t).1.res = true)
    (hzero : (T.InternetQueryDataAvailable t).1.available_bytes % ULONG_RANGE = 0) :
    protocol_read T (fuel + 1) size p t =
      some { hres := S_FALSE, read_ret := 0,
             protocol :=
               { p with
                 flags := FLAG_REQUEST_COMPLETE ||| FLAG_FIRST_DATA_REPORTED |||
                   FLAG_ALL_DATA_READ ||| FLAG_LAST_DATA_REPORTED ||| FLAG_RESULT_REPORTED },
             transport := (T.InternetQueryDataAvailable t).2,
             events :=
               [Event.InternetQueryDataAvailable true 0
                  (T.InternetQueryDataAvailable t).1.io_pending,
                Event.ReportData (BSCF_FIRSTDATANOTIFICATION ||| BSCF_LASTDATANOTIFICATION) 0
                  p.content_length,
                Event.ReportResult S_OK] } ∧
      (FLAG_REQUEST_COMPLETE ||| FLAG_FIRST_DATA_REPORTED ||| FLAG_ALL_DATA_READ |||
        FLAG_LAST_DATA_REPORTED ||| FLAG_RESULT_REPORTED) &&& FLAG_ALL_DATA_READ ≠ 0 := by
  refine ⟨?_, by decide⟩
  obtain ⟨flags, sink, pos, len, avail, request, internet, lock⟩ := p
  simp only at hflags hpos hav hsink
  subst hflags hpos hav
  have e₁ : FLAG_REQUEST_COMPLETE &&& FLAG_REQUEST_COMPLETE ≠ 0 := by decide
  have e₂ : FLAG_REQUEST_COMPLETE &&& FLAG_ALL_DATA_READ = 0 := by decide
  unfold protocol_read
  rw [if_neg e₁, if_neg (by simpa using e₂)]
  unfold protocol_read_loop
  have b : protocol_read_body T size
      { protocol :=
          { flags := FLAG_REQUEST_COMPLETE, protocol_sink := sink, current_position := 0,
            content_length := len, available_bytes := 0, request := request,
            internet := internet, lock := lock },
        transport := t, read := 0, hres := S_FALSE, events := [] } =
      (true,
        { protocol :=
            { flags := FLAG_FIRST_DATA_REPORTED ||| FLAG_ALL_DATA_READ |||
                FLAG_LAST_DATA_REPORTED ||| FLAG_RESULT_REPORTED,
              protocol_sink := sink, current_position := 0, content_length := len,
              available_bytes := 0, request := request, internet := internet, lock := lock },
          transport := (T.InternetQueryDataAvailable t).2, read := 0, hres := S_FALSE,
          events :=
            [Event.InternetQueryDataAvailable true 0
               (T.InternetQueryDataAvailable t).1.io_pending,
             Event.ReportData (BSCF_FIRSTDATANOTIFICATION ||| BSCF_LASTDATANOTIFICATION) 0 len,
             Event.ReportResult S_OK] }) := by
    have hzero' : (T.InternetQueryDataAvailable t).1.available_bytes % 4294967296 = 0 := hzero
    simp +decide [protocol_read_body, hres, hzero', all_data_read, report_data, report_result,
      hsink,
      FLAG_REQUEST_COMPLETE, FLAG_LAST_DATA_REPORTED, FLAG_FIRST_DATA_REPORTED,
      FLAG_ALL_DATA_READ, FLAG_RESULT_REPORTED, BSCF_FIRSTDATANOTIFICATION,
      BSCF_LASTDATANOTIFICATION, add32, ULONG_RANGE]
  simp only [hsize, if_true, b]
  simp +decide [S_FALSE, E_PENDING, FAILED, FLAG_LAST_DATA_REPORTED, FLAG_FIRST_DATA_REPORTED,
    FLAG_ALL_DATA_READ, FLAG_RESULT_REPORTED, FLAG_REQUEST_COMPLETE]

/-- Witness for C9: the chunk transport with nothing to serve. -/
theorem protocol_read_empty_transfer_witness :
    protocol_read chunk_transport (0 + 1) 16 (fresh 1 0) [] =
      some { hres := S_FALSE, read_ret := 0,
             protocol :=
               { fresh 1 0 with
                 flags := FLAG_REQUEST_COMPLETE ||| FLAG_FIRST_DATA_REPORTED |||
                   FLAG_ALL_DATA_READ ||| FLAG_LAST_DATA_REPORTED ||| FLAG_RESULT_REPORTED },
             transport := (chunk_transport.InternetQueryDataAvailable []).2,
             events :=
               [Event.InternetQueryDataAvailable true 0
                  (chunk_transport.InternetQueryDataAvailable []).1.io_pending,
                Event.ReportData (BSCF_FIRSTDATANOTIFICATION ||| BSCF_LASTDATANOTIFICATION) 0
                  (fresh 1 0).content_length,
                Event.ReportResult S_OK] } :=
  (protocol_read_empty_transfer chunk_transport 0 16 (fresh 1 0) [] rfl rfl rfl (by decide)
    (by decide) rfl rfl).1

/-! ## Claim C10: reading announced bytes -/

theorem or_request_complete_of_set (f : Nat) (h : f &&& FLAG_REQUEST_COMPLETE ≠ 0) :
    f ||| FLAG_REQUEST_COMPLETE = f := by
  have h0 : f.testBit 0 = true := by
    rw [Ne, flag_request_complete_clear] at h
    simpa using h
  apply Nat.eq_of_testBit_eq
  intro i
  rw [testBit_or_request_complete]
  by_cases hi : i = 0
  · subst hi
    simp [h0]
  · simp [hi]

/-- The calls made by the loop extend the calls made before it. -/
theorem protocol_read_loop_events {τ : Type} (T : Transport τ) (size fuel : Nat)
    (s s' : ReadLoop τ) (hrun : protocol_read_loop T size fuel s = some s') :
    ∃ rest, s'.events = s.events ++ rest := by
  refine protocol_read_loop_rule T size (fun x => ∃ rest, x.events = s.events ++ rest)
    (fun x => ∃ rest, x.events = s.events ++ rest) ?_ ?_ ?_ fuel s s' ⟨[], by simp⟩ hrun
  · intro x ⟨rest, hx⟩ _
    refine protocol_read_body_cases T size x
      (fun b => b.1 = false → ∃ rest, b.2.events = s.events ++ rest) ?_ ?_ ?_ ?_ ?_ ?_ ?_
    · intro _ _ h'; simp at h'
    · intro _ _ _ h'; simp at h'
    · intro _ _ _ _
      simp only [hx, List.append_assoc]
      exact ⟨_, rfl⟩
    · intro _ _ _ h'; simp at h'
    · intro _ _ _ h'; simp at h'
    · intro _ _ _ h'; simp at h'
    · intro _ _ _ _
      simp only [hx, List.append_assoc]
      exact ⟨_, rfl⟩
  · intro x ⟨rest, hx⟩ _
    refine protocol_read_body_cases T size x
      (fun b => b.1 = true → ∃ rest, b.2.events = s.events ++ rest) ?_ ?_ ?_ ?_ ?_ ?_ ?_
    · intro _ _ _
      simp only [hx, List.append_assoc]
      exact ⟨_, rfl⟩
    · intro _ _ _ _
      simp only [hx, List.append_assoc]
      exact ⟨_, rfl⟩
    · intro _ _ _ h'; simp at h'
    · intro _ _ _ _
      simp only [hx, List.append_assoc]
      exact ⟨_, rfl⟩
    · intro _ _ _ _
      simp only [hx, List.append_assoc]
      exact ⟨_, rfl⟩
    · intro _ _ _ _
      simp only [hx, List.append_assoc]
      exact ⟨_, rfl⟩
    · intro _ _ _ h'; simp at h'
  · intro x hx _
    exact hx

/-- With nothing announced and bytes still wanted, the first call of the loop
is an availability query. -/
theorem protocol_read_loop_query_first {τ : Type} (T : Transport τ) (size fuel : Nat)
    (s s' : ReadLoop τ) (hlt : s.read < size) (ha : s.protocol.available_bytes = 0)
    (hrun : protocol_read_loop T size fuel s = some s') :
    ∃ rest, s'.events = s.events ++
      Event.InternetQueryDataAvailable (T.InternetQueryDataAvailable s.transport).1.res
        ((T.InternetQueryDataAvailable s.transport).1.available_bytes % ULONG_RANGE)
        (T.InternetQueryDataAvailable s.transport).1.io_pending :: rest := by
  cases fuel with
  | zero =>
    unfold protocol_read_loop at hrun
    simp [hlt] at hrun
  | succ n =>
    unfold protocol_read_loop at hrun
    simp only [hlt, if_true] at hrun
    have key : ∃ mid, (protocol_read_body T size s).2.events = s.events ++
        Event.InternetQueryDataAvailable (T.InternetQueryDataAvailable s.transport).1.res
          ((T.InternetQueryDataAvailable s.transport).1.available_bytes % ULONG_RANGE)
          (T.InternetQueryDataAvailable s.transport).1.io_pending :: mid := by
      refine protocol_read_body_cases T size s
        (fun b => ∃ mid, b.2.events = s.events ++
          Event.InternetQueryDataAvailable (T.InternetQueryDataAvailable s.transport).1.res
            ((T.InternetQueryDataAvailable s.transport).1.available_bytes % ULONG_RANGE)
            (T.InternetQueryDataAvailable s.transport).1.io_pending :: mid)
        ?_ ?_ ?_ ?_ ?_ ?_ ?_
      · intro h; exact absurd ha h
      · intro h; exact absurd ha h
      · intro h; exact absurd ha h
      · intro _ h₁ h₂
        exact ⟨[], by simp [h₁, h₂]⟩
      · intro _ h₁ h₂
        simp only [h₁, h₂, List.append_assoc, List.singleton_append]
        exact ⟨_, rfl⟩
      · intro _ h₁ h₂
        simp only [h₁, h₂, List.append_assoc, List.singleton_append]
        exact ⟨_, rfl⟩
      · intro _ h₁ _
        exact ⟨[], by simp [h₁]⟩
    obtain ⟨mid, hmid⟩ := key
    by_cases hb : (protocol_read_body T size s).1 = true
    · simp only [hb, if_true, Option.some.injEq] at hrun
      subst hrun
      exact ⟨mid, hmid⟩
    · simp only [hb] at hrun
      obtain ⟨rest, hrest⟩ := protocol_read_loop_events T size n _ s' hrun
      exact ⟨mid ++ rest, by rw [hrest, hmid]; simp⟩

/-- With `b` announced bytes, fewer than are still wanted, and a transport that
delivers what it is asked for, the loop first reads the `b` bytes and then
issues an availability query. -/
theorem protocol_read_loop_drain_first {τ : Type} (T : Transport τ) (hT : T.DeliversAll)
    (size fuel : Nat) (hsize : size < ULONG_RANGE) (s s' : ReadLoop τ)
    (ha : s.protocol.available_bytes ≠ 0)
    (hb : s.read + s.protocol.available_bytes < size)
    (hrun : protocol_read_loop T size fuel s = some s') :
    ∃ rest, s'.events = s.events ++
      Event.InternetReadFile s.protocol.available_bytes true s.protocol.available_bytes ::
      Event.InternetQueryDataAvailable
        (T.InternetQueryDataAvailable
          (T.InternetReadFile s.transport s.protocol.available_bytes).2).1.res
        ((T.InternetQueryDataAvailable
          (T.InternetReadFile s.transport s.protocol.available_bytes).2).1.available_bytes
            % ULONG_RANGE)
        (T.InternetQueryDataAvailable
          (T.InternetReadFile s.transport s.protocol.available_bytes).2).1.io_pending ::
      rest := by
  have hlt : s.read < size := by omega
  cases fuel with
  | zero =>
    unfold protocol_read_loop at hrun
    simp [hlt] at hrun
  | succ n =>
    unfold protocol_read_loop at hrun
    simp only [hlt, if_true] at hrun
    have hmax : (if s.protocol.available_bytes > size - s.read then size - s.read
        else s.protocol.available_bytes) = s.protocol.available_bytes := by
      split <;> omega
    have hmod : s.protocol.available_bytes % ULONG_RANGE = s.protocol.available_bytes :=
      Nat.mod_eq_of_lt (by omega)
    have hbody : protocol_read_body T size s =
        (false,
          { protocol :=
              { s.protocol with
                current_position :=
                  add32 s.protocol.current_position s.protocol.available_bytes,
                available_bytes := 0 },
            transport := (T.InternetReadFile s.transport s.protocol.available_bytes).2,
            read := s.read + s.protocol.available_bytes, hres := s.hres,
            events := s.events ++ [Event.InternetReadFile s.protocol.available_bytes true
              s.protocol.available_bytes] }) := by
      have e₁ : sub32 s.protocol.available_bytes s.protocol.available_bytes = 0 := by
        unfold sub32
        rw [hmod]
        unfold ULONG_RANGE at *
        omega
      have e₂ : add32 s.read s.protocol.available_bytes
          = s.read + s.protocol.available_bytes := by
        unfold add32
        exact Nat.mod_eq_of_lt (by omega)
      unfold protocol_read_body
      simp [ha, hmax, hT s.transport s.protocol.available_bytes, hmod, e₁, e₂]
    rw [hbody] at hrun
    simp only [Bool.false_eq_true, if_false] at hrun
    obtain ⟨rest, hrest⟩ := protocol_read_loop_query_first T size n _ s' (by simpa using hb)
      rfl hrun
    exact ⟨rest, by rw [hrest]; simp⟩

/-- The loop does nothing once `read` has reached `size`. -/
theorem protocol_read_loop_done {τ : Type} (T : Transport τ) (size fuel : Nat) (s : ReadLoop τ)
    (h : ¬ s.read < size) : protocol_read_loop T size fuel s = some s := by
  unfold protocol_read_loop
  rw [if_neg h]

/-- C10: with `FLAG_REQUEST_COMPLETE` set, `FLAG_ALL_DATA_READ` clear and
`available_bytes = a`, a read of size `n` with `0 < n <= a` against a transport
that delivers every byte asked for returns `S_OK` with `*read_ret = n`, makes
the single call `InternetReadFile` for `n` bytes (no availability query, no sink
notification), advances `current_position` by `n` (as a `ULONG`; exactly, when
no wrap occurs) and leaves `available_bytes = a - n`.  A following read of size
`m > a - n` first reads the remaining `a - n` bytes (when there are any) and
then issues an availability query; it returns when given fuel `2 * m`. -/
theorem protocol_read_announced {τ : Type} (T : Transport τ) (hT : T.DeliversAll)
    (fuel n m : Nat) (p : Protocol) (t : τ)
    (hrc : p.flags &&& FLAG_REQUEST_COMPLETE ≠ 0) (hadr : p.flags &&& FLAG_ALL_DATA_READ = 0)
    (ha : p.available_bytes < ULONG_RANGE) (hn : 0 < n) (hle : n ≤ p.available_bytes)
    (hm : p.available_bytes - n < m) (hmR : m < ULONG_RANGE) :
    protocol_read T (fuel + 1) n p t =
      some { hres := S_OK, read_ret := n,
             protocol :=
               { p with
                 current_position := add32 p.current_position n,
                 available_bytes := p.available_bytes - n },
             transport := (T.InternetReadFile t n).2,
             events := [Event.InternetReadFile n true n] } ∧
    (p.current_position + n < ULONG_RANGE →
      add32 p.current_position n = p.current_position + n) ∧
    (∀ fuel₂ r,
      protocol_read T fuel₂ m
          { p with
            current_position := add32 p.current_position n,
            available_bytes := p.available_bytes - n }
          (T.InternetReadFile t n).2 = some r →
      ∃ res avail io rest, r.events =
        (if p.available_bytes - n ≠ 0 then
          [Event.InternetReadFile (p.available_bytes - n) true (p.available_bytes - n)]
         else []) ++ Event.InternetQueryDataAvailable res avail io :: rest) ∧
    (2 * m ≤ fuel →
      ∃ r, protocol_read T fuel m
          { p with
            current_position := add32 p.current_position n,
            available_bytes := p.available_bytes - n }
          (T.InternetReadFile t n).2 = some r) := by
  refine ⟨?_, ?_, ?_, ?_⟩
  · have hmax : (if n < p.available_bytes then n else p.available_bytes) = n := by
      split <;> omega
    have hmod : n % ULONG_RANGE = n := Nat.mod_eq_of_lt (by omega)
    have hn0 : n ≠ 0 := by omega
    have hav0 : p.available_bytes ≠ 0 := by omega
    have e₁ : sub32 p.available_bytes n = p.available_bytes - n := by
      unfold sub32
      rw [hmod, Nat.mod_eq_of_lt ha]
      unfold ULONG_RANGE at *
      omega
    have e₂ : add32 0 n = n := by
      unfold add32
      rw [Nat.zero_add]
      exact hmod
    have hbody : protocol_read_body T n
        { protocol := p, transport := t, read := 0, hres := S_FALSE, events := [] } =
        (false,
          { protocol :=
              { p with
                current_position := add32 p.current_position n,
                available_bytes := p.available_bytes - n },
            transport := (T.InternetReadFile t n).2, read := n, hres := S_FALSE,
            events := [Event.InternetReadFile n true n] }) := by
      unfold protocol_read_body
      simp [hav0, hmax, hT t n, hmod, hn0, e₁, e₂]
    apply (protocol_read_past_checks T (fuel + 1) n p t hrc hadr _).2
    refine ⟨{ protocol :=
                { p with
                  current_position := add32 p.current_position n,
                  available_bytes := p.available_bytes - n },
              transport := (T.InternetReadFile t n).2, read := n, hres := S_FALSE,
              events := [Event.InternetReadFile n true n] }, ?_, ?_⟩
    · unfold protocol_read_loop
      simp only [hn, if_true, hbody, Bool.false_eq_true, if_false]
      exact protocol_read_loop_done T n fuel _ (by simp)
    · have hne : S_FALSE ≠ E_PENDING := by decide
      have hnf : FAILED S_FALSE = false := by decide
      simp only [hne, hnf, hn0, ne_eq, not_false_eq_true, if_true, Bool.false_eq_true,
        if_false, or_request_complete_of_set p.flags hrc]
  · intro h
    unfold add32
    exact Nat.mod_eq_of_lt h
  · intro fuel₂ r hr
    obtain ⟨s, hs, rfl⟩ := (protocol_read_past_checks T fuel₂ m
      { p with
        current_position := add32 p.current_position n,
        available_bytes := p.available_bytes - n }
      (T.InternetReadFile t n).2 hrc hadr r).1 hr
    by_cases h0 : p.available_bytes - n = 0
    · obtain ⟨rest, hrest⟩ := protocol_read_loop_query_first T m fuel₂
        { protocol :=
            { p with
              current_position := add32 p.current_position n,
              available_bytes := p.available_bytes - n },
          transport := (T.InternetReadFile t n).2, read := 0, hres := S_FALSE, events := [] }
        s (by show 0 < m; omega) h0 hs
      exact ⟨_, _, _, rest, by simpa [h0] using hrest⟩
    · obtain ⟨rest, hrest⟩ := protocol_read_loop_drain_first T hT m fuel₂ hmR
        { protocol :=
            { p with
              current_position := add32 p.current_position n,
              available_bytes := p.available_bytes - n },
          transport := (T.InternetReadFile t n).2, read := 0, hres := S_FALSE, events := [] }
        s h0 (by show 0 + (p.available_bytes - n) < m; omega) hs
      exact ⟨_, _, _, rest, by simpa [h0] using hrest⟩
  · intro hfuel
    exact protocol_read_terminates T (delivers_all_bounded T hT) fuel m hmR hfuel _ _

/-- Witness for C10: 100 bytes announced, 40 asked for. -/
theorem protocol_read_announced_witness :
    protocol_read chunk_transport (200 + 1) 40
        { flags := FLAG_REQUEST_COMPLETE, protocol_sink := 1, current_position := 0,
          content_length := 100, available_bytes := 100, request := 1, internet := 1,
          lock := 0 } [] =
      some { hres := S_OK, read_ret := 40,
             protocol :=
               { flags := FLAG_REQUEST_COMPLETE, protocol_sink := 1, current_position := 40,
                 content_length := 100, available_bytes := 60, request := 1, internet := 1,
                 lock := 0 },
             transport := [], events := [Event.InternetReadFile 40 true 40] } ∧
    ∃ r, protocol_read chunk_transport 200 100
        { flags := FLAG_REQUEST_COMPLETE, protocol_sink := 1, current_position := 40,
          content_length := 100, available_bytes := 60, request := 1, internet := 1,
          lock := 0 } [] = some r ∧
      r.events = [Event.InternetReadFile 60 true 60,
        Event.InternetQueryDataAvailable true 0 false, Event.ReportData 5 100 100,
        Event.ReportResult S_OK] :=
  ⟨(protocol_read_announced chunk_transport chunk_transport_delivers_all 200 40 100
      { flags := FLAG_REQUEST_COMPLETE, protocol_sink := 1, current_position := 0,
        content_length := 100, available_bytes := 100, request := 1, internet := 1,
        lock := 0 } [] (by decide) (by decide) (by decide) (by decide) (by decide)
      (by decide) (by decide)).1,
    _, rfl, by decide⟩

/-! ## Claims C11 and C12: closing the connection -/

/-- C11: from every state of the transfer and with every teardown hook,
`protocol_close_connection` leaves `flags = 0`, so each of the six flags is
clear, and a following `protocol_read` returns `E_PENDING` with
`*read_ret = 0`, calling neither the transport nor the sink. -/
theorem protocol_close_connection_resets_flags {τ : Type} (T : Transport τ)
    (hook : Protocol → Protocol) (p : Protocol) (fuel size : Nat) (t : τ) :
    (protocol_close_connection hook p).1.flags = 0 ∧
    (protocol_close_connection hook p).1.flags &&& FLAG_REQUEST_COMPLETE = 0 ∧
    (protocol_close_connection hook p).1.flags &&& FLAG_FIRST_CONTINUE_COMPLETE = 0 ∧
    (protocol_close_connection hook p).1.flags &&& FLAG_FIRST_DATA_REPORTED = 0 ∧
    (protocol_close_connection hook p).1.flags &&& FLAG_ALL_DATA_READ = 0 ∧
    (protocol_close_connection hook p).1.flags &&& FLAG_LAST_DATA_REPORTED = 0 ∧
    (protocol_close_connection hook p).1.flags &&& FLAG_RESULT_REPORTED = 0 ∧
    protocol_read T fuel size (protocol_close_connection hook p).1 t =
      some { hres := E_PENDING, read_ret := 0,
             protocol := (protocol_close_connection hook p).1, transport := t,
             events := [] } := by
  have h0 : (protocol_close_connection hook p).1.flags = 0 := rfl
  refine ⟨h0, ?_, ?_, ?_, ?_, ?_, ?_, ?_⟩
  · rw [h0]; decide
  · rw [h0]; decide
  · rw [h0]; decide
  · rw [h0]; decide
  · rw [h0]; decide
  · rw [h0]; decide
  · exact protocol_read_request_incomplete_aux T fuel size _ t (by rw [h0]; decide)

/-- C12 fails on the code: `protocol_close_connection` nulls `internet` after
closing it but leaves `request` as it was (lines 193-194).  With
`request = 7`, `internet = 9` and a hook that changes nothing, the first call
closes both handles and leaves `request = 7`; a second call closes handle `7`
again. -/
theorem protocol_close_connection_request_kept :
    protocol_close_connection id
        { flags := 0x29, protocol_sink := 1, current_position := 10, content_length := 10,
          available_bytes := 0, request := 7, internet := 9, lock := 0 } =
      ({ flags := 0, protocol_sink := 1, current_position := 10, content_length := 10,
         available_bytes := 0, request := 7, internet := 0, lock := 0 },
       [Event.close_connection, Event.InternetCloseHandle 7, Event.InternetCloseHandle 9]) ∧
    protocol_close_connection id
        { flags := 0, protocol_sink := 1, current_position := 10, content_length := 10,
          available_bytes := 0, request := 7, internet := 0, lock := 0 } =
      ({ flags := 0, protocol_sink := 1, current_position := 10, content_length := 10,
         available_bytes := 0, request := 7, internet := 0, lock := 0 },
       [Event.close_connection, Event.InternetCloseHandle 7]) := by
  constructor <;> decide

/-! ## A closure rule for the transfer through `protocol_read` -/

/-- A reflexive and transitive relation on transfers that holds across each
elementary update made by `protocol_read` (advancing the counters, clearing
`FLAG_REQUEST_COMPLETE` with a new `available_bytes`, `report_result`,
`all_data_read`, setting `FLAG_REQUEST_COMPLETE`) holds between the transfer
before a call and the transfer after it. -/
theorem protocol_read_rel {τ : Type} (T : Transport τ) (Rel : Protocol → Protocol → Prop)
    (hrefl : ∀ p, Rel p p) (htrans : ∀ p q r, Rel p q → Rel q r → Rel p r)
    (hdata : ∀ (p : Protocol) pos avail,
      Rel p { p with current_position := pos, available_bytes := avail })
    (hclear : ∀ (p : Protocol) avail,
      Rel p { p with
              flags := p.flags &&& (0xFFFFFFFF ^^^ FLAG_REQUEST_COMPLETE),
              available_bytes := avail })
    (hresult : ∀ p hres, Rel p (report_result p hres).2.1)
    (hall : ∀ p, Rel p (all_data_read p).1)
    (hset : ∀ (p : Protocol), Rel p { p with flags := p.flags ||| FLAG_REQUEST_COMPLETE })
    (fuel size : Nat) (p : Protocol) (t : τ) (r : ReadResult τ)
    (h : protocol_read T fuel size p t = some r) : Rel p r.protocol := by
  rcases protocol_read_some T fuel size p t r h with ⟨h₁, _⟩ | ⟨_, _, s, hs, rfl⟩
  · rw [h₁]
    exact hrefl p
  · have k : Rel p s.protocol := by
      refine protocol_read_loop_rule T size (fun x => Rel p x.protocol)
        (fun x => Rel p x.protocol) ?_ ?_ ?_ fuel
        { protocol := p, transport := t, read := 0, hres := S_FALSE, events := [] } s
        (hrefl p) hs
      · intro x hx _
        refine protocol_read_body_cases T size x (fun b => b.1 = false → Rel p b.2.protocol)
          ?_ ?_ ?_ ?_ ?_ ?_ ?_
        · intro _ _ h'; simp at h'
        · intro _ _ _ h'; simp at h'
        · intro _ _ _ _
          exact htrans _ _ _ hx (hdata _ _ _)
        · intro _ _ _ h'; simp at h'
        · intro _ _ _ h'; simp at h'
        · intro _ _ _ h'; simp at h'
        · intro _ _ _ _
          exact htrans _ _ _ hx (hclear _ _)
      · intro x hx _
        refine protocol_read_body_cases T size x (fun b => b.1 = true → Rel p b.2.protocol)
          ?_ ?_ ?_ ?_ ?_ ?_ ?_
        · intro _ _ _
          exact htrans _ _ _ hx (hresult _ _)
        · intro _ _ _ _
          exact htrans _ _ _ hx (hall _)
        · intro _ _ _ h'; simp at h'
        · intro _ _ _ _
          exact htrans _ _ _ hx (hclear _ _)
        · intro _ _ _ _
          exact htrans _ _ _ (htrans _ _ _ hx (hclear _ _)) (hresult _ _)
        · intro _ _ _ _
          exact htrans _ _ _ (htrans _ _ _ hx (hclear _ _)) (hall _)
        · intro _ _ _ h'; simp at h'
      · intro x hx _
        exact hx
    by_cases he : s.hres = E_PENDING
    · simpa [he] using k
    · simp only [ne_eq, he, not_false_eq_true, if_true]
      exact htrans _ _ _ k (hset _)

/-! ## Claim C13: after a terminal failure -/

theorem report_result_events (p : Protocol) (hres : Int) :
    (report_result p hres).2.2 =
      (if p.flags.testBit 5 = false ∧ p.protocol_sink ≠ 0 then [Event.ReportResult hres]
        else []) := by
  unfold report_result
  by_cases h : p.flags &&& FLAG_RESULT_REPORTED = 0
  · have h' : p.flags.testBit 5 = false := (flag_result_reported_clear _).1 h
    by_cases hs : p.protocol_sink = 0 <;> simp [h, h', hs]
  · have h' : p.flags.testBit 5 = true := by
      rw [flag_result_reported_clear] at h
      simpa using h
    simp [h, h']

theorem clear_request_complete_testBit_three (f : Nat) :
    (f &&& (0xFFFFFFFF ^^^ FLAG_REQUEST_COMPLETE)).testBit 3 = f.testBit 3 := by
  rw [testBit_clear_request_complete f 3 (by decide)]
  simp

/-- A loop that ends with a failure code in `hres` has sent the sink just the
result notification of that failure, provided `FLAG_RESULT_REPORTED` was clear
and a sink is attached, and has left `FLAG_ALL_DATA_READ` as it was. -/
theorem protocol_read_loop_failure {τ : Type} (T : Transport τ) (size fuel : Nat)
    (b5 b3 : Bool) (sink : Nat) (s s' : ReadLoop τ)
    (h : s.hres = S_FALSE ∧ s.events.filter Event.isReportResult = [] ∧
      s.protocol.flags.testBit 5 = b5 ∧ s.protocol.flags.testBit 3 = b3 ∧
      s.protocol.protocol_sink = sink)
    (hrun : protocol_read_loop T size fuel s = some s') :
    s'.hres = INET_E_DOWNLOAD_FAILURE ∨ s'.hres = INET_E_DATA_NOT_AVAILABLE →
      s'.events.filter Event.isReportResult =
          (if b5 = false ∧ sink ≠ 0 then [Event.ReportResult s'.hres] else []) ∧
        s'.protocol.flags.testBit 3 = b3 ∧
        (sink ≠ 0 → s'.protocol.flags.testBit 5 = true) := by
  refine protocol_read_loop_rule T size
    (fun s => s.hres = S_FALSE ∧ s.events.filter Event.isReportResult = [] ∧
      s.protocol.flags.testBit 5 = b5 ∧ s.protocol.flags.testBit 3 = b3 ∧
      s.protocol.protocol_sink = sink)
    (fun s' => s'.hres = INET_E_DOWNLOAD_FAILURE ∨ s'.hres = INET_E_DATA_NOT_AVAILABLE →
      s'.events.filter Event.isReportResult =
          (if b5 = false ∧ sink ≠ 0 then [Event.ReportResult s'.hres] else []) ∧
        s'.protocol.flags.testBit 3 = b3 ∧
        (sink ≠ 0 → s'.protocol.flags.testBit 5 = true))
    ?_ ?_ ?_ fuel s s' h hrun
  · intro x ⟨hh, hf, h5, h3, hs⟩ _
    refine protocol_read_body_cases T size x
      (fun b => b.1 = false → (b.2.hres = S_FALSE ∧
        b.2.events.filter Event.isReportResult = [] ∧
        b.2.protocol.flags.testBit 5 = b5 ∧ b.2.protocol.flags.testBit 3 = b3 ∧
        b.2.protocol.protocol_sink = sink)) ?_ ?_ ?_ ?_ ?_ ?_ ?_
    · intro _ _ h'; simp at h'
    · intro _ _ _ h'; simp at h'
    · intro _ _ _ _
      exact ⟨hh, by simp [List.filter_append, hf, Event.isReportResult], h5, h3, hs⟩
    · intro _ _ _ h'; simp at h'
    · intro _ _ _ h'; simp at h'
    · intro _ _ _ h'; simp at h'
    · intro _ _ _ _
      refine ⟨hh, by simp [List.filter_append, hf, Event.isReportResult], ?_, ?_, hs⟩
      · simp only [clear_request_complete_testBit_five]
        exact h5
      · simp only [clear_request_complete_testBit_three]
        exact h3
  · intro x ⟨hh, hf, h5, h3, hs⟩ _
    refine protocol_read_body_cases T size x
      (fun b => b.1 = true →
        (b.2.hres = INET_E_DOWNLOAD_FAILURE ∨ b.2.hres = INET_E_DATA_NOT_AVAILABLE →
          b.2.events.filter Event.isReportResult =
              (if b5 = false ∧ sink ≠ 0 then [Event.ReportResult b.2.hres] else []) ∧
            b.2.protocol.flags.testBit 3 = b3 ∧
            (sink ≠ 0 → b.2.protocol.flags.testBit 5 = true))) ?_ ?_ ?_ ?_ ?_ ?_ ?_
    · intro _ _ _ _
      refine ⟨?_, ?_, ?_⟩
      · simp only [List.filter_append, hf, List.nil_append, report_result_events, h5, hs]
        by_cases hc : b5 = false ∧ sink ≠ 0 <;> simp [hc, Event.isReportResult]
      · simp only [report_result_testBit]
        simpa using h3
      · intro hsink
        simp only [report_result_testBit, hs]
        simp [hsink]
    · intro _ _ _ _ hc
      simp only [hh] at hc
      rcases hc with hc | hc <;> exact absurd hc (by decide)
    · intro _ _ _ h'; simp at h'
    · intro _ _ _ _ hc
      simp only at hc
      rcases hc with hc | hc <;> exact absurd hc (by decide)
    · intro _ _ _ _ _
      refine ⟨?_, ?_, ?_⟩
      · simp only [List.filter_append, hf, List.nil_append, report_result_events,
          clear_request_complete_testBit_five, h5, hs]
        by_cases hc : b5 = false ∧ sink ≠ 0 <;> simp [hc, Event.isReportResult]
      · simp only [report_result_testBit, clear_request_complete_testBit_three]
        simpa using h3
      · intro hsink
        simp only [report_result_testBit, hs]
        simp [hsink]
    · intro _ _ _ _ hc
      simp only [hh] at hc
      rcases hc with hc | hc <;> exact absurd hc (by decide)
    · intro _ _ _ h'; simp at h'
  · intro x ⟨hh, _, _, _, _⟩ _ hc
    rw [hh] at hc
    rcases hc with hc | hc <;> exact absurd hc (by decide)

/-- With bytes still wanted, the first call made by the loop is a call to the
transport. -/
theorem protocol_read_loop_transport_first {τ : Type} (T : Transport τ) (size fuel : Nat)
    (s s' : ReadLoop τ) (hlt : s.read < size)
    (hrun : protocol_read_loop T size fuel s = some s') :
    ∃ e rest, s'.events = s.events ++ e :: rest ∧ e.isTransport = true := by
  cases fuel with
  | zero =>
    unfold protocol_read_loop at hrun
    simp [hlt] at hrun
  | succ n =>
    unfold protocol_read_loop at hrun
    simp only [hlt, if_true] at hrun
    have key : ∃ e mid, (protocol_read_body T size s).2.events = s.events ++ e :: mid ∧
        e.isTransport = true := by
      refine protocol_read_body_cases T size s
        (fun b => ∃ e mid, b.2.events = s.events ++ e :: mid ∧ e.isTransport = true)
        ?_ ?_ ?_ ?_ ?_ ?_ ?_
      · intro _ _
        simp only [List.append_assoc, List.singleton_append]
        exact ⟨_, _, rfl, rfl⟩
      · intro _ _ _
        simp only [List.append_assoc, List.singleton_append]
        exact ⟨_, _, rfl, rfl⟩
      · intro _ _ _
        exact ⟨_, [], rfl, rfl⟩
      · intro _ _ _
        exact ⟨_, [], rfl, rfl⟩
      · intro _ _ _
        simp only [List.append_assoc, List.singleton_append]
        exact ⟨_, _, rfl, rfl⟩
      · intro _ _ _
        simp only [List.append_assoc, List.singleton_append]
        exact ⟨_, _, rfl, rfl⟩
      · intro _ _ _
        exact ⟨_, [], rfl, rfl⟩
    obtain ⟨e, mid, hmid, he⟩ := key
    by_cases hb : (protocol_read_body T size s).1 = true
    · simp only [hb, if_true, Option.some.injEq] at hrun
      subst hrun
      exact ⟨e, mid, hmid, he⟩
    · simp only [hb] at hrun
      obtain ⟨rest, hrest⟩ := protocol_read_loop_events T size n _ s' hrun
      exact ⟨e, mid ++ rest, by rw [hrest, hmid]; simp, he⟩

/-- C13, as stated, fails: on a fresh transfer the availability query fails, the
read returns `INET_E_DATA_NOT_AVAILABLE` and the sink is told once; the next
read does not return `S_FALSE` with no bytes: it queries the transport again,
reads the 3 bytes announced and returns `S_OK` with `*read_ret = 3`. -/
theorem protocol_read_after_failure_reads_again :
    ∃ r₁ r₂, protocol_read_calls script_transport 4 [4, 3] (fresh 1 0)
        [Reply.fail, Reply.ok 3, Reply.ok 3] = some [r₁, r₂] ∧
      r₁.hres = INET_E_DATA_NOT_AVAILABLE ∧
      r₁.events = [Event.InternetQueryDataAvailable false 0 false,
        Event.ReportResult INET_E_DATA_NOT_AVAILABLE] ∧
      r₁.protocol.flags &&& FLAG_ALL_DATA_READ = 0 ∧
      r₂.hres = S_OK ∧ r₂.read_ret = 3 ∧ r₂.hres ≠ S_FALSE ∧
      r₂.events = [Event.InternetQueryDataAvailable true 3 false,
        Event.InternetReadFile 3 true 3] :=
  ⟨_, _, rfl, by decide, by decide, by decide, by decide, by decide, by decide, by decide⟩

/-- C13, amended: a `protocol_read` call that returns
`INET_E_DOWNLOAD_FAILURE` or `INET_E_DATA_NOT_AVAILABLE` has sent the sink
exactly one result notification, carrying that status, when a sink is attached
and `FLAG_RESULT_REPORTED` was clear on entry, and none otherwise; afterwards
`FLAG_REQUEST_COMPLETE` is set and `FLAG_ALL_DATA_READ` is still clear, so the
transfer stays readable: a following `protocol_read` of positive size starts
with a call to the transport; and with a sink attached no later sequence of
reads, `report_data` and `report_result` calls sends a result notification
again.  Against a transport that never delivers more than it is asked for,
fuel `2 * size` makes the call return. -/
theorem protocol_read_failure_reported {τ : Type} (T : Transport τ) (fuel size : Nat)
    (p : Protocol) (t : τ) (fuel₂ size₂ : Nat) (t₂ : τ) (ops : List Op) :
    (∀ r, protocol_read T fuel size p t = some r →
      r.hres = INET_E_DOWNLOAD_FAILURE ∨ r.hres = INET_E_DATA_NOT_AVAILABLE →
      r.events.filter Event.isReportResult =
          (if p.flags &&& FLAG_RESULT_REPORTED = 0 ∧ p.protocol_sink ≠ 0
            then [Event.ReportResult r.hres] else []) ∧
        r.protocol.flags &&& FLAG_REQUEST_COMPLETE ≠ 0 ∧
        r.protocol.flags &&& FLAG_ALL_DATA_READ = 0 ∧
        (∀ r₂, 0 < size₂ → protocol_read T fuel₂ size₂ r.protocol t₂ = some r₂ →
          ∃ e rest, r₂.events = e :: rest ∧ e.isTransport = true) ∧
        (p.protocol_sink ≠ 0 →
          ∀ s', run_ops T fuel₂ ops { protocol := r.protocol, transport := t₂, events := [] }
              = some s' →
            s'.events.countP Event.isReportResult = 0)) ∧
    (T.Bounded → size < ULONG_RANGE → 2 * size ≤ fuel →
      ∃ r, protocol_read T fuel size p t = some r) := by
  refine ⟨?_, fun hT hsize hfuel => protocol_read_terminates T hT fuel size hsize hfuel p t⟩
  intro r hr hfail
  rcases protocol_read_some T fuel size p t r hr with ⟨_, _, _, _, h₅⟩ | ⟨hrc, hadr, s, hs, rfl⟩
  · exfalso
    rcases h₅ with h₅ | h₅ <;> rw [h₅] at hfail <;>
      rcases hfail with hfail | hfail <;> exact absurd hfail (by decide)
  · have hadr3 : p.flags.testBit 3 = false := (flag_all_data_read_clear _).1 hadr
    -- the status returned is the one left by the loop
    have hfail' : (if FAILED s.hres then s.hres else if s.read ≠ 0 then S_OK else S_FALSE)
          = INET_E_DOWNLOAD_FAILURE ∨
        (if FAILED s.hres then s.hres else if s.read ≠ 0 then S_OK else S_FALSE)
          = INET_E_DATA_NOT_AVAILABLE := hfail
    have hsh : s.hres = INET_E_DOWNLOAD_FAILURE ∨ s.hres = INET_E_DATA_NOT_AVAILABLE := by
      by_cases hf : FAILED s.hres = true
      · rw [if_pos hf] at hfail'
        exact hfail'
      · exfalso
        rw [if_neg hf] at hfail'
        by_cases h0 : s.read ≠ 0
        · rw [if_pos h0] at hfail'
          rcases hfail' with hc | hc <;> exact absurd hc (by decide)
        · rw [if_neg h0] at hfail'
          rcases hfail' with hc | hc <;> exact absurd hc (by decide)
    have hret : (if FAILED s.hres then s.hres else if s.read ≠ 0 then S_OK else S_FALSE)
        = s.hres := by
      rcases hsh with e | e <;> rw [e] <;> exact if_pos (by decide)
    have hne : s.hres ≠ E_PENDING := by
      rcases hsh with e | e <;> rw [e] <;> decide
    obtain ⟨k₁, k₂, k₃⟩ := protocol_read_loop_failure T size fuel (p.flags.testBit 5)
      (p.flags.testBit 3) p.protocol_sink
      { protocol := p, transport := t, read := 0, hres := S_FALSE, events := [] } s
      ⟨rfl, rfl, rfl, rfl, rfl⟩ hs hsh
    simp only [hret, hne, ne_eq, not_false_eq_true, if_true]
    have hrc' : (s.protocol.flags ||| FLAG_REQUEST_COMPLETE) &&& FLAG_REQUEST_COMPLETE ≠ 0 :=
      or_request_complete_set _
    have hadr' : (s.protocol.flags ||| FLAG_REQUEST_COMPLETE) &&& FLAG_ALL_DATA_READ = 0 := by
      rw [or_request_complete_all_data_read, flag_all_data_read_clear, k₂]
      exact hadr3
    refine ⟨?_, hrc', hadr', ?_, ?_⟩
    · rw [k₁]
      by_cases h5 : p.flags &&& FLAG_RESULT_REPORTED = 0
      · have h5' : p.flags.testBit 5 = false := (flag_result_reported_clear _).1 h5
        simp [h5, h5']
      · have h5' : p.flags.testBit 5 = true := by
          rw [flag_result_reported_clear] at h5
          simpa using h5
        simp [h5, h5']
    · intro r₂ hpos hr₂
      obtain ⟨s₂, hs₂, rfl⟩ := (protocol_read_past_checks T fuel₂ size₂
        { s.protocol with flags := s.protocol.flags ||| FLAG_REQUEST_COMPLETE } t₂
        hrc' hadr' r₂).1 hr₂
      obtain ⟨e, rest, he, het⟩ := protocol_read_loop_transport_first T size₂ fuel₂
        { protocol := { s.protocol with flags := s.protocol.flags ||| FLAG_REQUEST_COMPLETE },
          transport := t₂, read := 0, hres := S_FALSE, events := [] } s₂ hpos hs₂
      exact ⟨e, rest, by simpa using he, het⟩
    · intro hsink s' hs'
      have k := run_ops_count T fuel₂ ops
        { protocol := { s.protocol with flags := s.protocol.flags ||| FLAG_REQUEST_COMPLETE },
          transport := t₂, events := [] } s' hs'
      simp only [List.countP_nil, Nat.zero_add, or_request_complete_testBit_five,
        k₃ hsink, if_true] at k
      omega

/-- Witness for C13 (amended): the failing first read of the counterexample
scenario. -/
theorem protocol_read_failure_reported_witness :
    ∃ r, protocol_read script_transport 4 4 (fresh 1 0) [Reply.fail, Reply.ok 3, Reply.ok 3]
        = some r ∧ r.hres = INET_E_DATA_NOT_AVAILABLE ∧
      r.events.filter Event.isReportResult =
        (if (fresh 1 0).flags &&& FLAG_RESULT_REPORTED = 0 ∧ (fresh 1 0).protocol_sink ≠ 0
          then [Event.ReportResult r.hres] else []) ∧
      r.protocol.flags &&& FLAG_REQUEST_COMPLETE ≠ 0 ∧
      r.protocol.flags &&& FLAG_ALL_DATA_READ = 0 :=
  ⟨_, rfl, by decide,
    ((protocol_read_failure_reported script_transport 4 4 (fresh 1 0)
      [Reply.fail, Reply.ok 3, Reply.ok 3] 4 3 [Reply.ok 3, Reply.ok 3] []).1 _ rfl
      (Or.inr (by decide))).1,
    ((protocol_read_failure_reported script_transport 4 4 (fresh 1 0)
      [Reply.fail, Reply.ok 3, Reply.ok 3] 4 3 [Reply.ok 3, Reply.ok 3] []).1 _ rfl
      (Or.inr (by decide))).2.1,
    ((protocol_read_failure_reported script_transport 4 4 (fresh 1 0)
      [Reply.fail, Reply.ok 3, Reply.ok 3] 4 3 [Reply.ok 3, Reply.ok 3] []).1 _ rfl
      (Or.inr (by decide))).2.2.1⟩

/-! ## Claim C14: `FLAG_REQUEST_COMPLETE` after a read -/

/-- What the loop can leave in `hres`: `E_PENDING`, and then
`FLAG_REQUEST_COMPLETE` is clear, or one of `S_FALSE`,
`INET_E_DOWNLOAD_FAILURE`, `INET_E_DATA_NOT_AVAILABLE`. -/
theorem protocol_read_loop_hres_values {τ : Type} (T : Transport τ) (size fuel : Nat)
    (s s' : ReadLoop τ) (h : s.hres = S_FALSE)
    (hrun : protocol_read_loop T size fuel s = some s') :
    (s'.hres = E_PENDING ∧ s'.protocol.flags &&& FLAG_REQUEST_COMPLETE = 0) ∨
      s'.hres = S_FALSE ∨ s'.hres = INET_E_DOWNLOAD_FAILURE ∨
      s'.hres = INET_E_DATA_NOT_AVAILABLE := by
  refine protocol_read_loop_rule T size (fun s => s.hres = S_FALSE)
    (fun s' => (s'.hres = E_PENDING ∧ s'.protocol.flags &&& FLAG_REQUEST_COMPLETE = 0) ∨
      s'.hres = S_FALSE ∨ s'.hres = INET_E_DOWNLOAD_FAILURE ∨
      s'.hres = INET_E_DATA_NOT_AVAILABLE) ?_ ?_ ?_ fuel s s' h hrun
  · intro x hx _
    refine protocol_read_body_cases T size x (fun b => b.1 = false → b.2.hres = S_FALSE)
      ?_ ?_ ?_ ?_ ?_ ?_ ?_
    · intro _ _ h'; simp at h'
    · intro _ _ _ h'; simp at h'
    · intro _ _ _ _; exact hx
    · intro _ _ _ h'; simp at h'
    · intro _ _ _ h'; simp at h'
    · intro _ _ _ h'; simp at h'
    · intro _ _ _ _; exact hx
  · intro x hx _
    refine protocol_read_body_cases T size x
      (fun b => b.1 = true →
        ((b.2.hres = E_PENDING ∧ b.2.protocol.flags &&& FLAG_REQUEST_COMPLETE = 0) ∨
          b.2.hres = S_FALSE ∨ b.2.hres = INET_E_DOWNLOAD_FAILURE ∨
          b.2.hres = INET_E_DATA_NOT_AVAILABLE)) ?_ ?_ ?_ ?_ ?_ ?_ ?_
    · intro _ _ _; exact Or.inr (Or.inr (Or.inl rfl))
    · intro _ _ _ _; exact Or.inr (Or.inl hx)
    · intro _ _ _ h'; simp at h'
    · intro _ _ _ _; exact Or.inl ⟨rfl, clear_request_complete_clear _⟩
    · intro _ _ _ _; exact Or.inr (Or.inr (Or.inr rfl))
    · intro _ _ _ _; exact Or.inr (Or.inl hx)
    · intro _ _ _ h'; simp at h'
  · intro x hx _
    exact Or.inr (Or.inl hx)

/-- C14: for every returning `protocol_read` call, whatever the transport does,
the returned status is `E_PENDING` exactly when `FLAG_REQUEST_COMPLETE` is clear
afterwards; so with any other status (`S_OK`, `S_FALSE`,
`INET_E_DOWNLOAD_FAILURE`, `INET_E_DATA_NOT_AVAILABLE`, the only other values
returned) the flag is set afterwards.  Against a transport that never delivers
more than it is asked for, fuel `2 * size` makes the call return. -/
theorem protocol_read_pending_iff_incomplete {τ : Type} (T : Transport τ) (fuel size : Nat)
    (p : Protocol) (t : τ) :
    (∀ r, protocol_read T fuel size p t = some r →
      (r.hres = E_PENDING ↔ r.protocol.flags &&& FLAG_REQUEST_COMPLETE = 0) ∧
      (r.hres ≠ E_PENDING → r.protocol.flags &&& FLAG_REQUEST_COMPLETE ≠ 0) ∧
      (r.hres = E_PENDING ∨ r.hres = S_OK ∨ r.hres = S_FALSE ∨
        r.hres = INET_E_DOWNLOAD_FAILURE ∨ r.hres = INET_E_DATA_NOT_AVAILABLE)) ∧
    (T.Bounded → size < ULONG_RANGE → 2 * size ≤ fuel →
      ∃ r, protocol_read T fuel size p t = some r) := by
  refine ⟨?_, fun hT hsize hfuel => protocol_read_terminates T hT fuel size hsize hfuel p t⟩
  intro r hr
  have main : (r.hres = E_PENDING ↔ r.protocol.flags &&& FLAG_REQUEST_COMPLETE = 0) ∧
      (r.hres = E_PENDING ∨ r.hres = S_OK ∨ r.hres = S_FALSE ∨
        r.hres = INET_E_DOWNLOAD_FAILURE ∨ r.hres = INET_E_DATA_NOT_AVAILABLE) := by
    by_cases hrc : p.flags &&& FLAG_REQUEST_COMPLETE = 0
    · rw [protocol_read_request_incomplete_aux T fuel size p t hrc] at hr
      simp only [Option.some.injEq] at hr
      subst hr
      exact ⟨⟨fun _ => hrc, fun _ => rfl⟩, Or.inl rfl⟩
    · by_cases hadr : p.flags &&& FLAG_ALL_DATA_READ = 0
      · obtain ⟨s, hs, rfl⟩ := (protocol_read_past_checks T fuel size p t hrc hadr r).1 hr
        have k := protocol_read_loop_hres_values T size fuel
          { protocol := p, transport := t, read := 0, hres := S_FALSE, events := [] } s rfl hs
        have hset : (s.protocol.flags ||| FLAG_REQUEST_COMPLETE) &&& FLAG_REQUEST_COMPLETE ≠ 0 :=
          or_request_complete_set _
        rcases k with ⟨e, hclear⟩ | e | e | e
        · simp only [e, ne_eq, not_true_eq_false, if_false,
            show FAILED E_PENDING = true from by decide, if_true]
          simp [hclear]
        · have hne : ¬ S_FALSE = E_PENDING := by decide
          simp only [e, show FAILED S_FALSE = false from by decide, Bool.false_eq_true,
            if_false, ne_eq, hne, not_false_eq_true, if_true]
          by_cases h0 : s.read = 0
          · simp only [h0, not_true_eq_false, if_false]
            simp +decide [hset]
          · simp only [h0, not_false_eq_true, if_true]
            simp +decide [hset]
        · have hne : ¬ INET_E_DOWNLOAD_FAILURE = E_PENDING := by decide
          simp only [e, show FAILED INET_E_DOWNLOAD_FAILURE = true from by decide, if_true,
            ne_eq, hne, not_false_eq_true]
          simp +decide [hset]
        · have hne : ¬ INET_E_DATA_NOT_AVAILABLE = E_PENDING := by decide
          simp only [e, show FAILED INET_E_DATA_NOT_AVAILABLE = true from by decide, if_true,
            ne_eq, hne, not_false_eq_true]
          simp +decide [hset]
      · unfold protocol_read at hr
        rw [if_neg hrc, if_pos hadr] at hr
        simp only [Option.some.injEq] at hr
        subst hr
        refine ⟨⟨fun h => ?_, fun h => absurd h hrc⟩, Or.inr (Or.inr (Or.inl rfl))⟩
        exact absurd (show S_FALSE = E_PENDING from h) (by decide)
  refine ⟨main.1, ?_, main.2⟩
  intro hne hc
  exact hne (main.1.2 hc)

/-- Witness for C14: a read that drains 5 announced bytes and then meets a
pending query returns `E_PENDING` with `FLAG_REQUEST_COMPLETE` clear. -/
theorem protocol_read_pending_iff_incomplete_witness :
    ∃ r, protocol_read script_transport 3 8 (fresh 1 0) [Reply.ok 5, Reply.ok 5, Reply.pending]
        = some r ∧ r.hres = E_PENDING ∧
      (r.hres = E_PENDING ↔ r.protocol.flags &&& FLAG_REQUEST_COMPLETE = 0) :=
  ⟨_, rfl, by decide,
    ((protocol_read_pending_iff_incomplete script_transport 3 8 (fresh 1 0)
      [Reply.ok 5, Reply.ok 5, Reply.pending]).1 _ rfl).1⟩

/-! ## Claim C15: the availability query fails twice -/

/-- One read on a transfer with `FLAG_REQUEST_COMPLETE` set,
`FLAG_ALL_DATA_READ` clear and nothing announced, when the availability query
fails with an error other than pending and leaves `available_bytes` at `0`. -/
theorem protocol_read_query_fails {τ : Type} (T : Transport τ) (fuel size : Nat)
    (p : Protocol) (t : τ) (hrc : p.flags &&& FLAG_REQUEST_COMPLETE ≠ 0)
    (hadr : p.flags &&& FLAG_ALL_DATA_READ = 0) (hav : p.available_bytes = 0)
    (hsize : 0 < size)
    (hres : (T.InternetQueryDataAvailable t).1.res = false)
    (hio : (T.InternetQueryDataAvailable t).1.io_pending = false)
    (hzero : (T.InternetQueryDataAvailable t).1.available_bytes % ULONG_RANGE = 0) :
    protocol_read T (fuel + 1) size p t =
      some { hres := INET_E_DATA_NOT_AVAILABLE, read_ret := 0,
             protocol :=
               { (report_result
                   { p with
                     flags := p.flags &&& (0xFFFFFFFF ^^^ FLAG_REQUEST_COMPLETE),
                     available_bytes := 0 }
                   INET_E_DATA_NOT_AVAILABLE).2.1 with
                 flags := (report_result
                   { p with
                     flags := p.flags &&& (0xFFFFFFFF ^^^ FLAG_REQUEST_COMPLETE),
                     available_bytes := 0 }
                   INET_E_DATA_NOT_AVAILABLE).2.1.flags ||| FLAG_REQUEST_COMPLETE },
             transport := (T.InternetQueryDataAvailable t).2,
             events :=
               Event.InternetQueryDataAvailable false 0 false ::
                 (report_result
                   { p with
                     flags := p.flags &&& (0xFFFFFFFF ^^^ FLAG_REQUEST_COMPLETE),
                     available_bytes := 0 }
                   INET_E_DATA_NOT_AVAILABLE).2.2 } := by
  apply (protocol_read_past_checks T (fuel + 1) size p t hrc hadr _).2
  refine ⟨{ protocol := (report_result
                { p with
                  flags := p.flags &&& (0xFFFFFFFF ^^^ FLAG_REQUEST_COMPLETE),
                  available_bytes := 0 }
                INET_E_DATA_NOT_AVAILABLE).2.1,
            transport := (T.InternetQueryDataAvailable t).2, read := 0,
            hres := INET_E_DATA_NOT_AVAILABLE,
            events :=
              Event.InternetQueryDataAvailable false 0 false ::
                (report_result
                  { p with
                    flags := p.flags &&& (0xFFFFFFFF ^^^ FLAG_REQUEST_COMPLETE),
                    available_bytes := 0 }
                  INET_E_DATA_NOT_AVAILABLE).2.2 }, ?_, ?_⟩
  · unfold protocol_read_loop
    simp only [hsize, if_true]
    have hb : protocol_read_body T size
        { protocol := p, transport := t, read := 0, hres := S_FALSE, events := [] } =
        (true,
          { protocol := (report_result
                { p with
                  flags := p.flags &&& (0xFFFFFFFF ^^^ FLAG_REQUEST_COMPLETE),
                  available_bytes := 0 }
                INET_E_DATA_NOT_AVAILABLE).2.1,
            transport := (T.InternetQueryDataAvailable t).2, read := 0,
            hres := INET_E_DATA_NOT_AVAILABLE,
            events :=
              Event.InternetQueryDataAvailable false 0 false ::
                (report_result
                  { p with
                    flags := p.flags &&& (0xFFFFFFFF ^^^ FLAG_REQUEST_COMPLETE),
                    available_bytes := 0 }
                  INET_E_DATA_NOT_AVAILABLE).2.2 }) := by
      unfold protocol_read_body
      simp [hav, hres, hio, hzero]
    rw [hb]
    rfl
  · have hne : ¬ INET_E_DATA_NOT_AVAILABLE = E_PENDING := by decide
    simp only [show FAILED INET_E_DATA_NOT_AVAILABLE = true from by decide, if_true, ne_eq,
      hne, not_false_eq_true]

/-- C15: starting from `flags = FLAG_REQUEST_COMPLETE` with `available_bytes = 0`
and a sink attached, when the availability query fails with an error other than
pending, leaving `available_bytes` at `0`, on two consecutive reads of positive
size, both reads return `INET_E_DATA_NOT_AVAILABLE` with `*read_ret = 0`, each
issues the query, the sink is sent the result on the first read only, and the
flags are `FLAG_REQUEST_COMPLETE | FLAG_RESULT_REPORTED` after each read. -/
theorem protocol_read_query_fails_twice {τ : Type} (T : Transport τ)
    (fuel₁ fuel₂ size₁ size₂ : Nat) (p : Protocol) (t : τ)
    (hflags : p.flags = FLAG_REQUEST_COMPLETE) (hav : p.available_bytes = 0)
    (hsink : p.protocol_sink ≠ 0) (hsize₁ : 0 < size₁) (hsize₂ : 0 < size₂)
    (hres₁ : (T.InternetQueryDataAvailable t).1.res = false)
    (hio₁ : (T.InternetQueryDataAvailable t).1.io_pending = false)
    (hzero₁ : (T.InternetQueryDataAvailable t).1.available_bytes % ULONG_RANGE = 0)
    (hres₂ : (T.InternetQueryDataAvailable (T.InternetQueryDataAvailable t).2).1.res = false)
    (hio₂ :
      (T.InternetQueryDataAvailable (T.InternetQueryDataAvailable t).2).1.io_pending = false)
    (hzero₂ :
      (T.InternetQueryDataAvailable (T.InternetQueryDataAvailable t).2).1.available_bytes
        % ULONG_RANGE = 0) :
    protocol_read T (fuel₁ + 1) size₁ p t =
      some { hres := INET_E_DATA_NOT_AVAILABLE, read_ret := 0,
             protocol := { p with flags := FLAG_REQUEST_COMPLETE ||| FLAG_RESULT_REPORTED },
             transport := (T.InternetQueryDataAvailable t).2,
             events := [Event.InternetQueryDataAvailable false 0 false,
               Event.ReportResult INET_E_DATA_NOT_AVAILABLE] } ∧
    protocol_read T (fuel₂ + 1) size₂
        { p with flags := FLAG_REQUEST_COMPLETE ||| FLAG_RESULT_REPORTED }
        (T.InternetQueryDataAvailable t).2 =
      some { hres := INET_E_DATA_NOT_AVAILABLE, read_ret := 0,
             protocol := { p with flags := FLAG_REQUEST_COMPLETE ||| FLAG_RESULT_REPORTED },
             transport := (T.InternetQueryDataAvailable (T.InternetQueryDataAvailable t).2).2,
             events := [Event.InternetQueryDataAvailable false 0 false] } := by
  obtain ⟨flags, sink, pos, len, avail, request, internet, lock⟩ := p
  simp only at hflags hav hsink
  subst hflags hav
  have c₁ : FLAG_REQUEST_COMPLETE &&& FLAG_REQUEST_COMPLETE ≠ 0 := by decide
  have c₂ : FLAG_REQUEST_COMPLETE &&& FLAG_ALL_DATA_READ = 0 := by decide
  have c₃ : (FLAG_REQUEST_COMPLETE ||| FLAG_RESULT_REPORTED) &&& FLAG_REQUEST_COMPLETE ≠ 0 := by
    decide
  have c₄ : (FLAG_REQUEST_COMPLETE ||| FLAG_RESULT_REPORTED) &&& FLAG_ALL_DATA_READ = 0 := by
    decide
  constructor
  · rw [protocol_read_query_fails T fuel₁ size₁ _ t c₁ c₂ rfl hsize₁ hres₁ hio₁ hzero₁]
    simp +decide [report_result, hsink, FLAG_REQUEST_COMPLETE, FLAG_RESULT_REPORTED]
  · rw [protocol_read_query_fails T fuel₂ size₂ _ _ c₃ c₄ rfl hsize₂ hres₂ hio₂ hzero₂]
    simp +decide [report_result, hsink, FLAG_REQUEST_COMPLETE, FLAG_RESULT_REPORTED]

/-- Witness for C15: the scripted transport fails both queries. -/
theorem protocol_read_query_fails_twice_witness :
    protocol_read script_transport (0 + 1) 4 (fresh 1 0) [Reply.fail, Reply.fail] =
      some { hres := INET_E_DATA_NOT_AVAILABLE, read_ret := 0,
             protocol :=
               { fresh 1 0 with flags := FLAG_REQUEST_COMPLETE ||| FLAG_RESULT_REPORTED },
             transport := (script_transport.InternetQueryDataAvailable
               [Reply.fail, Reply.fail]).2,
             events := [Event.InternetQueryDataAvailable false 0 false,
               Event.ReportResult INET_E_DATA_NOT_AVAILABLE] } ∧
    protocol_read script_transport (0 + 1) 4
        { fresh 1 0 with flags := FLAG_REQUEST_COMPLETE ||| FLAG_RESULT_REPORTED }
        (script_transport.InternetQueryDataAvailable [Reply.fail, Reply.fail]).2 =
      some { hres := INET_E_DATA_NOT_AVAILABLE, read_ret := 0,
             protocol :=
               { fresh 1 0 with flags := FLAG_REQUEST_COMPLETE ||| FLAG_RESULT_REPORTED },
             transport := (script_transport.InternetQueryDataAvailable
               (script_transport.InternetQueryDataAvailable [Reply.fail, Reply.fail]).2).2,
             events := [Event.InternetQueryDataAvailable false 0 false] } :=
  protocol_read_query_fails_twice script_transport 0 0 4 4 (fresh 1 0) [Reply.fail, Reply.fail]
    rfl rfl (by decide) (by decide) (by decide) rfl rfl rfl rfl rfl rfl

/-! ## Claim C16: `FLAG_LAST_DATA_REPORTED` implies `FLAG_ALL_DATA_READ` -/

theorem last_implies_all_iff (f : Nat) :
    (f &&& FLAG_LAST_DATA_REPORTED ≠ 0 → f &&& FLAG_ALL_DATA_READ ≠ 0) ↔
      (f.testBit 4 = true → f.testBit 3 = true) := by
  rw [Ne, Ne, flag_last_data_clear, flag_all_data_read_clear]
  simp

theorem or_request_complete_testBit_three (f : Nat) :
    (f ||| FLAG_REQUEST_COMPLETE).testBit 3 = f.testBit 3 := by
  rw [testBit_or_request_complete]
  simp

theorem report_data_keeps_last_implies_all (p : Protocol)
    (h : p.flags.testBit 4 = true → p.flags.testBit 3 = true) :
    (report_data p).1.flags.testBit 4 = true → (report_data p).1.flags.testBit 3 = true := by
  rw [report_data_testBit, report_data_testBit]
  cases h4 : p.flags.testBit 4 <;> cases h3 : p.flags.testBit 3 <;> simp_all

theorem report_result_keeps_last_implies_all (p : Protocol) (hres : Int)
    (h : p.flags.testBit 4 = true → p.flags.testBit 3 = true) :
    (report_result p hres).2.1.flags.testBit 4 = true →
      (report_result p hres).2.1.flags.testBit 3 = true := by
  rw [report_result_testBit, report_result_testBit]
  simpa using h

theorem all_data_read_testBit_three (p : Protocol) :
    (all_data_read p).1.flags.testBit 3 = true := by
  rw [all_data_read_testBit]
  simp

/-- `protocol_read` keeps the implication from `FLAG_LAST_DATA_REPORTED` to
`FLAG_ALL_DATA_READ`. -/
theorem protocol_read_keeps_last_implies_all {τ : Type} (T : Transport τ) (fuel size : Nat)
    (p : Protocol) (t : τ) (r : ReadResult τ) (h : protocol_read T fuel size p t = some r)
    (hinv : p.flags.testBit 4 = true → p.flags.testBit 3 = true) :
    r.protocol.flags.testBit 4 = true → r.protocol.flags.testBit 3 = true := by
  refine protocol_read_rel T
    (fun a b => (a.flags.testBit 4 = true → a.flags.testBit 3 = true) →
      (b.flags.testBit 4 = true → b.flags.testBit 3 = true))
    (fun _ h => h) (fun _ _ _ h₁ h₂ h => h₂ (h₁ h)) ?_ ?_ ?_ ?_ ?_ fuel size p t r h hinv
  · intro a _ _ h
    exact h
  · intro a _ h
    simp only [clear_request_complete_testBit_four, clear_request_complete_testBit_three]
    exact h
  · intro a hres h
    exact report_result_keeps_last_implies_all a hres h
  · intro a _ _
    exact all_data_read_testBit_three a
  · intro a h
    simp only [or_request_complete_testBit_four, or_request_complete_testBit_three]
    exact h

/-- C16: the implication from `FLAG_LAST_DATA_REPORTED` to `FLAG_ALL_DATA_READ`
holds for `flags = 0` and is kept by `report_data`, `report_result`,
`all_data_read` (after which it holds in any case), `protocol_close_connection`
(after which it holds in any case) and by every returning `protocol_read`,
whatever the transport does and with or without a sink.  Against a transport
that never delivers more than it is asked for, fuel `2 * size` makes
`protocol_read` return. -/
theorem last_data_reported_implies_all_data_read {τ : Type} (T : Transport τ)
    (fuel size : Nat) (p : Protocol) (t : τ) (hres : Int) (hook : Protocol → Protocol) :
    ((0 : Nat) &&& FLAG_LAST_DATA_REPORTED ≠ 0 → (0 : Nat) &&& FLAG_ALL_DATA_READ ≠ 0) ∧
    ((p.flags &&& FLAG_LAST_DATA_REPORTED ≠ 0 → p.flags &&& FLAG_ALL_DATA_READ ≠ 0) →
      ((report_data p).1.flags &&& FLAG_LAST_DATA_REPORTED ≠ 0 →
        (report_data p).1.flags &&& FLAG_ALL_DATA_READ ≠ 0)) ∧
    ((p.flags &&& FLAG_LAST_DATA_REPORTED ≠ 0 → p.flags &&& FLAG_ALL_DATA_READ ≠ 0) →
      ((report_result p hres).2.1.flags &&& FLAG_LAST_DATA_REPORTED ≠ 0 →
        (report_result p hres).2.1.flags &&& FLAG_ALL_DATA_READ ≠ 0)) ∧
    ((all_data_read p).1.flags &&& FLAG_LAST_DATA_REPORTED ≠ 0 →
      (all_data_read p).1.flags &&& FLAG_ALL_DATA_READ ≠ 0) ∧
    ((protocol_close_connection hook p).1.flags &&& FLAG_LAST_DATA_REPORTED ≠ 0 →
      (protocol_close_connection hook p).1.flags &&& FLAG_ALL_DATA_READ ≠ 0) ∧
    (∀ r, protocol_read T fuel size p t = some r →
      (p.flags &&& FLAG_LAST_DATA_REPORTED ≠ 0 → p.flags &&& FLAG_ALL_DATA_READ ≠ 0) →
      (r.protocol.flags &&& FLAG_LAST_DATA_REPORTED ≠ 0 →
        r.protocol.flags &&& FLAG_ALL_DATA_READ ≠ 0)) ∧
    (T.Bounded → size < ULONG_RANGE → 2 * size ≤ fuel →
      ∃ r, protocol_read T fuel size p t = some r) := by
  refine ⟨fun h => absurd (by decide) h, ?_, ?_, ?_, ?_, ?_,
    fun hT hsize hfuel => protocol_read_terminates T hT fuel size hsize hfuel p t⟩
  · intro h
    rw [last_implies_all_iff] at h ⊢
    exact report_data_keeps_last_implies_all p h
  · intro h
    rw [last_implies_all_iff] at h ⊢
    exact report_result_keeps_last_implies_all p hres h
  · rw [last_implies_all_iff]
    intro _
    exact all_data_read_testBit_three p
  · intro h
    exact absurd (show (0 : Nat) &&& FLAG_LAST_DATA_REPORTED = 0 by decide) h
  · intro r hr h
    rw [last_implies_all_iff] at h ⊢
    exact protocol_read_keeps_last_implies_all T fuel size p t r hr h

/-- Witness for C16: the read that finds the transport empty sets both flags. -/
theorem last_data_reported_implies_all_data_read_witness :
    ∃ r, protocol_read chunk_transport 2 4 (fresh 1 0) [] = some r ∧
      r.protocol.flags &&& FLAG_LAST_DATA_REPORTED ≠ 0 ∧
      (r.protocol.flags &&& FLAG_LAST_DATA_REPORTED ≠ 0 →
        r.protocol.flags &&& FLAG_ALL_DATA_READ ≠ 0) :=
  ⟨_, rfl, by decide,
    (last_data_reported_implies_all_data_read chunk_transport 2 4 (fresh 1 0) [] S_OK
      id).2.2.2.2.2.1 _ rfl (fun h => absurd (by decide) h)⟩

/-! ## Claim C18: `current_position` and `available_bytes` -/

theorem report_result_current_position (p : Protocol) (hres : Int) :
    (report_result p hres).2.1.current_position = p.current_position :=
  (report_result_same_fields p hres).2.1

theorem report_result_available_bytes (p : Protocol) (hres : Int) :
    (report_result p hres).2.1.available_bytes = p.available_bytes :=
  (report_result_same_fields p hres).2.2.2.1

theorem all_data_read_current_position (p : Protocol) :
    (all_data_read p).1.current_position = p.current_position :=
  (all_data_read_same_fields p).2.1

theorem all_data_read_available_bytes (p : Protocol) :
    (all_data_read p).1.available_bytes = p.available_bytes :=
  (all_data_read_same_fields p).2.2.2.1

/-- Through the loop `current_position` is the position on entry advanced, as a
`ULONG`, by the local `read`. -/
theorem protocol_read_loop_position {τ : Type} (T : Transport τ) (size fuel start : Nat)
    (s s' : ReadLoop τ)
    (h : s.protocol.current_position = (start + s.read) % ULONG_RANGE)
    (hrun : protocol_read_loop T size fuel s = some s') :
    s'.protocol.current_position = (start + s'.read) % ULONG_RANGE := by
  refine protocol_read_loop_rule T size
    (fun s => s.protocol.current_position = (start + s.read) % ULONG_RANGE)
    (fun s => s.protocol.current_position = (start + s.read) % ULONG_RANGE)
    ?_ ?_ ?_ fuel s s' h hrun
  · intro x hx _
    refine protocol_read_body_cases T size x
      (fun b => b.1 = false →
        b.2.protocol.current_position = (start + b.2.read) % ULONG_RANGE)
      ?_ ?_ ?_ ?_ ?_ ?_ ?_
    · intro _ _ h'; simp at h'
    · intro _ _ _ h'; simp at h'
    · intro _ _ _ _
      simp only [add32, hx]
      unfold ULONG_RANGE
      omega
    · intro _ _ _ h'; simp at h'
    · intro _ _ _ h'; simp at h'
    · intro _ _ _ h'; simp at h'
    · intro _ _ _ _
      exact hx
  · intro x hx _
    refine protocol_read_body_cases T size x
      (fun b => b.1 = true →
        b.2.protocol.current_position = (start + b.2.read) % ULONG_RANGE)
      ?_ ?_ ?_ ?_ ?_ ?_ ?_
    · intro _ _ _
      simp only [report_result_current_position]
      exact hx
    · intro _ _ _ _
      simp only [all_data_read_current_position]
      exact hx
    · intro _ _ _ h'; simp at h'
    · intro _ _ _ _
      exact hx
    · intro _ _ _ _
      simp only [report_result_current_position]
      exact hx
    · intro _ _ _ _
      simp only [all_data_read_current_position]
      exact hx
    · intro _ _ _ h'; simp at h'
  · intro x hx _
    exact hx

theorem protocol_read_current_position {τ : Type} (T : Transport τ) (fuel size : Nat)
    (p : Protocol) (t : τ) (hpos : p.current_position < ULONG_RANGE) (r : ReadResult τ)
    (h : protocol_read T fuel size p t = some r) :
    r.protocol.current_position = add32 p.current_position r.read_ret := by
  rcases protocol_read_some T fuel size p t r h with ⟨h₁, _, _, h₄, _⟩ | ⟨_, _, s, hs, rfl⟩
  · rw [h₁, h₄]
    unfold add32
    rw [Nat.add_zero, Nat.mod_eq_of_lt hpos]
  · have k := protocol_read_loop_position T size fuel p.current_position
      { protocol := p, transport := t, read := 0, hres := S_FALSE, events := [] } s
      (by simp only [Nat.add_zero]; exact (Nat.mod_eq_of_lt hpos).symm) hs
    unfold add32
    by_cases he : s.hres = E_PENDING
    · simpa [he] using k
    · simpa [he] using k

/-- One execution of the loop body with bytes announced, against a transport
that never delivers more than it is asked for, keeps the `ULONG` sum
`current_position + available_bytes`. -/
theorem protocol_read_body_sum {τ : Type} (T : Transport τ) (hT : T.Bounded) (size : Nat)
    (s : ReadLoop τ) (ha : s.protocol.available_bytes ≠ 0)
    (hav : s.protocol.available_bytes < ULONG_RANGE) :
    add32 (protocol_read_body T size s).2.protocol.current_position
        (protocol_read_body T size s).2.protocol.available_bytes =
      add32 s.protocol.current_position s.protocol.available_bytes ∧
    (protocol_read_body T size s).2.protocol.available_bytes ≤ s.protocol.available_bytes ∧
    (s.protocol.current_position + s.protocol.available_bytes < ULONG_RANGE →
      (protocol_read_body T size s).2.protocol.current_position +
          (protocol_read_body T size s).2.protocol.available_bytes =
        s.protocol.current_position + s.protocol.available_bytes) := by
  refine protocol_read_body_cases T size s
    (fun b => add32 b.2.protocol.current_position b.2.protocol.available_bytes =
        add32 s.protocol.current_position s.protocol.available_bytes ∧
      b.2.protocol.available_bytes ≤ s.protocol.available_bytes ∧
      (s.protocol.current_position + s.protocol.available_bytes < ULONG_RANGE →
        b.2.protocol.current_position + b.2.protocol.available_bytes =
          s.protocol.current_position + s.protocol.available_bytes))
    ?_ ?_ ?_ ?_ ?_ ?_ ?_
  · intro _ _
    simp [report_result_current_position, report_result_available_bytes]
  · intro _ _ _
    simp [all_data_read_current_position, all_data_read_available_bytes]
  · intro _ _ _
    have hb := hT s.transport
      (if s.protocol.available_bytes > size - s.read then size - s.read
        else s.protocol.available_bytes)
    have hmax : (if s.protocol.available_bytes > size - s.read then size - s.read
        else s.protocol.available_bytes) ≤ s.protocol.available_bytes := by
      split <;> omega
    have hmod := Nat.mod_le (T.InternetReadFile s.transport
      (if s.protocol.available_bytes > size - s.read then size - s.read
        else s.protocol.available_bytes)).1.len ULONG_RANGE
    generalize (T.InternetReadFile s.transport
      (if s.protocol.available_bytes > size - s.read then size - s.read
        else s.protocol.available_bytes)).1.len % ULONG_RANGE = len at *
    simp only [add32, sub32]
    unfold ULONG_RANGE at *
    refine ⟨by omega, by omega, fun _ => by omega⟩
  · intro h; exact absurd h ha
  · intro h; exact absurd h ha
  · intro h; exact absurd h ha
  · intro h; exact absurd h ha

/-- The calls made by one execution of the loop body extend the calls made
before it, and hold an availability query when nothing was announced. -/
theorem protocol_read_body_events {τ : Type} (T : Transport τ) (size : Nat) (s : ReadLoop τ) :
    (∃ mid, (protocol_read_body T size s).2.events = s.events ++ mid) ∧
    (s.protocol.available_bytes = 0 →
      (protocol_read_body T size s).2.events.any Event.isQuery = true) := by
  refine protocol_read_body_cases T size s
    (fun b => (∃ mid, b.2.events = s.events ++ mid) ∧
      (s.protocol.available_bytes = 0 → b.2.events.any Event.isQuery = true))
    ?_ ?_ ?_ ?_ ?_ ?_ ?_
  · intro ha _
    refine ⟨?_, fun h => absurd h ha⟩
    simp only [List.append_assoc]
    exact ⟨_, rfl⟩
  · intro ha _ _
    refine ⟨?_, fun h => absurd h ha⟩
    simp only [List.append_assoc]
    exact ⟨_, rfl⟩
  · intro ha _ _
    exact ⟨⟨_, rfl⟩, fun h => absurd h ha⟩
  · intro _ _ _
    exact ⟨⟨_, rfl⟩, fun _ => by simp [List.any_append, Event.isQuery]⟩
  · intro _ _ _
    refine ⟨?_, fun _ => by simp [List.any_append, Event.isQuery]⟩
    simp only [List.append_assoc]
    exact ⟨_, rfl⟩
  · intro _ _ _
    refine ⟨?_, fun _ => by simp [List.any_append, Event.isQuery]⟩
    simp only [List.append_assoc]
    exact ⟨_, rfl⟩
  · intro _ _ _
    exact ⟨⟨_, rfl⟩, fun _ => by simp [List.any_append, Event.isQuery]⟩

/-- A loop that issues no availability query, against a transport that never
delivers more than it is asked for, keeps the `ULONG` sum
`current_position + available_bytes`. -/
theorem protocol_read_loop_sum {τ : Type} (T : Transport τ) (hT : T.Bounded)
    (size fuel total : Nat) (s s' : ReadLoop τ)
    (h : s.events.any Event.isQuery = false →
      add32 s.protocol.current_position s.protocol.available_bytes = total ∧
        s.protocol.available_bytes < ULONG_RANGE)
    (hrun : protocol_read_loop T size fuel s = some s') :
    s'.events.any Event.isQuery = false →
      add32 s'.protocol.current_position s'.protocol.available_bytes = total ∧
        s'.protocol.available_bytes < ULONG_RANGE := by
  have step : ∀ x : ReadLoop τ,
      (x.events.any Event.isQuery = false →
        add32 x.protocol.current_position x.protocol.available_bytes = total ∧
          x.protocol.available_bytes < ULONG_RANGE) →
      ((protocol_read_body T size x).2.events.any Event.isQuery = false →
        add32 (protocol_read_body T size x).2.protocol.current_position
            (protocol_read_body T size x).2.protocol.available_bytes = total ∧
          (protocol_read_body T size x).2.protocol.available_bytes < ULONG_RANGE) := by
    intro x hx hq
    obtain ⟨⟨mid, hmid⟩, hzero⟩ := protocol_read_body_events T size x
    have ha : x.protocol.available_bytes ≠ 0 := by
      intro h0
      rw [hzero h0] at hq
      exact absurd hq (by decide)
    have hq' : x.events.any Event.isQuery = false := by
      rw [hmid, List.any_append] at hq
      simp only [Bool.or_eq_false_iff] at hq
      exact hq.1
    obtain ⟨hsum, hav⟩ := hx hq'
    obtain ⟨k₁, k₂, _⟩ := protocol_read_body_sum T hT size x ha hav
    exact ⟨by rw [k₁]; exact hsum, by omega⟩
  exact protocol_read_loop_rule T size
    (fun x => x.events.any Event.isQuery = false →
      add32 x.protocol.current_position x.protocol.available_bytes = total ∧
        x.protocol.available_bytes < ULONG_RANGE)
    (fun x => x.events.any Event.isQuery = false →
      add32 x.protocol.current_position x.protocol.available_bytes = total ∧
        x.protocol.available_bytes < ULONG_RANGE)
    (fun x hx _ _ => step x hx) (fun x hx _ _ => step x hx) (fun x hx _ => hx)
    fuel s s' h hrun

/-- C18: for every returning `protocol_read` call, whatever the transport does,
`current_position` afterwards is `current_position` before plus `*read_ret` in
`ULONG` arithmetic, which is the exact sum, and not less than before, while
that sum stays below `2 ^ 32`.  Against a transport that never delivers more
than it is asked for, one execution of the loop body with bytes announced (a
transport read, no availability query) keeps the `ULONG` sum
`current_position + available_bytes`, and the exact sum while it is below
`2 ^ 32`; so does a whole call that issues no availability query. -/
theorem protocol_read_position {τ : Type} (T : Transport τ) (fuel size : Nat) (p : Protocol)
    (t : τ) (hpos : p.current_position < ULONG_RANGE) :
    (∀ r, protocol_read T fuel size p t = some r →
      r.protocol.current_position = add32 p.current_position r.read_ret ∧
      (p.current_position + r.read_ret < ULONG_RANGE →
        r.protocol.current_position = p.current_position + r.read_ret ∧
          p.current_position ≤ r.protocol.current_position)) ∧
    (T.Bounded → ∀ s : ReadLoop τ, s.protocol.available_bytes ≠ 0 →
      s.protocol.available_bytes < ULONG_RANGE →
      add32 (protocol_read_body T size s).2.protocol.current_position
          (protocol_read_body T size s).2.protocol.available_bytes =
        add32 s.protocol.current_position s.protocol.available_bytes ∧
      (s.protocol.current_position + s.protocol.available_bytes < ULONG_RANGE →
        (protocol_read_body T size s).2.protocol.current_position +
            (protocol_read_body T size s).2.protocol.available_bytes =
          s.protocol.current_position + s.protocol.available_bytes)) ∧
    (T.Bounded → p.available_bytes < ULONG_RANGE →
      ∀ r, protocol_read T fuel size p t = some r → r.events.any Event.isQuery = false →
        add32 r.protocol.current_position r.protocol.available_bytes =
          add32 p.current_position p.available_bytes) ∧
    (T.Bounded → size < ULONG_RANGE → 2 * size ≤ fuel →
      ∃ r, protocol_read T fuel size p t = some r) := by
  refine ⟨?_, ?_, ?_,
    fun hT hsize hfuel => protocol_read_terminates T hT fuel size hsize hfuel p t⟩
  · intro r hr
    have k := protocol_read_current_position T fuel size p t hpos r hr
    refine ⟨k, fun hlt => ?_⟩
    rw [k]
    unfold add32
    rw [Nat.mod_eq_of_lt hlt]
    exact ⟨rfl, Nat.le_add_right _ _⟩
  · intro hT s ha hav
    obtain ⟨k₁, _, k₃⟩ := protocol_read_body_sum T hT size s ha hav
    exact ⟨k₁, k₃⟩
  · intro hT hav r hr hq
    rcases protocol_read_some T fuel size p t r hr with ⟨h₁, _⟩ | ⟨_, _, s, hs, rfl⟩
    · rw [h₁]
    · have k := protocol_read_loop_sum T hT size fuel
        (add32 p.current_position p.available_bytes)
        { protocol := p, transport := t, read := 0, hres := S_FALSE, events := [] } s
        (fun _ => ⟨rfl, hav⟩) hs hq
      by_cases he : s.hres = E_PENDING
      · simpa [he] using k.1
      · simpa [he] using k.1

/-- Witness for C18: 40 of 100 announced bytes are read from position 0. -/
theorem protocol_read_position_witness :
    (0 : Nat) < ULONG_RANGE ∧
    ∃ r, protocol_read chunk_transport 80 40
        { flags := FLAG_REQUEST_COMPLETE, protocol_sink := 1, current_position := 0,
          content_length := 100, available_bytes := 100, request := 1, internet := 1,
          lock := 0 } [] = some r ∧
      r.read_ret = 40 ∧ r.protocol.current_position = add32 0 r.read_ret :=
  ⟨by decide, _, rfl, by decide,
    ((protocol_read_position chunk_transport 80 40
      { flags := FLAG_REQUEST_COMPLETE, protocol_sink := 1, current_position := 0,
        content_length := 100, available_bytes := 100, request := 1, internet := 1,
        lock := 0 } [] (by decide)).1 _ rfl).1⟩

/-! ## Claim C17: `FLAG_FIRST_DATA_REPORTED` -/

theorem clear_request_complete_testBit_two (f : Nat) :
    (f &&& (0xFFFFFFFF ^^^ FLAG_REQUEST_COMPLETE)).testBit 2 = f.testBit 2 := by
  rw [testBit_clear_request_complete f 2 (by decide)]
  simp

theorem or_request_complete_testBit_two (f : Nat) :
    (f ||| FLAG_REQUEST_COMPLETE).testBit 2 = f.testBit 2 := by
  rw [testBit_or_request_complete]
  simp

/-- `protocol_read` keeps this property of a transfer: if
`FLAG_FIRST_DATA_REPORTED` is set, then `FLAG_ALL_DATA_READ` and
`FLAG_LAST_DATA_REPORTED` are set and a sink is attached. -/
theorem protocol_read_first_data {τ : Type} (T : Transport τ) (fuel size : Nat)
    (p : Protocol) (t : τ) (r : ReadResult τ) (h : protocol_read T fuel size p t = some r)
    (hinv : p.flags.testBit 2 = true →
      p.flags.testBit 3 = true ∧ p.flags.testBit 4 = true ∧ p.protocol_sink ≠ 0) :
    r.protocol.flags.testBit 2 = true →
      r.protocol.flags.testBit 3 = true ∧ r.protocol.flags.testBit 4 = true ∧
        r.protocol.protocol_sink ≠ 0 := by
  refine protocol_read_rel T
    (fun a b => (a.flags.testBit 2 = true →
        a.flags.testBit 3 = true ∧ a.flags.testBit 4 = true ∧ a.protocol_sink ≠ 0) →
      (b.flags.testBit 2 = true →
        b.flags.testBit 3 = true ∧ b.flags.testBit 4 = true ∧ b.protocol_sink ≠ 0))
    (fun _ h => h) (fun _ _ _ h₁ h₂ h => h₂ (h₁ h)) ?_ ?_ ?_ ?_ ?_ fuel size p t r h hinv
  · intro a _ _ h
    exact h
  · intro a _ h
    simp only [clear_request_complete_testBit_two, clear_request_complete_testBit_three,
      clear_request_complete_testBit_four]
    exact h
  · intro a hres h
    rw [report_result_testBit, report_result_testBit, report_result_testBit,
      (report_result_same_fields a hres).1]
    simpa using h
  · intro a h
    rw [all_data_read_testBit, all_data_read_testBit, all_data_read_testBit,
      (all_data_read_same_fields a).1]
    by_cases hs : a.protocol_sink = 0
    · cases h2 : a.flags.testBit 2 <;> simp_all
    · cases h2 : a.flags.testBit 2 <;> cases h4 : a.flags.testBit 4 <;> simp_all
  · intro a h
    simp only [or_request_complete_testBit_two, or_request_complete_testBit_three,
      or_request_complete_testBit_four]
    exact h

/-- The property of `protocol_read_first_data` and the position after each call
of a sequence of reads. -/
theorem protocol_read_calls_first_data {τ : Type} (T : Transport τ) (fuel : Nat) :
    ∀ (sizes : List Nat) (p : Protocol) (t : τ) (rs : List (ReadResult τ)),
      protocol_read_calls T fuel sizes p t = some rs →
      p.current_position < ULONG_RANGE →
      (p.flags.testBit 2 = true →
        p.flags.testBit 3 = true ∧ p.flags.testBit 4 = true ∧ p.protocol_sink ≠ 0) →
      ∀ i r, rs[i]? = some r →
        (r.protocol.flags.testBit 2 = true →
          r.protocol.flags.testBit 3 = true ∧ r.protocol.flags.testBit 4 = true ∧
            r.protocol.protocol_sink ≠ 0) ∧
        r.protocol.current_position =
          (p.current_position + ((rs.take (i + 1)).map fun x => x.read_ret).sum)
            % ULONG_RANGE := by
  intro sizes
  induction sizes with
  | nil =>
    intro p t rs h _ _ i r hr
    unfold protocol_read_calls at h
    simp only [Option.some.injEq] at h
    subst h
    simp at hr
  | cons n rest ih =>
    intro p t rs h hpos hinv i r hr
    unfold protocol_read_calls at h
    cases h₁ : protocol_read T fuel n p t with
    | none => simp [h₁] at h
    | some r₁ =>
      simp only [h₁] at h
      cases h₂ : protocol_read_calls T fuel rest r₁.protocol r₁.transport with
      | none => simp [h₂] at h
      | some rs₁ =>
        simp only [h₂, Option.some.injEq] at h
        subst h
        have k₁ := protocol_read_first_data T fuel n p t r₁ h₁ hinv
        have k₂ := protocol_read_current_position T fuel n p t hpos r₁ h₁
        have hpos₁ : r₁.protocol.current_position < ULONG_RANGE := by
          rw [k₂]
          unfold add32
          exact Nat.mod_lt _ (by decide)
        cases i with
        | zero =>
          simp only [List.getElem?_cons_zero, Option.some.injEq] at hr
          subst hr
          refine ⟨k₁, ?_⟩
          rw [k₂]
          simp [add32]
        | succ j =>
          simp only [List.getElem?_cons_succ] at hr
          obtain ⟨a, b⟩ := ih r₁.protocol r₁.transport rs₁ h₂ hpos₁ k₁ j r hr
          refine ⟨a, ?_⟩
          rw [b, k₂]
          simp only [List.take_succ_cons, List.map_cons, List.sum_cons, add32]
          unfold ULONG_RANGE
          omega

/-- C17, as stated, fails: the first read of a fresh transfer whose transport
announces no data sets `FLAG_FIRST_DATA_REPORTED` (the notification carries
FirstChunk and LastChunk) while `current_position` is `0` and the read returned
no byte. -/
theorem first_data_reported_without_data :
    ∃ r, protocol_read_calls chunk_transport 2 [4] (fresh 1 0) [] = some [r] ∧
      r.protocol.flags &&& FLAG_FIRST_DATA_REPORTED ≠ 0 ∧
      r.protocol.current_position = 0 ∧ ¬ 0 < r.protocol.current_position ∧
      r.read_ret = 0 :=
  ⟨_, rfl, by decide, by decide, by decide, by decide⟩

/-- C17, amended: in every state reached from a fresh transfer
(`flags = FLAG_REQUEST_COMPLETE`, `current_position = 0`, with
`available_bytes = 0` or any other value) by a sequence of `protocol_read`
calls against any transport, if
`FLAG_FIRST_DATA_REPORTED` is set then `FLAG_ALL_DATA_READ` and
`FLAG_LAST_DATA_REPORTED` are set and a sink is attached: the flag is set by the
data notification sent at the end of the stream.  `current_position` is the sum
of the `*read_ret` values so far, modulo `2 ^ 32`, and may be `0`.  Against a
transport that never delivers more than it is asked for the sequence returns
when the fuel is twice each size. -/
theorem first_data_reported_at_end {τ : Type} (T : Transport τ) (fuel : Nat)
    (sizes : List Nat) (p : Protocol) (t : τ) (hflags : p.flags = FLAG_REQUEST_COMPLETE)
    (hpos : p.current_position = 0) :
    (∀ rs, protocol_read_calls T fuel sizes p t = some rs →
      ∀ i r, rs[i]? = some r →
        (r.protocol.flags &&& FLAG_FIRST_DATA_REPORTED ≠ 0 →
          r.protocol.flags &&& FLAG_ALL_DATA_READ ≠ 0 ∧
          r.protocol.flags &&& FLAG_LAST_DATA_REPORTED ≠ 0 ∧
          r.protocol.protocol_sink ≠ 0) ∧
        r.protocol.current_position =
          ((rs.take (i + 1)).map fun x => x.read_ret).sum % ULONG_RANGE) ∧
    (T.Bounded → (∀ n ∈ sizes, n < ULONG_RANGE ∧ 2 * n ≤ fuel) →
      ∃ rs, protocol_read_calls T fuel sizes p t = some rs) := by
  constructor
  · intro rs hrs i r hr
    have hinv : p.flags.testBit 2 = true →
        p.flags.testBit 3 = true ∧ p.flags.testBit 4 = true ∧ p.protocol_sink ≠ 0 := by
      rw [hflags]
      intro h
      exact absurd h (by decide)
    obtain ⟨a, b⟩ := protocol_read_calls_first_data T fuel sizes p t rs hrs
      (by rw [hpos]; decide) hinv i r hr
    refine ⟨?_, by rw [b, hpos, Nat.zero_add]⟩
    intro hf
    rw [Ne, flag_first_data_clear] at hf
    obtain ⟨a₁, a₂, a₃⟩ := a (by simpa using hf)
    refine ⟨?_, ?_, a₃⟩
    · rw [Ne, flag_all_data_read_clear]
      simp [a₁]
    · rw [Ne, flag_last_data_clear]
      simp [a₂]
  · intro hT hs
    have step : ∀ (l : List Nat) (q : Protocol) (u : τ),
        (∀ n ∈ l, n < ULONG_RANGE ∧ 2 * n ≤ fuel) →
        ∃ rs, protocol_read_calls T fuel l q u = some rs := by
      intro l
      induction l with
      | nil => intro q u _; exact ⟨[], rfl⟩
      | cons n rest ih =>
        intro q u hl
        have hn := hl n (by simp)
        obtain ⟨r₁, hr₁⟩ := protocol_read_terminates T hT fuel n hn.1 hn.2 q u
        obtain ⟨rs₁, hrs₁⟩ := ih r₁.protocol r₁.transport (fun m hm => hl m (by simp [hm]))
        exact ⟨r₁ :: rs₁, by simp only [protocol_read_calls, hr₁, hrs₁]⟩
    exact step sizes p t hs

/-- Witness for C17 (amended): the empty transfer of the counterexample. -/
theorem first_data_reported_at_end_witness :
    (fresh 1 0).flags = FLAG_REQUEST_COMPLETE ∧ (fresh 1 0).current_position = 0 ∧
    ∃ r, protocol_read_calls chunk_transport 2 [4] (fresh 1 0) [] = some [r] ∧
      r.protocol.flags &&& FLAG_FIRST_DATA_REPORTED ≠ 0 ∧
      (r.protocol.flags &&& FLAG_FIRST_DATA_REPORTED ≠ 0 →
        r.protocol.flags &&& FLAG_ALL_DATA_READ ≠ 0 ∧
        r.protocol.flags &&& FLAG_LAST_DATA_REPORTED ≠ 0 ∧
        r.protocol.protocol_sink ≠ 0) :=
  ⟨rfl, rfl, _, rfl, by decide,
    ((first_data_reported_at_end chunk_transport 2 [4] (fresh 1 0) [] rfl rfl).1
      _ rfl 0 _ rfl).1⟩

/-! ## Claim C19: how a read changes the flags -/

/-- From bit 1 to bit 31 of the flags, `protocol_read` clears no bit and sets
none beyond bits 2 to 5. -/
theorem protocol_read_flags_frame {τ : Type} (T : Transport τ) (fuel size : Nat)
    (p : Protocol) (t : τ) (r : ReadResult τ) (h : protocol_read T fuel size p t = some r) :
    ∀ i, 1 ≤ i → i < 32 →
      (p.flags.testBit i = true → r.protocol.flags.testBit i = true) ∧
      (i ≠ 2 → i ≠ 3 → i ≠ 4 → i ≠ 5 → r.protocol.flags.testBit i = p.flags.testBit i) := by
  refine protocol_read_rel T
    (fun a b => ∀ i, 1 ≤ i → i < 32 →
      (a.flags.testBit i = true → b.flags.testBit i = true) ∧
      (i ≠ 2 → i ≠ 3 → i ≠ 4 → i ≠ 5 → b.flags.testBit i = a.flags.testBit i))
    (fun _ _ _ _ => ⟨id, fun _ _ _ _ => rfl⟩)
    (fun a b c h₁ h₂ i hi hi' =>
      ⟨fun h => (h₂ i hi hi').1 ((h₁ i hi hi').1 h),
        fun n2 n3 n4 n5 => by
          rw [(h₂ i hi hi').2 n2 n3 n4 n5, (h₁ i hi hi').2 n2 n3 n4 n5]⟩)
    ?_ ?_ ?_ ?_ ?_ fuel size p t r h
  · intro a _ _ i _ _
    exact ⟨id, fun _ _ _ _ => rfl⟩
  · intro a _ i hi hi'
    have h0 : i ≠ 0 := by omega
    have e : (a.flags &&& (0xFFFFFFFF ^^^ FLAG_REQUEST_COMPLETE)).testBit i
        = a.flags.testBit i := by
      rw [testBit_clear_request_complete a.flags i hi']
      simp [h0]
    exact ⟨fun h => e.symm ▸ h, fun _ _ _ _ => e⟩
  · intro a hres i _ _
    rw [report_result_testBit]
    refine ⟨fun h => by simp [h], fun _ _ _ n5 => by simp [n5]⟩
  · intro a i _ _
    rw [all_data_read_testBit]
    refine ⟨fun h => by simp [h], fun n2 n3 n4 n5 => by simp [n2, n3, n4, n5]⟩
  · intro a i hi _
    have h0 : i ≠ 0 := by omega
    have e : (a.flags ||| FLAG_REQUEST_COMPLETE).testBit i = a.flags.testBit i := by
      rw [testBit_or_request_complete]
      simp [h0]
    exact ⟨fun h => e.symm ▸ h, fun _ _ _ _ => e⟩

/-- C19: a returning `protocol_read` call, from any state and whatever the
transport does, never clears `FLAG_FIRST_DATA_REPORTED`, `FLAG_ALL_DATA_READ`,
`FLAG_LAST_DATA_REPORTED` or `FLAG_RESULT_REPORTED`, and leaves
`FLAG_FIRST_CONTINUE_COMPLETE` and the unnamed bits 6 to 31 of the `DWORD` as
they were; only `FLAG_REQUEST_COMPLETE` may be cleared or set.  Against a
transport that never delivers more than it is asked for, fuel `2 * size` makes
the call return. -/
theorem protocol_read_flags {τ : Type} (T : Transport τ) (fuel size : Nat) (p : Protocol)
    (t : τ) :
    (∀ r, protocol_read T fuel size p t = some r →
      (p.flags &&& FLAG_FIRST_DATA_REPORTED ≠ 0 →
        r.protocol.flags &&& FLAG_FIRST_DATA_REPORTED ≠ 0) ∧
      (p.flags &&& FLAG_ALL_DATA_READ ≠ 0 → r.protocol.flags &&& FLAG_ALL_DATA_READ ≠ 0) ∧
      (p.flags &&& FLAG_LAST_DATA_REPORTED ≠ 0 →
        r.protocol.flags &&& FLAG_LAST_DATA_REPORTED ≠ 0) ∧
      (p.flags &&& FLAG_RESULT_REPORTED ≠ 0 →
        r.protocol.flags &&& FLAG_RESULT_REPORTED ≠ 0) ∧
      r.protocol.flags &&& FLAG_FIRST_CONTINUE_COMPLETE =
        p.flags &&& FLAG_FIRST_CONTINUE_COMPLETE ∧
      (∀ i, 6 ≤ i → i < 32 → r.protocol.flags.testBit i = p.flags.testBit i)) ∧
    (T.Bounded → size < ULONG_RANGE → 2 * size ≤ fuel →
      ∃ r, protocol_read T fuel size p t = some r) := by
  refine ⟨?_, fun hT hsize hfuel => protocol_read_terminates T hT fuel size hsize hfuel p t⟩
  intro r hr
  have k := protocol_read_flags_frame T fuel size p t r hr
  refine ⟨?_, ?_, ?_, ?_, ?_, ?_⟩
  · rw [Ne, Ne, flag_first_data_clear, flag_first_data_clear]
    intro h
    simp [(k 2 (by decide) (by decide)).1 (by simpa using h)]
  · rw [Ne, Ne, flag_all_data_read_clear, flag_all_data_read_clear]
    intro h
    simp [(k 3 (by decide) (by decide)).1 (by simpa using h)]
  · rw [Ne, Ne, flag_last_data_clear, flag_last_data_clear]
    intro h
    simp [(k 4 (by decide) (by decide)).1 (by simpa using h)]
  · rw [Ne, Ne, flag_result_reported_clear, flag_result_reported_clear]
    intro h
    simp [(k 5 (by decide) (by decide)).1 (by simpa using h)]
  · have e := (k 1 (by decide) (by decide)).2 (by decide) (by decide) (by decide) (by decide)
    rw [show FLAG_FIRST_CONTINUE_COMPLETE = 2 ^ 1 from rfl, Nat.and_two_pow, Nat.and_two_pow, e]
  · intro i hi hi'
    exact (k i (by omega) hi').2 (by omega) (by omega) (by omega) (by omega)

/-- Witness for C19: a read that reaches the end of the stream, started with
`FLAG_FIRST_CONTINUE_COMPLETE` and `FLAG_FIRST_DATA_REPORTED` set. -/
theorem protocol_read_flags_witness :
    ∃ r, protocol_read chunk_transport 2 4
        { flags := 0x07, protocol_sink := 1, current_position := 0, content_length := 0,
          available_bytes := 0, request := 1, internet := 1, lock := 0 } [] = some r ∧
      r.protocol.flags = 0x3F ∧
      r.protocol.flags &&& FLAG_FIRST_CONTINUE_COMPLETE =
        (0x07 : Nat) &&& FLAG_FIRST_CONTINUE_COMPLETE :=
  ⟨_, rfl, by decide,
    ((protocol_read_flags chunk_transport 2 4
      { flags := 0x07, protocol_sink := 1, current_position := 0, content_length := 0,
        available_bytes := 0, request := 1, internet := 1, lock := 0 } []).1 _ rfl).2.2.2.2.1⟩

/-! ## Claim C20: bounds on what is read -/

theorem report_result_events_all (q : Event → Bool) (hq : ∀ h, q (Event.ReportResult h) = true)
    (p : Protocol) (hres : Int) : (report_result p hres).2.2.all q = true := by
  unfold report_result
  split <;> simp [hq]

theorem report_data_events_all (q : Event → Bool)
    (hq : ∀ a b c, q (Event.ReportData a b c) = true) (p : Protocol) :
    (report_data p).2.all q = true := by
  unfold report_data
  split <;> simp [hq]

theorem all_data_read_events_all (q : Event → Bool) (hq₁ : ∀ h, q (Event.ReportResult h) = true)
    (hq₂ : ∀ a b c, q (Event.ReportData a b c) = true) (p : Protocol) :
    (all_data_read p).2.all q = true := by
  unfold all_data_read
  simp [report_result_events_all q hq₁, report_data_events_all q hq₂]

/-- One execution of the loop body with bytes announced and bytes still wanted:
the transport read is issued with the positive maximum
`min(available_bytes, size - read)`, and when the transport delivers no more
than that, `available_bytes -= len` does not underflow. -/
theorem protocol_read_body_read {τ : Type} (T : Transport τ) (hT : T.Bounded) (size : Nat)
    (hsize : size < ULONG_RANGE) (s : ReadLoop τ) (hlt : s.read < size)
    (ha : s.protocol.available_bytes ≠ 0) (hav : s.protocol.available_bytes < ULONG_RANGE) :
    0 < min s.protocol.available_bytes (size - s.read) ∧
    ∃ res len mid,
      (protocol_read_body T size s).2.events =
        s.events ++ Event.InternetReadFile (min s.protocol.available_bytes (size - s.read))
          res len :: mid ∧
      len ≤ min s.protocol.available_bytes (size - s.read) ∧
      len ≤ s.protocol.available_bytes ∧
      ((protocol_read_body T size s).1 = false →
        (protocol_read_body T size s).2.protocol.available_bytes + len =
          s.protocol.available_bytes ∧
        (protocol_read_body T size s).2.read = s.read + len) := by
  have hmin : (if s.protocol.available_bytes > size - s.read then size - s.read
      else s.protocol.available_bytes) = min s.protocol.available_bytes (size - s.read) := by
    split <;> omega
  have hb := hT s.transport
    (if s.protocol.available_bytes > size - s.read then size - s.read
      else s.protocol.available_bytes)
  have hmod := Nat.mod_le (T.InternetReadFile s.transport
    (if s.protocol.available_bytes > size - s.read then size - s.read
      else s.protocol.available_bytes)).1.len ULONG_RANGE
  refine ⟨by omega, ?_⟩
  refine protocol_read_body_cases T size s
    (fun b => ∃ res len mid,
      b.2.events =
        s.events ++ Event.InternetReadFile (min s.protocol.available_bytes (size - s.read))
          res len :: mid ∧
      len ≤ min s.protocol.available_bytes (size - s.read) ∧
      len ≤ s.protocol.available_bytes ∧
      (b.1 = false →
        b.2.protocol.available_bytes + len = s.protocol.available_bytes ∧
        b.2.read = s.read + len))
    ?_ ?_ ?_ ?_ ?_ ?_ ?_
  · intro _ _
    rw [hmin] at hb hmod ⊢
    refine ⟨_, _, _, by simp only [List.append_assoc, List.singleton_append]; rfl,
      by omega, by omega, fun h => by simp at h⟩
  · intro _ _ _
    rw [hmin]
    refine ⟨_, _, _, by simp only [List.append_assoc, List.singleton_append]; rfl,
      by omega, by omega, fun h => by simp at h⟩
  · intro _ _ _
    rw [hmin] at hb hmod ⊢
    refine ⟨_, _, [], rfl, by omega, by omega, fun _ => ?_⟩
    generalize (T.InternetReadFile s.transport
      (min s.protocol.available_bytes (size - s.read))).1.len % ULONG_RANGE = len at *
    simp only [add32, sub32]
    unfold ULONG_RANGE at *
    omega
  · intro h; exact absurd h ha
  · intro h; exact absurd h ha
  · intro h; exact absurd h ha
  · intro h; exact absurd h ha

/-- Against a transport that never delivers more than it is asked for, the loop
keeps `read <= size` and `available_bytes` within a `ULONG`, and every
`InternetReadFile` call it makes is within bounds. -/
theorem protocol_read_loop_within {τ : Type} (T : Transport τ) (hT : T.Bounded)
    (size fuel : Nat) (hsize : size < ULONG_RANGE) (s s' : ReadLoop τ)
    (h : s.read ≤ size ∧ s.protocol.available_bytes < ULONG_RANGE ∧
      s.events.all (Event.readWithin size) = true)
    (hrun : protocol_read_loop T size fuel s = some s') :
    s'.read ≤ size ∧ s'.protocol.available_bytes < ULONG_RANGE ∧
      s'.events.all (Event.readWithin size) = true := by
  have hR : 0 < ULONG_RANGE := by decide
  have step : ∀ x : ReadLoop τ,
      (x.read ≤ size ∧ x.protocol.available_bytes < ULONG_RANGE ∧
        x.events.all (Event.readWithin size) = true) → x.read < size →
      ((protocol_read_body T size x).2.read ≤ size ∧
        (protocol_read_body T size x).2.protocol.available_bytes < ULONG_RANGE ∧
        (protocol_read_body T size x).2.events.all (Event.readWithin size) = true) := by
    intro x ⟨hle, hav, hall⟩ hlt
    have hb := hT x.transport
      (if x.protocol.available_bytes > size - x.read then size - x.read
        else x.protocol.available_bytes)
    have hmod := Nat.mod_le (T.InternetReadFile x.transport
      (if x.protocol.available_bytes > size - x.read then size - x.read
        else x.protocol.available_bytes)).1.len ULONG_RANGE
    have hmax : (if x.protocol.available_bytes > size - x.read then size - x.read
        else x.protocol.available_bytes) ≤ size - x.read := by
      split <;> omega
    refine protocol_read_body_cases T size x
      (fun b => b.2.read ≤ size ∧ b.2.protocol.available_bytes < ULONG_RANGE ∧
        b.2.events.all (Event.readWithin size) = true) ?_ ?_ ?_ ?_ ?_ ?_ ?_
    · intro ha _
      have hpos : 0 < (if x.protocol.available_bytes > size - x.read then size - x.read
          else x.protocol.available_bytes) := by
        split <;> omega
      refine ⟨hle, by rw [report_result_available_bytes]; exact hav, ?_⟩
      simp only [List.all_append, hall, Bool.true_and, List.all_cons, List.all_nil,
        Bool.and_true, report_result_events_all (Event.readWithin size) (fun _ => rfl),
        Event.readWithin, decide_eq_true_eq]
      exact ⟨hpos, by omega, by omega⟩
    · intro ha _ _
      have hpos : 0 < (if x.protocol.available_bytes > size - x.read then size - x.read
          else x.protocol.available_bytes) := by
        split <;> omega
      refine ⟨hle, by rw [all_data_read_available_bytes]; exact hav, ?_⟩
      simp only [List.all_append, hall, Bool.true_and, List.all_cons, List.all_nil,
        Bool.and_true,
        all_data_read_events_all (Event.readWithin size) (fun _ => rfl) (fun _ _ _ => rfl),
        Event.readWithin, decide_eq_true_eq]
      exact ⟨hpos, by omega, by omega⟩
    · intro ha _ _
      have hpos : 0 < (if x.protocol.available_bytes > size - x.read then size - x.read
          else x.protocol.available_bytes) := by
        split <;> omega
      refine ⟨?_, ?_, ?_⟩
      · simp only [add32]
        rw [Nat.mod_eq_of_lt (by omega)]
        omega
      · simp only [sub32]
        exact Nat.mod_lt _ hR
      · simp only [List.all_append, hall, Bool.true_and, List.all_cons, List.all_nil,
          Bool.and_true, Event.readWithin, decide_eq_true_eq]
        exact ⟨hpos, by omega, by omega⟩
    · intro _ _ _
      refine ⟨hle, Nat.mod_lt _ hR, ?_⟩
      simp [List.all_append, hall, Event.readWithin]
    · intro _ _ _
      refine ⟨hle, by rw [report_result_available_bytes]; exact Nat.mod_lt _ hR, ?_⟩
      simp [List.all_append, hall, Event.readWithin,
        report_result_events_all (Event.readWithin size) (fun _ => rfl)]
    · intro _ _ _
      refine ⟨hle, by rw [all_data_read_available_bytes]; exact hR, ?_⟩
      simp [List.all_append, hall, Event.readWithin,
        all_data_read_events_all (Event.readWithin size) (fun _ => rfl) (fun _ _ _ => rfl)]
    · intro _ _ _
      refine ⟨hle, Nat.mod_lt _ hR, ?_⟩
      simp [List.all_append, hall, Event.readWithin]
  exact protocol_read_loop_rule T size
    (fun x => x.read ≤ size ∧ x.protocol.available_bytes < ULONG_RANGE ∧
      x.events.all (Event.readWithin size) = true)
    (fun x => x.read ≤ size ∧ x.protocol.available_bytes < ULONG_RANGE ∧
      x.events.all (Event.readWithin size) = true)
    (fun x hx hlt _ => step x hx hlt) (fun x hx hlt _ => step x hx hlt) (fun x hx _ => hx)
    fuel s s' h hrun

/-- C20: against a transport whose `InternetReadFile` never delivers more than
the maximum it is given, every returning `protocol_read` call has
`*read_ret <= size`; each `InternetReadFile` call it makes has a positive
maximum, at most `size`, and stores a count at most that maximum; in the loop
body the maximum is `min(available_bytes, size - read)` and
`available_bytes -= len` does not underflow (`len <= available_bytes`, and the
new value plus `len` is the old value).  Fuel `2 * size` makes the call
return. -/
theorem protocol_read_within_size {τ : Type} (T : Transport τ) (hT : T.Bounded)
    (fuel size : Nat) (p : Protocol) (t : τ) (hsize : size < ULONG_RANGE)
    (hav : p.available_bytes < ULONG_RANGE) :
    (∀ r, protocol_read T fuel size p t = some r →
      r.read_ret ≤ size ∧ r.protocol.available_bytes < ULONG_RANGE ∧
      (∀ max res len, Event.InternetReadFile max res len ∈ r.events →
        0 < max ∧ max ≤ size ∧ len ≤ max)) ∧
    (∀ s : ReadLoop τ, s.read < size → s.protocol.available_bytes ≠ 0 →
      s.protocol.available_bytes < ULONG_RANGE →
      0 < min s.protocol.available_bytes (size - s.read) ∧
      ∃ res len mid,
        (protocol_read_body T size s).2.events =
          s.events ++ Event.InternetReadFile (min s.protocol.available_bytes (size - s.read))
            res len :: mid ∧
        len ≤ min s.protocol.available_bytes (size - s.read) ∧
        len ≤ s.protocol.available_bytes ∧
        ((protocol_read_body T size s).1 = false →
          (protocol_read_body T size s).2.protocol.available_bytes + len =
            s.protocol.available_bytes ∧
          (protocol_read_body T size s).2.read = s.read + len)) ∧
    (2 * size ≤ fuel → ∃ r, protocol_read T fuel size p t = some r) := by
  refine ⟨?_, fun s hlt ha hav' => protocol_read_body_read T hT size hsize s hlt ha hav',
    fun hfuel => protocol_read_terminates T hT fuel size hsize hfuel p t⟩
  intro r hr
  rcases protocol_read_some T fuel size p t r hr with ⟨h₁, _, h₃, h₄, _⟩ | ⟨_, _, s, hs, rfl⟩
  · rw [h₁, h₃, h₄]
    exact ⟨Nat.zero_le _, hav, fun _ _ _ h => by simp at h⟩
  · obtain ⟨k₁, k₂, k₃⟩ := protocol_read_loop_within T hT size fuel hsize
      { protocol := p, transport := t, read := 0, hres := S_FALSE, events := [] } s
      ⟨Nat.zero_le _, hav, rfl⟩ hs
    refine ⟨k₁, ?_, ?_⟩
    · by_cases he : s.hres = E_PENDING
      · simpa [he] using k₂
      · simpa [he] using k₂
    · intro max res len hmem
      have := (List.all_eq_true.1 k₃) _ hmem
      simpa [Event.readWithin] using this

/-- Witness for C20: chunks of 3 and 4 bytes, 5 bytes asked for. -/
theorem protocol_read_within_size_witness :
    (5 : Nat) < ULONG_RANGE ∧ (fresh 1 7).available_bytes < ULONG_RANGE ∧
    ∃ r, protocol_read chunk_transport 10 5 (fresh 1 7) [3, 4] = some r ∧
      r.events = [Event.InternetQueryDataAvailable true 3 false,
        Event.InternetReadFile 3 true 3, Event.InternetQueryDataAvailable true 4 false,
        Event.InternetReadFile 2 true 2] ∧
      r.read_ret ≤ 5 :=
  ⟨by decide, by decide, _, rfl, by decide,
    ((protocol_read_within_size chunk_transport chunk_transport_bounded 10 5 (fresh 1 7)
      [3, 4] (by decide) (by decide)).1 _ rfl).1⟩

/-! ## Claim C21: the loop terminates -/

theorem report_result_transport_count (p : Protocol) (hres : Int) :
    (report_result p hres).2.2.countP Event.isTransport = 0 := by
  unfold report_result
  split <;> simp [Event.isTransport]

theorem report_data_transport_count (p : Protocol) :
    (report_data p).2.countP Event.isTransport = 0 := by
  unfold report_data
  split <;> simp [Event.isTransport]

theorem all_data_read_transport_count (p : Protocol) :
    (all_data_read p).2.countP Event.isTransport = 0 := by
  unfold all_data_read
  simp [List.countP_append, report_result_transport_count, report_data_transport_count]

/-- Each execution of the loop body makes exactly one call to the transport. -/
theorem protocol_read_body_transport_count {τ : Type} (T : Transport τ) (size : Nat)
    (s : ReadLoop τ) :
    (protocol_read_body T size s).2.events.countP Event.isTransport =
      s.events.countP Event.isTransport + 1 := by
  refine protocol_read_body_cases T size s
    (fun b => b.2.events.countP Event.isTransport = s.events.countP Event.isTransport + 1)
    ?_ ?_ ?_ ?_ ?_ ?_ ?_
  · intro _ _
    simp [List.countP_append, Event.isTransport, report_result_transport_count]
  · intro _ _ _
    simp [List.countP_append, Event.isTransport, all_data_read_transport_count]
  · intro _ _ _
    simp [List.countP_append, Event.isTransport]
  · intro _ _ _
    simp [List.countP_append, Event.isTransport]
  · intro _ _ _
    simp [List.countP_append, Event.isTransport, report_result_transport_count]
  · intro _ _ _
    simp [List.countP_append, Event.isTransport, all_data_read_transport_count]
  · intro _ _ _
    simp [List.countP_append, Event.isTransport]

/-- Progress of one execution of the loop body, against a transport that never
delivers more than it is asked for: the body leaves the loop, or `read` grows
(staying within `size`), or `available_bytes` goes from zero to non-zero with
`read` unchanged. -/
theorem protocol_read_body_progress {τ : Type} (T : Transport τ) (hT : T.Bounded)
    (size : Nat) (hsize : size < ULONG_RANGE) (s : ReadLoop τ) (hlt : s.read < size) :
    ((protocol_read_body T size s).1 = true ∨
      (s.read < (protocol_read_body T size s).2.read ∧
        (protocol_read_body T size s).2.read ≤ size) ∨
      (s.protocol.available_bytes = 0 ∧
        (protocol_read_body T size s).2.protocol.available_bytes ≠ 0 ∧
        (protocol_read_body T size s).2.read = s.read)) ∧
    (s.protocol.available_bytes ≠ 0 →
      (protocol_read_body T size s).1 = true ∨
        (s.read < (protocol_read_body T size s).2.read ∧
          (protocol_read_body T size s).2.read ≤ size)) := by
  have hb := hT s.transport
    (if s.protocol.available_bytes > size - s.read then size - s.read
      else s.protocol.available_bytes)
  have hmax : (if s.protocol.available_bytes > size - s.read then size - s.read
      else s.protocol.available_bytes) ≤ size - s.read := by
    split <;> omega
  have hmod := Nat.mod_le (T.InternetReadFile s.transport
    (if s.protocol.available_bytes > size - s.read then size - s.read
      else s.protocol.available_bytes)).1.len ULONG_RANGE
  refine protocol_read_body_cases T size s
    (fun b => (b.1 = true ∨ (s.read < b.2.read ∧ b.2.read ≤ size) ∨
        (s.protocol.available_bytes = 0 ∧ b.2.protocol.available_bytes ≠ 0 ∧
          b.2.read = s.read)) ∧
      (s.protocol.available_bytes ≠ 0 →
        b.1 = true ∨ (s.read < b.2.read ∧ b.2.read ≤ size)))
    ?_ ?_ ?_ ?_ ?_ ?_ ?_
  · intro _ _
    exact ⟨Or.inl rfl, fun _ => Or.inl rfl⟩
  · intro _ _ _
    exact ⟨Or.inl rfl, fun _ => Or.inl rfl⟩
  · intro _ _ hne
    have key : s.read < add32 s.read ((T.InternetReadFile s.transport
          (if s.protocol.available_bytes > size - s.read then size - s.read
            else s.protocol.available_bytes)).1.len % ULONG_RANGE) ∧
        add32 s.read ((T.InternetReadFile s.transport
          (if s.protocol.available_bytes > size - s.read then size - s.read
            else s.protocol.available_bytes)).1.len % ULONG_RANGE) ≤ size := by
      generalize (T.InternetReadFile s.transport
        (if s.protocol.available_bytes > size - s.read then size - s.read
          else s.protocol.available_bytes)).1.len % ULONG_RANGE = len at *
      unfold add32
      rw [Nat.mod_eq_of_lt (by omega)]
      omega
    exact ⟨Or.inr (Or.inl key), fun _ => Or.inr key⟩
  · intro _ _ _
    exact ⟨Or.inl rfl, fun _ => Or.inl rfl⟩
  · intro _ _ _
    exact ⟨Or.inl rfl, fun _ => Or.inl rfl⟩
  · intro _ _ _
    exact ⟨Or.inl rfl, fun _ => Or.inl rfl⟩
  · intro ha _ hne
    exact ⟨Or.inr (Or.inr ⟨ha, hne, rfl⟩), fun h => absurd ha h⟩

/-- Against a transport that never delivers more than it is asked for, the
transport calls made so far plus the executions of the body still possible
never exceed the bound fixed at the start of the loop. -/
theorem protocol_read_loop_iterations {τ : Type} (T : Transport τ) (hT : T.Bounded)
    (size fuel bound : Nat) (hsize : size < ULONG_RANGE) (s s' : ReadLoop τ)
    (h : s.events.countP Event.isTransport ≤ bound ∧
      (s.read < size →
        s.events.countP Event.isTransport + 2 * (size - s.read) ≤
          bound + (if s.protocol.available_bytes ≠ 0 then 1 else 0)))
    (hrun : protocol_read_loop T size fuel s = some s') :
    s'.events.countP Event.isTransport ≤ bound := by
  refine protocol_read_loop_rule T size
    (fun x => x.events.countP Event.isTransport ≤ bound ∧
      (x.read < size →
        x.events.countP Event.isTransport + 2 * (size - x.read) ≤
          bound + (if x.protocol.available_bytes ≠ 0 then 1 else 0)))
    (fun x => x.events.countP Event.isTransport ≤ bound) ?_ ?_ ?_ fuel s s' h hrun
  · intro x ⟨_, hx⟩ hlt hcont
    have hx := hx hlt
    have hc := protocol_read_body_transport_count T size x
    obtain ⟨hp, _⟩ := protocol_read_body_progress T hT size hsize x hlt
    rw [hc]
    have hx' : x.events.countP Event.isTransport + 2 * (size - x.read) ≤ bound + 1 := by
      split at hx <;> omega
    rcases hp with hbrk | ⟨h₁, h₂⟩ | ⟨h₁, h₂, h₃⟩
    · rw [hcont] at hbrk
      exact absurd hbrk (by decide)
    · refine ⟨by omega, fun _ => ?_⟩
      split <;> omega
    · refine ⟨by omega, fun _ => ?_⟩
      simp only [h₁, ne_eq, not_true_eq_false, if_false, Nat.add_zero] at hx
      simp only [ne_eq, h₂, not_false_eq_true, if_true, h₃]
      omega
  · intro x ⟨_, hx⟩ hlt _
    have hx := hx hlt
    rw [protocol_read_body_transport_count T size x]
    split at hx <;> omega
  · intro x ⟨hx, _⟩ _
    exact hx

/-- C21: against a transport whose `InternetReadFile` delivers at most the
maximum it is given, for every transfer and every size `n` (a `ULONG`): each
execution of the loop body with `read < n` leaves the loop, or strictly
increases `read`, or turns `available_bytes` from zero to non-zero, and an
execution that starts with `available_bytes` non-zero leaves the loop or
increases `read`; each execution makes exactly one transport call; the loop,
started as `protocol_read` starts it, ends within `2 * n` executions of its
body (fuel `2 * n` suffices, and a run of any length has made at most `2 * n`
transport calls); hence `protocol_read` returns. -/
theorem protocol_read_loop_bound {τ : Type} (T : Transport τ) (hT : T.Bounded) (size : Nat)
    (hsize : size < ULONG_RANGE) (p : Protocol) (t : τ) :
    (∀ s : ReadLoop τ, s.read < size →
      ((protocol_read_body T size s).1 = true ∨
        (s.read < (protocol_read_body T size s).2.read ∧
          (protocol_read_body T size s).2.read ≤ size) ∨
        (s.protocol.available_bytes = 0 ∧
          (protocol_read_body T size s).2.protocol.available_bytes ≠ 0 ∧
          (protocol_read_body T size s).2.read = s.read)) ∧
      (s.protocol.available_bytes ≠ 0 →
        (protocol_read_body T size s).1 = true ∨
          (s.read < (protocol_read_body T size s).2.read ∧
            (protocol_read_body T size s).2.read ≤ size)) ∧
      (protocol_read_body T size s).2.events.countP Event.isTransport =
        s.events.countP Event.isTransport + 1) ∧
    (∃ s', protocol_read_loop T size (2 * size)
        { protocol := p, transport := t, read := 0, hres := S_FALSE, events := [] } = some s') ∧
    (∀ fuel s', protocol_read_loop T size fuel
        { protocol := p, transport := t, read := 0, hres := S_FALSE, events := [] } = some s' →
      s'.events.countP Event.isTransport ≤ 2 * size) ∧
    (∃ r, protocol_read T (2 * size) size p t = some r) := by
  refine ⟨?_, ?_, ?_, protocol_read_terminates T hT (2 * size) size hsize (Nat.le_refl _) p t⟩
  · intro s hlt
    obtain ⟨h₁, h₂⟩ := protocol_read_body_progress T hT size hsize s hlt
    exact ⟨h₁, h₂, protocol_read_body_transport_count T size s⟩
  · exact protocol_read_loop_terminates T hT size hsize (2 * size)
      { protocol := p, transport := t, read := 0, hres := S_FALSE, events := [] }
      (Nat.zero_le _) (by simp only [Nat.sub_zero]; omega)
  · intro fuel s' hs'
    exact protocol_read_loop_iterations T hT size fuel (2 * size) hsize
      { protocol := p, transport := t, read := 0, hres := S_FALSE, events := [] } s'
      ⟨Nat.zero_le _, fun _ => by
        simp only [List.countP_nil, Nat.sub_zero, Nat.zero_add]; omega⟩ hs'

/-- Witness for C21: chunks of one byte make a read of 3 bytes run the loop
body `2 * 3` times. -/
theorem protocol_read_loop_bound_witness :
    chunk_transport.Bounded ∧ (3 : Nat) < ULONG_RANGE ∧
    ∃ s', protocol_read_loop chunk_transport 3 (2 * 3)
        { protocol := fresh 1 3, transport := [1, 1, 1], read := 0, hres := S_FALSE,
          events := [] } = some s' ∧
      s'.read = 3 ∧ s'.events.countP Event.isTransport = 2 * 3 ∧
      s'.events.countP Event.isTransport ≤ 2 * 3 :=
  ⟨chunk_transport_bounded, by decide, _, rfl, by decide, by decide,
    (protocol_read_loop_bound chunk_transport chunk_transport_bounded 3 (by decide)
      (fresh 1 3) [1, 1, 1]).2.2.1 (2 * 3) _ rfl⟩

end Urlmon
